import Mathlib

/-!
# Direct operations of the mint: `CreateOperation.Validate` and `CreateOperation.Execute`

A shallow embedding of `mint/endpoint/create_operation.go`.

* Go's `*big.Int` values are Lean `Int`s (exact arithmetic).
* A Go `*string` is an `Option String`; dereferencing `nil` is a runtime fault.
* The SQL store is a record of row lists.  A store session is explicit: `db.Begin`
  opens a working copy, every store call acts on the working copy, `db.Commit`
  publishes it and the deferred `db.LoggedRollback` discards whatever is unpublished.
* Every store call may return an error; which call sites do is a parameter of `Execute`.
-/

namespace Settle

/-! ## Errors -/

/-- The six store call sites of `CreateOperation.Execute`, in source order. -/
inductive StoreCall where
  | loadAsset
  | loadSrcBalance
  | loadOrCreateDstBalance
  | createOperation
  | saveDstBalance
  | saveSrcBalance
deriving DecidableEq, Repr

/-- An error value returned by an endpoint: either a user error built by
`errors.NewUserErrorf(cause, status, code, ...)`, or an error of the store that is traced
up unchanged (the `// 500` returns). -/
inductive Error where
  | user (status : Nat) (code : String)
  | store (call : StoreCall)
deriving DecidableEq, Repr

deriving instance DecidableEq for Except

/-! ## Store rows -/

/-- Row of the asset table, with its natural key (owner, code, scale). -/
structure Asset where
  Owner : String
  Code : String
  Scale : Int
deriving DecidableEq, Repr

/-- Row of the balance table; unique per (asset, holder). -/
structure Balance where
  Asset : String
  Holder : String
  Value : Int
deriving DecidableEq, Repr

/-- Status of an operation row. -/
inductive OpStatus where
  | reserved
  | settled
  | canceled
deriving DecidableEq, Repr

/-- Row of the operation table. -/
structure Operation where
  Owner : String
  Asset : String
  Source : Option String
  Destination : Option String
  Amount : Int
  Status : OpStatus
deriving DecidableEq, Repr

/-- The persisted state of one mint, restricted to the tables a direct operation touches. -/
structure Store where
  assets : List Asset
  balances : List Balance
  operations : List Operation
deriving DecidableEq, Repr

/-- A call received by the store, with the natural key it addresses. -/
inductive Event where
  | loadAsset (owner code : String) (scale : Int)
  | loadBalance (asset holder : String)
  | createBalance (asset holder : String)
  | saveBalance (asset holder : String) (value : Int)
  | createOperation (asset : String) (source destination : Option String) (amount : Int)
deriving DecidableEq, Repr

/-- The store together with its (at most one) open session: `committed` is what every
other session sees, `working` is the working copy of the open session, `log` records the
calls the store received. -/
structure DB where
  committed : Store
  working : Store
  log : List Event
deriving DecidableEq, Repr

/-- Modelled from the spec: `model.MaxAssetAmount`, the exclusive upper bound `2^128` of the
amount invariant `0 ≤ amount < 2^128` (the constant is declared in `mint/model`). -/
def MaxAssetAmount : Int := 2 ^ 128

/-! ## Store session primitives -/

/-- Modelled from the spec: `db.Begin` (package `lib/db`), opens a session whose working
copy starts as the committed store. -/
def Begin (db : DB) : DB :=
  { db with working := db.committed }

/-- Modelled from the spec: `db.Commit` (package `lib/db`), publishes the working copy of
the session. -/
def Commit (ctx : DB) : DB :=
  { ctx with committed := ctx.working }

/-- Modelled from the spec: `db.LoggedRollback` (package `lib/db`), discards whatever the
session wrote and did not commit; after a commit there is nothing left to discard. -/
def LoggedRollback (ctx : DB) : DB :=
  { ctx with working := ctx.committed }

/-- Append a call to the log of the store. -/
def record (ctx : DB) (ev : Event) : DB :=
  { ctx with log := ctx.log ++ [ev] }

/-- First asset row of the list with the given natural key. -/
def findAsset (owner code : String) (scale : Int) (rows : List Asset) : Option Asset :=
  rows.find? (fun a => decide (a.Owner = owner ∧ a.Code = code ∧ a.Scale = scale))

/-- Modelled from the spec: `model.LoadAssetByOwnerCodeScale` (package `mint/model`),
`load_by_natural_key` on the asset table: the row or nothing, or a store error. -/
def LoadAssetByOwnerCodeScale (fail : StoreCall → Bool) (ctx : DB)
    (owner code : String) (scale : Int) : DB × Except Error (Option Asset) :=
  let ctx := record ctx (Event.loadAsset owner code scale)
  if fail StoreCall.loadAsset then (ctx, Except.error (Error.store StoreCall.loadAsset))
  else (ctx, Except.ok (findAsset owner code scale ctx.working.assets))

/-- First balance row of the list with the given natural key. -/
def findBalance (asset holder : String) (bs : List Balance) : Option Balance :=
  bs.find? (fun b => decide (b.Asset = asset ∧ b.Holder = holder))

/-- Modelled from the spec: `model.LoadBalanceByAssetHolder` (package `mint/model`),
`load_by_natural_key` on the balance table: a fresh in-memory copy of the row, or nothing,
or a store error. -/
def LoadBalanceByAssetHolder (site : StoreCall) (fail : StoreCall → Bool) (ctx : DB)
    (asset holder : String) : DB × Except Error (Option Balance) :=
  let ctx := record ctx (Event.loadBalance asset holder)
  if fail site then (ctx, Except.error (Error.store site))
  else (ctx, Except.ok (findBalance asset holder ctx.working.balances))

/-- Modelled from the spec: `model.LoadOrCreateBalanceByAssetHolder` (package `mint/model`),
which "under the session, atomically initialises a zero balance if absent". -/
def LoadOrCreateBalanceByAssetHolder (fail : StoreCall → Bool) (ctx : DB)
    (asset holder : String) : DB × Except Error Balance :=
  let ctx := record ctx (Event.loadBalance asset holder)
  if fail StoreCall.loadOrCreateDstBalance then
    (ctx, Except.error (Error.store StoreCall.loadOrCreateDstBalance))
  else
    match findBalance asset holder ctx.working.balances with
    | some b => (ctx, Except.ok b)
    | none =>
      let b : Balance := { Asset := asset, Holder := holder, Value := 0 }
      let ctx := record ctx (Event.createBalance asset holder)
      ({ ctx with working := { ctx.working with balances := ctx.working.balances ++ [b] } },
        Except.ok b)

/-- Modelled from the spec: `model.CreateCanonicalOperation` (package `mint/model`), writes
an operation row, with status `settled` for an operation created directly. -/
def CreateCanonicalOperation (fail : StoreCall → Bool) (ctx : DB) (owner asset : String)
    (source destination : Option String) (amount : Int) : DB × Except Error Operation :=
  let ctx := record ctx (Event.createOperation asset source destination amount)
  if fail StoreCall.createOperation then
    (ctx, Except.error (Error.store StoreCall.createOperation))
  else
    let op : Operation :=
      { Owner := owner, Asset := asset, Source := source, Destination := destination,
        Amount := amount, Status := OpStatus.settled }
    ({ ctx with working := { ctx.working with operations := ctx.working.operations ++ [op] } },
      Except.ok op)

/-- Write `b` over the first row with its key, or insert it when there is none. -/
def upsert (b : Balance) : List Balance → List Balance
  | [] => [b]
  | x :: xs =>
    if x.Asset = b.Asset ∧ x.Holder = b.Holder then b :: xs else x :: upsert b xs

/-- Modelled from the spec: `(*model.Balance).Save` (package `mint/model`), insert-or-update
of the row the in-memory balance was loaded from. -/
def Balance.Save (site : StoreCall) (fail : StoreCall → Bool) (ctx : DB) (b : Balance) :
    DB × Except Error Unit :=
  let ctx := record ctx (Event.saveBalance b.Asset b.Holder b.Value)
  if fail site then (ctx, Except.error (Error.store site))
  else ({ ctx with working := { ctx.working with balances := upsert b ctx.working.balances } },
    Except.ok ())

/-! ## The endpoint -/

/-- The asset named by the request, as parsed by `mint.AssetResourceFromName`. -/
structure AssetResource where
  Name : String
  Owner : String
  Code : String
  Scale : Int
deriving DecidableEq, Repr

/-- The Go struct `CreateOperation` (the `Client` field plays no part in the endpoint). -/
structure CreateOperation where
  Owner : String
  Asset : AssetResource
  Amount : Int
  Source : Option String
  Destination : Option String
deriving DecidableEq, Repr

/-- Sequencing of store calls: an error returns at once, keeping the session as it is. -/
def andThen {α β : Type} (r : DB × Except Error α) (k : DB → α → DB × Except Error β) :
    DB × Except Error β :=
  match r with
  | (ctx, Except.error err) => (ctx, Except.error err)
  | (ctx, Except.ok a) => k ctx a

/-- The test applied to a balance after the arithmetic:
`new(big.Int).Abs(b).Cmp(model.MaxAssetAmount) >= 0 || b.Cmp(new(big.Int)) < 0`. -/
def invalidBalance (b : Int) : Bool :=
  decide (MaxAssetAmount ≤ |b| ∨ b < 0)

/-- The asset name `fmt.Sprintf("%s[%s.%d]", asset.Owner, asset.Code, asset.Scale)`. -/
def assetNameOf (asset : Asset) : String :=
  asset.Owner ++ "[" ++ asset.Code ++ "." ++ toString asset.Scale ++ "]"

/-- Lines 175-189 of `Execute`: the source balance is loaded unless the source is absent or
is the issuer; a source without a row is rejected. -/
def Execute.loadSrc (fail : StoreCall → Bool) (e : CreateOperation) (assetName : String)
    (ctx : DB) : DB × Except Error (Option Balance) :=
  match e.Source with
  | none => (ctx, Except.ok none)
  | some src =>
    if e.Asset.Owner ≠ src then
      andThen (LoadBalanceByAssetHolder StoreCall.loadSrcBalance fail ctx assetName src)
        fun ctx srcBalance =>
          match srcBalance with
          | none => (ctx, Except.error (Error.user 400 "source_invalid"))
          | some b => (ctx, Except.ok (some b))
    else (ctx, Except.ok none)

/-- Lines 191-202 of `Execute`: the destination balance is loaded, or created holding zero,
unless the destination is absent or is the issuer. -/
def Execute.loadDst (fail : StoreCall → Bool) (e : CreateOperation) (assetName : String)
    (ctx : DB) : DB × Except Error (Option Balance) :=
  match e.Destination with
  | none => (ctx, Except.ok none)
  | some dst =>
    if e.Asset.Owner ≠ dst then
      andThen (LoadOrCreateBalanceByAssetHolder fail ctx assetName dst)
        fun ctx b => (ctx, Except.ok (some b))
    else (ctx, Except.ok none)

/-- Lines 212-232 of `Execute`: credit the in-memory destination balance, check it, save
it. -/
def Execute.creditDst (fail : StoreCall → Bool) (dstBalance : Option Balance)
    (operation : Operation) (ctx : DB) : DB × Except Error Unit :=
  match dstBalance with
  | none => (ctx, Except.ok ())
  | some d =>
    let d : Balance := { d with Value := d.Value + operation.Amount }
    if invalidBalance d.Value then (ctx, Except.error (Error.user 400 "amount_invalid"))
    else Balance.Save StoreCall.saveDstBalance fail ctx d

/-- Lines 234-254 of `Execute`: debit the in-memory source balance, check it, save it. -/
def Execute.debitSrc (fail : StoreCall → Bool) (srcBalance : Option Balance)
    (operation : Operation) (ctx : DB) : DB × Except Error Unit :=
  match srcBalance with
  | none => (ctx, Except.ok ())
  | some s =>
    let s : Balance := { s with Value := s.Value - operation.Amount }
    if invalidBalance s.Value then (ctx, Except.error (Error.user 400 "amount_invalid"))
    else Balance.Save StoreCall.saveSrcBalance fail ctx s

/-- Lines 169-263 of `Execute`: what runs once the asset is loaded.  On success the
session is committed and the response is status 201 with the operation. -/
def Execute.apply (fail : StoreCall → Bool) (e : CreateOperation) (asset : Asset) (ctx : DB) :
    DB × Except Error (Nat × Operation) :=
  let assetName := assetNameOf asset
  andThen (Execute.loadSrc fail e assetName ctx) fun ctx srcBalance =>
  andThen (Execute.loadDst fail e assetName ctx) fun ctx dstBalance =>
  andThen (CreateCanonicalOperation fail ctx e.Owner assetName e.Source e.Destination e.Amount)
    fun ctx operation =>
  andThen (Execute.creditDst fail dstBalance operation ctx) fun ctx _ =>
  andThen (Execute.debitSrc fail srcBalance operation ctx) fun ctx _ =>
  (Commit ctx, Except.ok (201, operation))

/-- Lines 157-263 of `Execute`: the body that runs inside the session. -/
def Execute.body (fail : StoreCall → Bool) (e : CreateOperation) (ctx : DB) :
    DB × Except Error (Nat × Operation) :=
  andThen (LoadAssetByOwnerCodeScale fail ctx e.Owner e.Asset.Code e.Asset.Scale)
    fun ctx asset? =>
  match asset? with
  | none => (ctx, Except.error (Error.user 400 "asset_not_found"))
  | some asset => Execute.apply fail e asset ctx

/-- `CreateOperation.Execute`: `db.Begin`, the body, and the deferred `db.LoggedRollback`
that runs on every exit path.  `fail` tells which store calls return an error. -/
def Execute (fail : StoreCall → Bool) (e : CreateOperation) (db : DB) :
    DB × Except Error (Nat × Operation) :=
  let r := Execute.body fail e (Begin db)
  (LoggedRollback r.1, r.2)

/-! ## Validation -/

/-- Result of a Go function that returns an `error` and may also fault at run time. -/
inductive Outcome (α : Type) where
  | ok (a : α)
  | error (err : Error)
  | fault
deriving DecidableEq, Repr

/-- What `Validate` reads from the request and its context. -/
structure Request where
  /-- The value `authentication.Get(ctx).User.Username`. -/
  Username : String
  /-- The value `env.Get(ctx).Config[mint.EnvCfgMintHost]`. -/
  MintHost : String
  /-- The value `pat.Param(r, "asset")`. -/
  asset : String
  /-- The value `r.PostFormValue("amount")`, empty when the field is absent. -/
  amount : String
  /-- The value `r.PostFormValue("source")`, empty when the field is absent. -/
  source : String
  /-- The value `r.PostFormValue("destination")`, empty when the field is absent. -/
  destination : String
deriving DecidableEq, Repr

/-- The codec of package `mint`, whose source is not part of the development: the two
parsers `Validate` calls, `none` standing for a returned error. -/
structure Codec where
  AssetResourceFromName : String → Option AssetResource
  NormalizedAddress : String → Option String

/-- Value of a string of decimal digits read after the digits already valued `acc`. -/
def parseDigits (acc : Nat) : List Char → Option Nat
  | [] => some acc
  | c :: cs => if c.isDigit then parseDigits (10 * acc + (c.toNat - 48)) cs else none

/-- The call `(*big.Int).SetString(s, 10)`: an optional sign and at least one digit. -/
def parseBigInt (s : String) : Option Int :=
  match s.toList with
  | [] => none
  | '-' :: ds => if ds = [] then none else (parseDigits 0 ds).map fun n => - (n : Int)
  | '+' :: ds => if ds = [] then none else (parseDigits 0 ds).map fun n => (n : Int)
  | ds => (parseDigits 0 ds).map fun n => (n : Int)

/-- Modelled from the spec: `ValidateAmount` (package `mint/endpoint`, another file): the
amount is a decimal integer with `0 ≤ amount < 2^128`; anything else, a negative input in
particular, fails with `amount_invalid` (400). -/
def ValidateAmount (a : String) : Except Error Int :=
  match parseBigInt a with
  | none => Except.error (Error.user 400 "amount_invalid")
  | some n =>
    if n < 0 ∨ MaxAssetAmount ≤ n then Except.error (Error.user 400 "amount_invalid")
    else Except.ok n

/-- Dereference of a Go `*string`. -/
def deref (p : Option String) : Outcome String :=
  match p with
  | none => Outcome.fault
  | some s => Outcome.ok s

/-- Lines 105-118 of `Validate`: the source address.  The arguments of
`errors.NewUserErrorf` are evaluated before the call, `*srcAddress` among them. -/
def Validate.source (c : Codec) (r : Request) : Outcome (Option String) :=
  let srcAddress : Option String := none
  if r.source ≠ "" then
    match c.NormalizedAddress r.source with
    | none =>
      match deref srcAddress with
      | Outcome.ok _ => Outcome.error (Error.user 400 "source_invalid")
      | Outcome.error err => Outcome.error err
      | Outcome.fault => Outcome.fault
    | some addr => Outcome.ok (some addr)
  else Outcome.ok srcAddress

/-- Lines 120-133 of `Validate`: the destination address, with `*dstAddress` evaluated
before the error is built. -/
def Validate.destination (c : Codec) (r : Request) : Outcome (Option String) :=
  let dstAddress : Option String := none
  if r.destination ≠ "" then
    match c.NormalizedAddress r.destination with
    | none =>
      match deref dstAddress with
      | Outcome.ok _ => Outcome.error (Error.user 400 "destination_invalid")
      | Outcome.error err => Outcome.error err
      | Outcome.fault => Outcome.fault
    | some addr => Outcome.ok (some addr)
  else Outcome.ok dstAddress

/-- `CreateOperation.Validate`: on success, the endpoint with every field set. -/
def Validate (c : Codec) (r : Request) : Outcome CreateOperation :=
  let Owner := r.Username ++ "@" ++ r.MintHost
  match c.AssetResourceFromName r.asset with
  | none => Outcome.error (Error.user 400 "asset_invalid")
  | some a =>
    if Owner ≠ a.Owner then Outcome.error (Error.user 400 "operation_not_authorized")
    else
      match ValidateAmount r.amount with
      | Except.error err => Outcome.error err
      | Except.ok amount =>
        match Validate.source c r with
        | Outcome.fault => Outcome.fault
        | Outcome.error err => Outcome.error err
        | Outcome.ok srcAddress =>
          match Validate.destination c r with
          | Outcome.fault => Outcome.fault
          | Outcome.error err => Outcome.error err
          | Outcome.ok dstAddress =>
            if srcAddress = none ∧ dstAddress = none then
              Outcome.error (Error.user 400 "operation_invalid")
            else
              Outcome.ok
                { Owner := Owner, Asset := a, Amount := amount,
                  Source := srcAddress, Destination := dstAddress }

/-- No store call returns an error. -/
def noFault : StoreCall → Bool := fun _ => false

/-- A store at rest: nothing uncommitted, empty log. -/
def DB.ofStore (s : Store) : DB :=
  { committed := s, working := s, log := [] }

/-- The stored value of the balance of `asset` held by `holder`, if there is a row. -/
def balanceOf (s : Store) (asset holder : String) : Option Int :=
  (findBalance asset holder s.balances).map Balance.Value

/-- The holder of the balance row a store call addresses, if it addresses one. -/
def Event.holder : Event → Option String
  | Event.loadBalance _ h => some h
  | Event.createBalance _ h => some h
  | Event.saveBalance _ h _ => some h
  | Event.loadAsset _ _ _ => none
  | Event.createOperation _ _ _ _ => none

/-- The amount invariant on the store: every stored balance value `v` has
`0 ≤ v < 2^128`. -/
def InBounds (s : Store) : Prop :=
  ∀ b ∈ s.balances, 0 ≤ b.Value ∧ b.Value < 2 ^ 128

instance (s : Store) : Decidable (InBounds s) := by
  unfold InBounds
  infer_instance

/-- Sum of the values of the rows of asset `asset` whose holder is not `issuer`. -/
def rowsTotal (asset issuer : String) : List Balance → Int
  | [] => 0
  | b :: bs =>
    (if b.Asset = asset ∧ b.Holder ≠ issuer then b.Value else 0) + rowsTotal asset issuer bs

/-- The sum over all non-issuer holders of the stored balance of `asset`. -/
def supply (s : Store) (asset issuer : String) : Int :=
  rowsTotal asset issuer s.balances

/-! ## Postconditions of runs and what a run commits -/

/-- The run `r` ends in a state and value satisfying `Q`, or in a state and error satisfying
`E`. -/
def Post {α : Type} (r : DB × Except Error α) (Q : DB → α → Prop) (E : DB → Error → Prop) :
    Prop :=
  match r with
  | (ctx, Except.ok a) => Q ctx a
  | (ctx, Except.error err) => E ctx err

/-- The non-issuer party named by an optional address: `p != nil && owner != *p`. -/
def party (owner : String) (p : Option String) : Option String :=
  match p with
  | none => none
  | some a => if owner ≠ a then some a else none

/-- The working copy after a zero row for (`name`, `dst`) is inserted. -/
def withZero (name dst : String) (ctx : DB) : DB :=
  { record ctx (Event.createBalance name dst) with
    working := { ctx.working with
      balances := ctx.working.balances ++ [{ Asset := name, Holder := dst, Value := 0 }] } }

/-- The working copy after an operation row is inserted. -/
def withOperation (op : Operation) (ctx : DB) : DB :=
  { record ctx (Event.createOperation op.Asset op.Source op.Destination op.Amount) with
    working := { ctx.working with operations := ctx.working.operations ++ [op] } }

/-- The working copy after the balance `b` is saved. -/
def withSaved (b : Balance) (ctx : DB) : DB :=
  { record ctx (Event.saveBalance b.Asset b.Holder b.Value) with
    working := { ctx.working with balances := upsert b ctx.working.balances } }

/-- Rows after the credit of `amt` to the optional non-issuer destination. -/
def creditRows (name : String) (dst : Option String) (amt : Int) (bs : List Balance) :
    List Balance :=
  match dst with
  | none => bs
  | some d =>
    match findBalance name d bs with
    | none => upsert { Asset := name, Holder := d, Value := 0 + amt }
        (bs ++ [{ Asset := name, Holder := d, Value := 0 }])
    | some b => upsert { b with Value := b.Value + amt } bs

/-- Rows after the debit of `amt` from the row loaded for the source, if any. -/
def debitRows (srcRow : Option Balance) (amt : Int) (bs : List Balance) : List Balance :=
  match srcRow with
  | none => bs
  | some b => upsert { b with Value := b.Value - amt } bs

/-- The row loaded for the optional non-issuer source. -/
def srcRowOf (name : String) (src : Option String) (bs : List Balance) : Option Balance :=
  match src with
  | none => none
  | some s => findBalance name s bs

/-- The store a successful run on asset `asset` commits. -/
def committedBy (e : CreateOperation) (asset : Asset) (s : Store) : Store :=
  { assets := s.assets
    balances :=
      debitRows (srcRowOf (assetNameOf asset) (party e.Asset.Owner e.Source) s.balances) e.Amount
        (creditRows (assetNameOf asset) (party e.Asset.Owner e.Destination) e.Amount s.balances)
    operations := s.operations ++
      [Operation.mk e.Owner (assetNameOf asset) e.Source e.Destination e.Amount
        OpStatus.settled] }

/-- Why a run fails when no store call does. -/
def Refused (e : CreateOperation) (s : Store) (err : Error) : Prop :=
  (findAsset e.Owner e.Asset.Code e.Asset.Scale s.assets = none ∧
    err = Error.user 400 "asset_not_found") ∨
  ∃ asset, findAsset e.Owner e.Asset.Code e.Asset.Scale s.assets = some asset ∧
    ((∃ src, party e.Asset.Owner e.Source = some src ∧
        findBalance (assetNameOf asset) src s.balances = none ∧
        err = Error.user 400 "source_invalid") ∨
     (∃ dst, party e.Asset.Owner e.Destination = some dst ∧
        (∀ src, party e.Asset.Owner e.Source = some src →
          findBalance (assetNameOf asset) src s.balances ≠ none) ∧
        invalidBalance ((balanceOf s (assetNameOf asset) dst).getD 0 + e.Amount) = true ∧
        err = Error.user 400 "amount_invalid") ∨
     (∃ src b, party e.Asset.Owner e.Source = some src ∧
        findBalance (assetNameOf asset) src s.balances = some b ∧
        invalidBalance (b.Value - e.Amount) = true ∧
        err = Error.user 400 "amount_invalid"))

/-! ## Fixtures -/

/-- A mint `m` where `u@m` issued `USD.2` and `h@m` holds 10 of it. -/
def demoStore : Store :=
  { assets := [{ Owner := "u@m", Code := "USD", Scale := 2 }]
    balances := [{ Asset := "u@m[USD.2]", Holder := "h@m", Value := 10 }]
    operations := [] }

/-- An operation of `u@m` on the asset `code`, scale 2. -/
def demoOperation (code : String) (src dst : Option String) (amt : Int) : CreateOperation :=
  { Owner := "u@m"
    Asset := { Name := "u@m[" ++ code ++ ".2]", Owner := "u@m", Code := code, Scale := 2 }
    Amount := amt
    Source := src
    Destination := dst }

/-- A mint `m` where `u@m` issued `USD.2` and `k@m` holds `2^128 - 6` of it. -/
def fullStore : Store :=
  { assets := [{ Owner := "u@m", Code := "USD", Scale := 2 }]
    balances := [{ Asset := "u@m[USD.2]", Holder := "k@m", Value := 2 ^ 128 - 6 }]
    operations := [] }

/-- A mint `m` where `u@m` issued `USD.2`, `k@m` holds `2^128 - 6` of it and `h@m` holds
3. -/
def tightStore : Store :=
  { assets := [{ Owner := "u@m", Code := "USD", Scale := 2 }]
    balances := [{ Asset := "u@m[USD.2]", Holder := "k@m", Value := 2 ^ 128 - 6 },
                 { Asset := "u@m[USD.2]", Holder := "h@m", Value := 3 }]
    operations := [] }

/-- Only the load of the source balance returns an error. -/
def sourceLoadFails : StoreCall → Bool :=
  fun c => decide (c = StoreCall.loadSrcBalance)

/-- A codec that knows the asset `u@m[USD.2]` and takes for an address any string with
an `@`. -/
def demoCodec : Codec where
  AssetResourceFromName := fun s =>
    if s = "u@m[USD.2]" then some { Name := s, Owner := "u@m", Code := "USD", Scale := 2 }
    else none
  NormalizedAddress := fun s => if '@' ∈ s.toList then some s else none

/-- A request of user `user` of mint `m` on `u@m[USD.2]`. -/
def demoRequest (user amount source destination : String) : Request :=
  { Username := user, MintHost := "m", asset := "u@m[USD.2]", amount := amount,
    source := source, destination := destination }

/-- A mint `m` where `u@m` issued `USD.2` and `EUR.2`; `h@m` holds 10 `USD.2` and 7 `EUR.2`,
`j@m` holds 3 `USD.2`. -/
def frameStore : Store :=
  { assets := [{ Owner := "u@m", Code := "USD", Scale := 2 },
               { Owner := "u@m", Code := "EUR", Scale := 2 }]
    balances := [{ Asset := "u@m[USD.2]", Holder := "h@m", Value := 10 },
                 { Asset := "u@m[EUR.2]", Holder := "h@m", Value := 7 },
                 { Asset := "u@m[USD.2]", Holder := "j@m", Value := 3 }]
    operations := [] }

/-- The `amount` form value denotes a negative integer. -/
def isNegativeAmount (a : String) : Bool :=
  match parseBigInt a with
  | some n => decide (n < 0)
  | none => false

/-- Modelled from the spec: the handler that serves an endpoint (package `mint/endpoint`, not
part of the sources), "validation errors abort before any store write": `Execute`, the only
place that opens a store session, runs when `Validate` returned no error. -/
def handle (c : Codec) (fail : StoreCall → Bool) (r : Request) (db : DB) :
    DB × Outcome (Nat × Operation) :=
  match Validate c r with
  | Outcome.fault => (db, Outcome.fault)
  | Outcome.error err => (db, Outcome.error err)
  | Outcome.ok e =>
    match Execute fail e db with
    | (db2, Except.error err) => (db2, Outcome.error err)
    | (db2, Except.ok res) => (db2, Outcome.ok res)

/-! ## Path planning -/

/-- Modelled from the spec: the ratio multiplication of path planning, "`(x · p + q − 1) / q`
for the ceiling rounding" (the amount arithmetic of package `mint` is not part of the
sources). -/
def ceilMul (x p q : Int) : Int :=
  (x * p + q - 1) / q

/-- Modelled from the spec: what the planner reads of an offer, its ID, its owner, the base
asset of its pair and its price `p/q` (`mint.OfferResource` is not part of the sources). -/
structure OfferResource where
  ID : String
  Owner : String
  Base : AssetResource
  PriceP : Int
  PriceQ : Int
deriving DecidableEq, Repr

/-- Modelled from the spec: a transaction as posted, `pair = Base/Quote`, the amount in
quote units, the destination and the path of offers in forward order, with its ID and its
expiry (`mint.TransactionResource` is not part of the sources). -/
structure TransactionResource where
  ID : String
  Owner : String
  Base : AssetResource
  Quote : AssetResource
  Amount : Int
  Destination : String
  Path : List OfferResource
  Expiry : Int
deriving DecidableEq, Repr

/-- Modelled from the spec: a hop of a transaction, an operation or a crossing, "annotated
with the mint authoritative for that hop". -/
inductive Hop where
  | operation (index : Nat) (mint : String) (asset : AssetResource)
      (source destination : String) (amount : Int)
  | crossing (index : Nat) (mint : String) (offer : String) (amount : Int)
deriving DecidableEq, Repr

/-- The ordinal position of the hop. -/
def Hop.index : Hop → Nat
  | Hop.operation i _ _ _ _ _ => i
  | Hop.crossing i _ _ _ => i

/-- The mint that owns the hop. -/
def Hop.mint : Hop → String
  | Hop.operation _ m _ _ _ _ => m
  | Hop.crossing _ m _ _ => m

/-- The amount of the hop. -/
def Hop.amount : Hop → Int
  | Hop.operation _ _ _ _ _ a => a
  | Hop.crossing _ _ _ a => a

/-- The hop is an operation. -/
def Hop.isOperation : Hop → Bool
  | Hop.operation _ _ _ _ _ _ => true
  | Hop.crossing _ _ _ _ => false

/-- The host of an address `user@host`: the mint of the user. -/
def hostOf (address : String) : String :=
  String.mk ((address.toList.dropWhile fun ch => ch ≠ '@').drop 1)

/-- Modelled from the spec: "walking the path from the destination back to the source, the
running amount `a` (initially the transaction amount in quote units) is transformed at each
hop by its offer's price": the amount required in front of the offers `path` to deliver
`amount` behind them. -/
def requiredAmount : List OfferResource → Int → Int
  | [], amount => amount
  | o :: os, amount => ceilMul (requiredAmount os amount) o.PriceP o.PriceQ

/-- Modelled from the spec: the hops planned from hop `index` on, for the holder `source` of
`asset` who pays through the offers `path` up to `destination`: an operation on `asset` to
the owner of the next offer, the crossing of that offer, and so on; the last operation is
delivered to `destination`.  Each operation is owned by the mint of the owner of its asset,
each crossing by the mint of the owner of its offer. -/
def planFrom (index : Nat) (asset : AssetResource) (source destination : String)
    (amount : Int) : List OfferResource → List Hop
  | [] => [Hop.operation index (hostOf asset.Owner) asset source destination amount]
  | o :: os =>
    Hop.operation index (hostOf asset.Owner) asset source o.Owner
        (requiredAmount (o :: os) amount) ::
      Hop.crossing (index + 1) (hostOf o.Owner) o.ID (requiredAmount (o :: os) amount) ::
      planFrom (index + 2) o.Base o.Owner destination amount os

/-- Modelled from the spec: the path planner (component E; `create_transaction.go` is not
part of the sources): the operations and crossings to create for a transaction, in hop
order, "the first operation (hop 0)" being "on the base asset, paid by the initiator to the
first crossing's owner".  The checks that make the planner fail (`offer_invalid`,
`transaction_failed`) are left out: the plan is the one of a transaction that is created. -/
def planPath (tx : TransactionResource) : List Hop :=
  planFrom 0 tx.Base tx.Owner tx.Destination tx.Amount tx.Path

/-- The hop indices of the operations of a plan. -/
def operationHops (plan : List Hop) : List Nat :=
  (plan.filter fun h => h.isOperation).map Hop.index

/-- The hop indices of the crossings of a plan. -/
def crossingHops (plan : List Hop) : List Nat :=
  (plan.filter fun h => !h.isOperation).map Hop.index

/-- The amount of the operation at hop `index` of a plan. -/
def operationAmountAt (plan : List Hop) (index : Nat) : Option Int :=
  (plan.find? fun h => h.isOperation && decide (h.index = index)).map Hop.amount

/-- What the tests assert of a hop: the mint that shows it, its kind, its `TransactionHop`
and its amount. -/
structure HopSummary where
  Mint : String
  IsOperation : Bool
  TransactionHop : Nat
  Amount : Int
deriving DecidableEq, Repr

/-- The summary of a planned hop. -/
def Hop.summary (h : Hop) : HopSummary :=
  { Mint := h.mint, IsOperation := h.isOperation, TransactionHop := h.index,
    Amount := h.amount }

/-! ## The transactions of `create_transaction_test.go` -/

/-- The asset `USD.2` of a user (`CreateAsset(t, "USD", 2)`). -/
def usd2 (owner : String) : AssetResource :=
  { Name := owner ++ "[USD.2]", Owner := owner, Code := "USD", Scale := 2 }

/-- An offer of `owner` on the pair `owner[USD.2]/...` at the price `p/q`. -/
def testOffer (id owner : String) (p q : Int) : OfferResource :=
  { ID := id, Owner := owner, Base := usd2 owner, PriceP := p, PriceQ := q }

/-- A transaction of the tests: user `u<i>` is on mint `m<i>`. -/
def testTransaction (owner baseOwner quoteOwner : String) (amount : Int)
    (destination : String) (path : List OfferResource) : TransactionResource :=
  { ID := "tx", Owner := owner, Base := usd2 baseOwner, Quote := usd2 quoteOwner,
    Amount := amount, Destination := destination, Path := path, Expiry := 0 }

/-- The transaction of `TestCreateTransactionWith2Offers`: pair `u0[USD.2]/u2[USD.2]`,
amount 10, destination `u2`, path `o[1]` (of `u1`, 100/100), `o[2]` (of `u2`, 100/98). -/
def twoOffers : TransactionResource :=
  testTransaction "u0@m0" "u0@m0" "u2@m2" 10 "u2@m2"
    [testOffer "o1" "u1@m1" 100 100, testOffer "o2" "u2@m2" 100 98]

/-- The hops `TestCreateTransactionWith2Offers` asserts on `m[0]`, `m[1]` and `m[2]`. -/
def twoOffersAsserted : List HopSummary :=
  [{ Mint := "m0", IsOperation := true, TransactionHop := 0, Amount := 11 },
   { Mint := "m1", IsOperation := false, TransactionHop := 1, Amount := 11 },
   { Mint := "m1", IsOperation := true, TransactionHop := 2, Amount := 11 },
   { Mint := "m2", IsOperation := false, TransactionHop := 3, Amount := 11 },
   { Mint := "m2", IsOperation := true, TransactionHop := 4, Amount := 10 }]

/-- The transaction of `TestCreateTransactionWithUserUsedTwice`: amount 10 over offers at
100/100 (of `u1`), 100/120 (of `u3`), 100/100 (of `u1`), 100/98 (of `u2`). -/
def userUsedTwice : TransactionResource :=
  testTransaction "u0@m0" "u0@m0" "u2@m2" 10 "u2@m2"
    [testOffer "o1" "u1@m1" 100 100, testOffer "o2" "u3@m3" 100 120,
     testOffer "o3" "u1@m1" 100 100, testOffer "o4" "u2@m2" 100 98]

/-- The transaction of `TestCreateTransactionWithRemoteBaseAsset`: `u0` pays with
`u1[USD.2]`, pair `u1[USD.2]/u2[USD.2]`, amount 10, destination `u2`, path `o[2]`. -/
def remoteBaseAsset : TransactionResource :=
  testTransaction "u0@m0" "u1@m1" "u2@m2" 10 "u2@m2" [testOffer "o2" "u2@m2" 100 98]

/-- The hops `TestCreateTransactionWithRemoteBaseAsset` asserts on `m[1]` and `m[2]`; on
`m[0]` it asserts no operation and no crossing. -/
def remoteBaseAssetAsserted : List HopSummary :=
  [{ Mint := "m1", IsOperation := true, TransactionHop := 1, Amount := 11 },
   { Mint := "m2", IsOperation := false, TransactionHop := 2, Amount := 11 },
   { Mint := "m2", IsOperation := true, TransactionHop := 3, Amount := 10 }]

/-! ## Reservation and expiration of a transaction -/

/-- Modelled from the spec: the status of a transaction row, `reserved`, `settled` or
`canceled`. -/
inductive TxStatus where
  | reserved
  | settled
  | canceled
deriving DecidableEq, Repr

/-- Modelled from the spec: row of the offer table, the amount offered and the remainder
still available (`mint/model` is not part of the sources). -/
structure OfferRow where
  ID : String
  Amount : Int
  Remainder : Int
deriving DecidableEq, Repr

/-- Modelled from the spec: the row of a transaction on one of the mints that store it. -/
structure TransactionRow where
  ID : String
  Mint : String
  Status : TxStatus
deriving DecidableEq, Repr

/-- Modelled from the spec: the stores of the mints taken together.  `balances` and `offers`
are the canonical rows, each stored by the mint that owns it; `transactions` holds the
transaction rows of every mint; the propagated rows are the read-only copies, each with the
mint that holds it. -/
structure Ledger where
  balances : List Balance
  offers : List OfferRow
  transactions : List TransactionRow
  propagatedBalances : List (String × Balance)
  propagatedOffers : List (String × OfferRow)
deriving DecidableEq, Repr

/-- The stored value of the balance of `asset` held by `holder`, 0 when there is no row. -/
def valueOf (asset holder : String) (bs : List Balance) : Int :=
  ((findBalance asset holder bs).map Balance.Value).getD 0

/-- Modelled from the spec: `load_or_create_by_asset_holder` followed by the addition of
`delta` to the value and `save`. -/
def addToBalance (asset holder : String) (delta : Int) (bs : List Balance) : List Balance :=
  match findBalance asset holder bs with
  | none => bs ++ [{ Asset := asset, Holder := holder, Value := 0 + delta }]
  | some b => upsert { b with Value := b.Value + delta } bs

/-- Modelled from the spec: the debit of a source by the operation engine, "source must
exist with `value ≥ amount`", the result being rechecked against the amount invariant. -/
def debitBalance (asset holder : String) (amount : Int) (bs : List Balance) :
    Option (List Balance) :=
  match findBalance asset holder bs with
  | none => none
  | some b =>
    if invalidBalance (b.Value - amount) then none
    else some (addToBalance asset holder (-amount) bs)

/-- Modelled from the spec: the credit of a destination by the operation engine,
"destination created if absent", the result being rechecked against the amount
invariant. -/
def creditBalance (asset holder : String) (amount : Int) (bs : List Balance) :
    Option (List Balance) :=
  if invalidBalance (valueOf asset holder bs + amount) then none
  else some (addToBalance asset holder amount bs)

/-- First offer row of the list with the given ID. -/
def findOffer (id : String) (os : List OfferRow) : Option OfferRow :=
  os.find? fun o => decide (o.ID = id)

/-- The remainder of the offer `id`, 0 when there is no row. -/
def remainderOf (id : String) (os : List OfferRow) : Int :=
  ((findOffer id os).map OfferRow.Remainder).getD 0

/-- Add `delta` to the remainder of the offer `id`. -/
def addToRemainder (id : String) (delta : Int) (os : List OfferRow) : List OfferRow :=
  os.map fun o => if o.ID = id then { o with Remainder := o.Remainder + delta } else o

/-- Modelled from the spec: `reserve_remainder(offer_id, base_units)`, "which fails with
`offer_insufficient` if `base_units > remainder` and otherwise decrements atomically". -/
def reserve_remainder (id : String) (units : Int) (os : List OfferRow) :
    Option (List OfferRow) :=
  match findOffer id os with
  | none => none
  | some o => if units > o.Remainder then none else some (addToRemainder id (-units) os)

/-- Modelled from the spec: `release_remainder(offer_id, base_units)`, "the symmetric"
restoration. -/
def release_remainder (id : String) (units : Int) (os : List OfferRow) : List OfferRow :=
  addToRemainder id units os

/-- Modelled from the spec: the reservation side effects of a hop.  "For an operation hop:
decrement source balance (if any), increment destination balance (if any), check
invariants"; the issuer has no stored balance.  "For a crossing hop: call
`reserve_remainder` on the offer". -/
def reserveHop (h : Hop) (l : Ledger) : Option Ledger :=
  match h with
  | Hop.operation _ _ asset source destination amount =>
    match (if source ≠ asset.Owner then debitBalance asset.Name source amount l.balances
           else some l.balances) with
    | none => none
    | some bs =>
      match (if destination ≠ asset.Owner then creditBalance asset.Name destination amount bs
             else some bs) with
      | none => none
      | some bs2 => some { l with balances := bs2 }
  | Hop.crossing _ _ offer amount =>
    match reserve_remainder offer amount l.offers with
    | none => none
    | some os => some { l with offers := os }

/-- The reservation of the hops of a plan in path order: "reservation must either fully
succeed or fully fail". -/
def reserveHops : List Hop → Ledger → Option Ledger
  | [], l => some l
  | h :: hs, l =>
    match reserveHop h l with
    | none => none
    | some l1 => reserveHops hs l1

/-- Modelled from the spec: what expiration does of a hop, it "restores the reservation
(credit source, debit destination, release offer remainder)". -/
def restoreHop (h : Hop) (l : Ledger) : Ledger :=
  match h with
  | Hop.operation _ _ asset source destination amount =>
    { l with
      balances :=
        (fun bs => if destination ≠ asset.Owner
          then addToBalance asset.Name destination (-amount) bs else bs)
          (if source ≠ asset.Owner then addToBalance asset.Name source amount l.balances
           else l.balances) }
  | Hop.crossing _ _ offer amount =>
    { l with offers := release_remainder offer amount l.offers }

/-- The restoration of a list of hops. -/
def restoreHops : List Hop → Ledger → Ledger
  | [], l => l
  | h :: hs, l => restoreHops hs (restoreHop h l)

/-- The mints a transaction touches: the mint of the initiator, which coordinates, and the
mint of every hop. -/
def mintsOf (tx : TransactionResource) : List String :=
  hostOf tx.Owner :: (planPath tx).map Hop.mint

/-- Modelled from the spec: the reserve phase of the transaction coordinator.  Every hop of
the plan is reserved on the mint that owns it, and every mint the transaction touches
persists a `reserved` transaction row; if a hop fails nothing is kept (`transaction_failed`).
An ID already in use cannot be created. -/
def Reserve (tx : TransactionResource) (l : Ledger) : Option Ledger :=
  if l.transactions.any (fun r => decide (r.ID = tx.ID)) then none
  else
    match reserveHops (planPath tx) l with
    | none => none
    | some l1 =>
      some { l1 with
        transactions := l1.transactions ++
          (mintsOf tx).map fun m => { ID := tx.ID, Mint := m, Status := TxStatus.reserved } }

/-- The mint `m` holds a row of the transaction `id` that is still `reserved`. -/
def pendingOn (id m : String) (rows : List TransactionRow) : Bool :=
  rows.any fun r => decide (r.ID = id ∧ r.Mint = m ∧ r.Status = TxStatus.reserved)

/-- Mark `canceled` the `reserved` rows of the transaction `id` on the mint `m`. -/
def cancelOn (id m : String) (rows : List TransactionRow) : List TransactionRow :=
  rows.map fun r =>
    if r.ID = id ∧ r.Mint = m ∧ r.Status = TxStatus.reserved
    then { r with Status := TxStatus.canceled } else r

/-- Modelled from the spec: the expiration task on the mint `m` at time `now`: "the task,
when executed after `expiry`, finds transactions still `reserved` and, for each
locally-owned hop, restores the reservation and marks rows `canceled`". -/
def Expire (now : Int) (tx : TransactionResource) (m : String) (l : Ledger) : Ledger :=
  if tx.Expiry ≤ now ∧ pendingOn tx.ID m l.transactions = true then
    { restoreHops ((planPath tx).filter fun h => decide (h.mint = m)) l with
      transactions := cancelOn tx.ID m l.transactions }
  else l

/-- The expiration task run on each mint of `ms`, in that order. -/
def ExpireAll (now : Int) (tx : TransactionResource) (ms : List String) (l : Ledger) :
    Ledger :=
  ms.foldl (fun l m => Expire now tx m l) l

/-- Modelled from the spec: propagation, each propagated copy is refreshed by "reapplying a
canonical snapshot received from the owner". -/
def propagate (l : Ledger) : Ledger :=
  { l with
    propagatedBalances := l.propagatedBalances.map fun c =>
      (c.1, { c.2 with Value := valueOf c.2.Asset c.2.Holder l.balances })
    propagatedOffers := l.propagatedOffers.map fun c =>
      (c.1, { c.2 with Remainder := remainderOf c.2.ID l.offers }) }

/-- What the reservation of a hop adds to the balance of `asset` held by `holder`. -/
def Hop.balanceDelta (h : Hop) (asset holder : String) : Int :=
  match h with
  | Hop.operation _ _ a s d amt =>
    (if s ≠ a.Owner ∧ a.Name = asset ∧ s = holder then -amt else 0) +
      (if d ≠ a.Owner ∧ a.Name = asset ∧ d = holder then amt else 0)
  | Hop.crossing _ _ _ _ => 0

/-- What the reservation of a hop takes from the remainder of the offer `id`, when the offer
is stored. -/
def Hop.remainderDelta (present : Bool) (h : Hop) (id : String) : Int :=
  match h with
  | Hop.operation _ _ _ _ _ _ => 0
  | Hop.crossing _ _ o amt => if o = id ∧ present = true then amt else 0

/-- The sum of `f` over the hops whose mint satisfies `P`. -/
def owedSum (P : String → Bool) (f : Hop → Int) : List Hop → Int
  | [] => 0
  | h :: hs => (if P h.mint = true then f h else 0) + owedSum P f hs

/-- The transaction of `TestCreateTransactionWith1OfferExpired`: `u2` pays with `u0[USD.2]`,
pair `u0[USD.2]/u1[USD.2]`, amount 10, destination `u1`, path `o[1]` (of `u1`, 100/100). -/
def oneOfferExpired : TransactionResource :=
  { testTransaction "u2@m2" "u0@m0" "u1@m1" 10 "u1@m1" [testOffer "o1" "u1@m1" 100 100] with
    Expiry := 1000 }

/-- The rows `TestCreateTransactionWith1OfferExpired` reads, before its transaction: `u2`
holds 20 of `u0[USD.2]`, with a propagated copy on `m2`; the offer `o1` has 100 left, with a
propagated copy on `m0`. -/
def expiredLedger : Ledger :=
  { balances := [{ Asset := "u0@m0[USD.2]", Holder := "u2@m2", Value := 20 }]
    offers := [{ ID := "o1", Amount := 100, Remainder := 100 }]
    transactions := []
    propagatedBalances := [("m2", { Asset := "u0@m0[USD.2]", Holder := "u2@m2", Value := 20 })]
    propagatedOffers := [("m0", { ID := "o1", Amount := 100, Remainder := 100 })] }

/-- The ledger after the reserve phase of `oneOfferExpired` on `expiredLedger`: `u2` has 10
left and `u1` holds the 10 moved by the first operation, the offer `o1` has 90 left, and
the mints `m2` (the initiator), `m0` (first operation) and `m1` (crossing and last
operation) hold a `reserved` row; the propagated copies are not yet refreshed. -/
def reservedLedger : Ledger :=
  { balances := [{ Asset := "u0@m0[USD.2]", Holder := "u2@m2", Value := 10 },
                 { Asset := "u0@m0[USD.2]", Holder := "u1@m1", Value := 10 }]
    offers := [{ ID := "o1", Amount := 100, Remainder := 90 }]
    transactions := [{ ID := "tx", Mint := "m2", Status := TxStatus.reserved },
                     { ID := "tx", Mint := "m0", Status := TxStatus.reserved },
                     { ID := "tx", Mint := "m1", Status := TxStatus.reserved },
                     { ID := "tx", Mint := "m1", Status := TxStatus.reserved }]
    propagatedBalances := [("m2", { Asset := "u0@m0[USD.2]", Holder := "u2@m2", Value := 20 })]
    propagatedOffers := [("m0", { ID := "o1", Amount := 100, Remainder := 100 })] }

/-- The offer `id` is stored. -/
def hasOffer (id : String) (os : List OfferRow) : Bool :=
  (findOffer id os).isSome

/-- The ledger `l2` holds, relative to `l`, exactly the reservations of the hops of `tx`
that belong to a mint whose transaction row is still `reserved`. -/
def Owing (tx : TransactionResource) (l l2 : Ledger) : Prop :=
  (∀ a h, valueOf a h l2.balances = valueOf a h l.balances +
    owedSum (fun m => pendingOn tx.ID m l2.transactions)
      (fun x => x.balanceDelta a h) (planPath tx)) ∧
  (∀ id, remainderOf id l2.offers = remainderOf id l.offers -
    owedSum (fun m => pendingOn tx.ID m l2.transactions)
      (fun x => x.remainderDelta (hasOffer id l.offers) id) (planPath tx)) ∧
  (∀ id, hasOffer id l2.offers = hasOffer id l.offers)

/-- The rows of the transaction `tx` belong to the mints it touches, one at least for each
of them, and are `reserved` or `canceled`. -/
def RowsOf (tx : TransactionResource) (rows : List TransactionRow) : Prop :=
  (∀ r ∈ rows, r.ID = tx.ID →
    r.Mint ∈ mintsOf tx ∧ (r.Status = TxStatus.reserved ∨ r.Status = TxStatus.canceled)) ∧
  (∀ m ∈ mintsOf tx, ∃ r ∈ rows, r.ID = tx.ID ∧ r.Mint = m)

/-! ## Reasoning about runs: postconditions of store calls -/

theorem Post_iff {α : Type} (r : DB × Except Error α) (Q : DB → α → Prop)
    (E : DB → Error → Prop) :
    Post r Q E ↔ (∀ a, r.2 = Except.ok a → Q r.1 a) ∧ (∀ err, r.2 = Except.error err → E r.1 err) := by
  obtain ⟨ctx, _ | _⟩ := r <;> simp [Post]

@[simp] theorem Post_ok {α : Type} (ctx : DB) (a : α) (Q : DB → α → Prop)
    (E : DB → Error → Prop) : Post (ctx, Except.ok a) Q E ↔ Q ctx a := Iff.rfl

@[simp] theorem Post_error {α : Type} (ctx : DB) (err : Error) (Q : DB → α → Prop)
    (E : DB → Error → Prop) : Post (ctx, (Except.error err : Except Error α)) Q E ↔ E ctx err :=
  Iff.rfl

theorem Post_andThen {α β : Type} (r : DB × Except Error α) (k : DB → α → DB × Except Error β)
    (Q : DB → β → Prop) (E : DB → Error → Prop) :
    Post (andThen r k) Q E ↔ Post r (fun ctx a => Post (k ctx a) Q E) E := by
  obtain ⟨ctx, _ | _⟩ := r <;> simp [andThen, Post]

theorem Post_ite {α : Type} (c : Prop) [Decidable c] (x y : DB × Except Error α)
    (Q : DB → α → Prop) (E : DB → Error → Prop) :
    Post (if c then x else y) Q E ↔ (c → Post x Q E) ∧ (¬ c → Post y Q E) := by
  split <;> simp [*]

theorem Post_LoadAsset (fail : StoreCall → Bool) (ctx : DB) (owner code : String) (scale : Int)
    (Q : DB → Option Asset → Prop) (E : DB → Error → Prop) :
    Post (LoadAssetByOwnerCodeScale fail ctx owner code scale) Q E ↔
      (fail StoreCall.loadAsset = true →
        E (record ctx (Event.loadAsset owner code scale)) (Error.store StoreCall.loadAsset)) ∧
      (fail StoreCall.loadAsset = false →
        Q (record ctx (Event.loadAsset owner code scale))
          (findAsset owner code scale ctx.working.assets)) := by
  unfold LoadAssetByOwnerCodeScale
  cases fail StoreCall.loadAsset <;> simp [record]

theorem Post_loadSrc (fail : StoreCall → Bool) (e : CreateOperation) (name : String) (ctx : DB)
    (Q : DB → Option Balance → Prop) (E : DB → Error → Prop) :
    Post (Execute.loadSrc fail e name ctx) Q E ↔
      match party e.Asset.Owner e.Source with
      | none => Q ctx none
      | some src =>
        (fail StoreCall.loadSrcBalance = true →
          E (record ctx (Event.loadBalance name src)) (Error.store StoreCall.loadSrcBalance)) ∧
        (fail StoreCall.loadSrcBalance = false →
          match findBalance name src ctx.working.balances with
          | none => E (record ctx (Event.loadBalance name src)) (Error.user 400 "source_invalid")
          | some b => Q (record ctx (Event.loadBalance name src)) (some b)) := by
  unfold Execute.loadSrc party LoadBalanceByAssetHolder
  cases e.Source with
  | none => simp
  | some src =>
    by_cases h : e.Asset.Owner = src
    · simp [h]
    · cases hf : fail StoreCall.loadSrcBalance
      · cases hb : findBalance name src ctx.working.balances <;>
          simp [h, hf, hb, record, andThen]
      · simp [h, hf, andThen]

theorem Post_loadDst (fail : StoreCall → Bool) (e : CreateOperation) (name : String) (ctx : DB)
    (Q : DB → Option Balance → Prop) (E : DB → Error → Prop) :
    Post (Execute.loadDst fail e name ctx) Q E ↔
      match party e.Asset.Owner e.Destination with
      | none => Q ctx none
      | some dst =>
        (fail StoreCall.loadOrCreateDstBalance = true →
          E (record ctx (Event.loadBalance name dst))
            (Error.store StoreCall.loadOrCreateDstBalance)) ∧
        (fail StoreCall.loadOrCreateDstBalance = false →
          match findBalance name dst ctx.working.balances with
          | none => Q (withZero name dst (record ctx (Event.loadBalance name dst)))
              (some { Asset := name, Holder := dst, Value := 0 })
          | some b => Q (record ctx (Event.loadBalance name dst)) (some b)) := by
  unfold Execute.loadDst party LoadOrCreateBalanceByAssetHolder
  cases e.Destination with
  | none => simp
  | some dst =>
    by_cases h : e.Asset.Owner = dst
    · simp [h]
    · cases hf : fail StoreCall.loadOrCreateDstBalance
      · cases hb : findBalance name dst ctx.working.balances <;>
          simp [h, hf, hb, record, withZero, andThen]
      · simp [h, hf, andThen]

theorem Post_CreateCanonicalOperation (fail : StoreCall → Bool) (ctx : DB) (owner asset : String)
    (source destination : Option String) (amount : Int)
    (Q : DB → Operation → Prop) (E : DB → Error → Prop) :
    Post (CreateCanonicalOperation fail ctx owner asset source destination amount) Q E ↔
      (fail StoreCall.createOperation = true →
        E (record ctx (Event.createOperation asset source destination amount))
          (Error.store StoreCall.createOperation)) ∧
      (fail StoreCall.createOperation = false →
        Q (withOperation (Operation.mk owner asset source destination amount OpStatus.settled) ctx)
          (Operation.mk owner asset source destination amount OpStatus.settled)) := by
  unfold CreateCanonicalOperation
  cases fail StoreCall.createOperation <;> simp [record, withOperation]

theorem Post_Save (site : StoreCall) (fail : StoreCall → Bool) (ctx : DB) (b : Balance)
    (Q : DB → Unit → Prop) (E : DB → Error → Prop) :
    Post (Balance.Save site fail ctx b) Q E ↔
      (fail site = true →
        E (record ctx (Event.saveBalance b.Asset b.Holder b.Value)) (Error.store site)) ∧
      (fail site = false → Q (withSaved b ctx) ()) := by
  unfold Balance.Save
  cases fail site <;> simp [record, withSaved]

theorem Post_creditDst (fail : StoreCall → Bool) (dstBalance : Option Balance)
    (operation : Operation) (ctx : DB) (Q : DB → Unit → Prop) (E : DB → Error → Prop) :
    Post (Execute.creditDst fail dstBalance operation ctx) Q E ↔
      match dstBalance with
      | none => Q ctx ()
      | some d =>
        (invalidBalance (d.Value + operation.Amount) = true →
          E ctx (Error.user 400 "amount_invalid")) ∧
        (invalidBalance (d.Value + operation.Amount) = false →
          (fail StoreCall.saveDstBalance = true →
            E (record ctx (Event.saveBalance d.Asset d.Holder (d.Value + operation.Amount)))
              (Error.store StoreCall.saveDstBalance)) ∧
          (fail StoreCall.saveDstBalance = false →
            Q (withSaved { d with Value := d.Value + operation.Amount } ctx) ())) := by
  unfold Execute.creditDst
  cases dstBalance with
  | none => simp
  | some d =>
    cases hi : invalidBalance (d.Value + operation.Amount) <;> simp [hi, Post_Save]

theorem Post_debitSrc (fail : StoreCall → Bool) (srcBalance : Option Balance)
    (operation : Operation) (ctx : DB) (Q : DB → Unit → Prop) (E : DB → Error → Prop) :
    Post (Execute.debitSrc fail srcBalance operation ctx) Q E ↔
      match srcBalance with
      | none => Q ctx ()
      | some s =>
        (invalidBalance (s.Value - operation.Amount) = true →
          E ctx (Error.user 400 "amount_invalid")) ∧
        (invalidBalance (s.Value - operation.Amount) = false →
          (fail StoreCall.saveSrcBalance = true →
            E (record ctx (Event.saveBalance s.Asset s.Holder (s.Value - operation.Amount)))
              (Error.store StoreCall.saveSrcBalance)) ∧
          (fail StoreCall.saveSrcBalance = false →
            Q (withSaved { s with Value := s.Value - operation.Amount } ctx) ())) := by
  unfold Execute.debitSrc
  cases srcBalance with
  | none => simp
  | some s =>
    cases hi : invalidBalance (s.Value - operation.Amount) <;> simp [hi, Post_Save]

theorem Post_Execute (fail : StoreCall → Bool) (e : CreateOperation) (db : DB)
    (Q : DB → Nat × Operation → Prop) (E : DB → Error → Prop) :
    Post (Execute fail e db) Q E ↔
      Post (Execute.body fail e (Begin db)) (fun ctx a => Q (LoggedRollback ctx) a)
        (fun ctx err => E (LoggedRollback ctx) err) := by
  unfold Execute
  generalize Execute.body fail e (Begin db) = r
  obtain ⟨ctx, _ | _⟩ := r <;> simp [Post]

theorem Post_body (fail : StoreCall → Bool) (e : CreateOperation) (ctx : DB)
    (Q : DB → Nat × Operation → Prop) (E : DB → Error → Prop) :
    Post (Execute.body fail e ctx) Q E ↔
      (fail StoreCall.loadAsset = true →
        E (record ctx (Event.loadAsset e.Owner e.Asset.Code e.Asset.Scale))
          (Error.store StoreCall.loadAsset)) ∧
      (fail StoreCall.loadAsset = false →
        match findAsset e.Owner e.Asset.Code e.Asset.Scale ctx.working.assets with
        | none => E (record ctx (Event.loadAsset e.Owner e.Asset.Code e.Asset.Scale))
            (Error.user 400 "asset_not_found")
        | some asset => Post (Execute.apply fail e asset
            (record ctx (Event.loadAsset e.Owner e.Asset.Code e.Asset.Scale))) Q E) := by
  unfold Execute.body
  rw [Post_andThen, Post_LoadAsset]
  refine and_congr Iff.rfl (imp_congr Iff.rfl ?_)
  split <;> simp

@[simp] theorem record_committed (ctx : DB) (ev : Event) :
    (record ctx ev).committed = ctx.committed := rfl

@[simp] theorem record_working (ctx : DB) (ev : Event) :
    (record ctx ev).working = ctx.working := rfl

@[simp] theorem record_log (ctx : DB) (ev : Event) : (record ctx ev).log = ctx.log ++ [ev] := rfl

@[simp] theorem Begin_committed (db : DB) : (Begin db).committed = db.committed := rfl

@[simp] theorem Begin_working (db : DB) : (Begin db).working = db.committed := rfl

@[simp] theorem Begin_log (db : DB) : (Begin db).log = db.log := rfl

@[simp] theorem Commit_committed (ctx : DB) : (Commit ctx).committed = ctx.working := rfl

@[simp] theorem Commit_working (ctx : DB) : (Commit ctx).working = ctx.working := rfl

@[simp] theorem Commit_log (ctx : DB) : (Commit ctx).log = ctx.log := rfl

@[simp] theorem LoggedRollback_committed (ctx : DB) :
    (LoggedRollback ctx).committed = ctx.committed := rfl

@[simp] theorem LoggedRollback_working (ctx : DB) :
    (LoggedRollback ctx).working = ctx.committed := rfl

@[simp] theorem LoggedRollback_log (ctx : DB) : (LoggedRollback ctx).log = ctx.log := rfl

@[simp] theorem withZero_committed (name dst : String) (ctx : DB) :
    (withZero name dst ctx).committed = ctx.committed := rfl

@[simp] theorem withZero_working (name dst : String) (ctx : DB) :
    (withZero name dst ctx).working =
      { ctx.working with
        balances := ctx.working.balances ++ [{ Asset := name, Holder := dst, Value := 0 }] } := rfl

@[simp] theorem withZero_log (name dst : String) (ctx : DB) :
    (withZero name dst ctx).log = ctx.log ++ [Event.createBalance name dst] := rfl

@[simp] theorem withOperation_committed (op : Operation) (ctx : DB) :
    (withOperation op ctx).committed = ctx.committed := rfl

@[simp] theorem withOperation_working (op : Operation) (ctx : DB) :
    (withOperation op ctx).working =
      { ctx.working with operations := ctx.working.operations ++ [op] } := rfl

@[simp] theorem withOperation_log (op : Operation) (ctx : DB) :
    (withOperation op ctx).log =
      ctx.log ++ [Event.createOperation op.Asset op.Source op.Destination op.Amount] := rfl

@[simp] theorem withSaved_committed (b : Balance) (ctx : DB) :
    (withSaved b ctx).committed = ctx.committed := rfl

@[simp] theorem withSaved_working (b : Balance) (ctx : DB) :
    (withSaved b ctx).working =
      { ctx.working with balances := upsert b ctx.working.balances } := rfl

@[simp] theorem withSaved_log (b : Balance) (ctx : DB) :
    (withSaved b ctx).log = ctx.log ++ [Event.saveBalance b.Asset b.Holder b.Value] := rfl

/-! ## Facts on rows -/

theorem party_eq_some_iff (owner : String) (p : Option String) (a : String) :
    party owner p = some a ↔ p = some a ∧ owner ≠ a := by
  unfold party
  cases p with
  | none => simp
  | some b =>
    by_cases h : owner = b
    · subst h
      simp
    · simp [h]
      intro h1
      subst h1
      exact h

theorem party_eq_none_iff (owner : String) (p : Option String) :
    party owner p = none ↔ p = none ∨ p = some owner := by
  unfold party
  cases p with
  | none => simp
  | some b =>
    by_cases h : owner = b
    · simp [h]
    · simp [h]
      exact fun h1 => h h1.symm

theorem findBalance_nil (a h : String) : findBalance a h [] = none := rfl

theorem findBalance_cons (a h : String) (x : Balance) (xs : List Balance) :
    findBalance a h (x :: xs) =
      if x.Asset = a ∧ x.Holder = h then some x else findBalance a h xs := by
  unfold findBalance
  by_cases hx : x.Asset = a ∧ x.Holder = h
  · simp [List.find?_cons, hx]
  · rw [if_neg hx, List.find?_cons]
    have : decide (x.Asset = a ∧ x.Holder = h) = false := by simpa using hx
    rw [this]

theorem findBalance_some_key {a h : String} {bs : List Balance} {b : Balance}
    (hb : findBalance a h bs = some b) : b.Asset = a ∧ b.Holder = h ∧ b ∈ bs := by
  induction bs with
  | nil => simp [findBalance_nil] at hb
  | cons x xs ih =>
    rw [findBalance_cons] at hb
    split at hb
    · rename_i hx
      cases hb
      exact ⟨hx.1, hx.2, List.mem_cons_self _ _⟩
    · obtain ⟨h1, h2, h3⟩ := ih hb
      exact ⟨h1, h2, List.mem_cons_of_mem _ h3⟩

theorem findBalance_append_single (a h : String) (bs : List Balance) (z : Balance) :
    findBalance a h (bs ++ [z]) =
      match findBalance a h bs with
      | some b => some b
      | none => if z.Asset = a ∧ z.Holder = h then some z else none := by
  induction bs with
  | nil => simp [findBalance_cons, findBalance_nil]
  | cons x xs ih =>
    rw [List.cons_append, findBalance_cons, findBalance_cons]
    split
    · rfl
    · exact ih

theorem findBalance_upsert_same (b : Balance) (bs : List Balance) :
    findBalance b.Asset b.Holder (upsert b bs) = some b := by
  induction bs with
  | nil => simp [upsert, findBalance_cons]
  | cons x xs ih =>
    unfold upsert
    split
    · simp [findBalance_cons]
    · rename_i hx
      rw [findBalance_cons, if_neg hx]
      exact ih

theorem findBalance_upsert_other (a h : String) (b : Balance) (bs : List Balance)
    (hne : ¬ (b.Asset = a ∧ b.Holder = h)) :
    findBalance a h (upsert b bs) = findBalance a h bs := by
  induction bs with
  | nil => simp [upsert, findBalance_cons, findBalance_nil, hne]
  | cons x xs ih =>
    unfold upsert
    split
    · rename_i hx
      have hx2 : ¬ (x.Asset = a ∧ x.Holder = h) := by
        rintro ⟨h1, h2⟩
        exact hne ⟨hx.1 ▸ h1, hx.2 ▸ h2⟩
      rw [findBalance_cons, findBalance_cons, if_neg hne, if_neg hx2]
    · rw [findBalance_cons, findBalance_cons, ih]

theorem mem_upsert {b x : Balance} {bs : List Balance} (hx : x ∈ upsert b bs) :
    x = b ∨ x ∈ bs := by
  induction bs with
  | nil =>
    simp [upsert] at hx
    exact Or.inl hx
  | cons y ys ih =>
    unfold upsert at hx
    split at hx
    · rcases List.mem_cons.mp hx with h | h
      · exact Or.inl h
      · exact Or.inr (List.mem_cons_of_mem _ h)
    · rcases List.mem_cons.mp hx with h | h
      · exact Or.inr (h ▸ List.mem_cons_self _ _)
      · rcases ih h with h | h
        · exact Or.inl h
        · exact Or.inr (List.mem_cons_of_mem _ h)

@[simp] theorem balanceOf_mk (rows : List Asset) (bs : List Balance) (ops : List Operation)
    (a h : String) :
    balanceOf { assets := rows, balances := bs, operations := ops } a h =
      (findBalance a h bs).map Balance.Value := rfl

theorem Post_Execute_result (fail : StoreCall → Bool) (e : CreateOperation) (db : DB) :
    Post (Execute fail e db)
      (fun ctx res => ∃ asset,
        findAsset e.Owner e.Asset.Code e.Asset.Scale db.committed.assets = some asset ∧
        res = (201, Operation.mk e.Owner (assetNameOf asset) e.Source e.Destination e.Amount
          OpStatus.settled) ∧
        (∀ src, party e.Asset.Owner e.Source = some src →
          ∃ b, findBalance (assetNameOf asset) src db.committed.balances = some b ∧
            invalidBalance (b.Value - e.Amount) = false) ∧
        (∀ dst, party e.Asset.Owner e.Destination = some dst →
          invalidBalance ((balanceOf db.committed (assetNameOf asset) dst).getD 0 + e.Amount)
            = false) ∧
        ctx.committed = committedBy e asset db.committed ∧ ctx.working = ctx.committed)
      (fun ctx _ => ctx.committed = db.committed ∧ ctx.working = db.committed) := by
  rw [Post_Execute]
  simp only [Post_body, Execute.apply, Post_andThen, Post_LoadAsset, Post_loadSrc, Post_loadDst,
    Post_CreateCanonicalOperation, Post_creditDst, Post_debitSrc, Post_ok, Post_error]
  simp
  intro _
  split
  · trivial
  · rename_i asset hasset
    split
    · rename_i hsrc
      split
      · rename_i hdst
        intro _
        refine ⟨asset, hasset, ?_⟩
        simp [committedBy, hsrc, hdst, srcRowOf, creditRows, debitRows]
      · rename_i dst hdst
        intro _
        split
        · rename_i hfd
          intro _ hv _
          refine ⟨asset, hasset, ?_⟩
          simp [committedBy, hsrc, hdst, srcRowOf, creditRows, debitRows, hfd, balanceOf, hv]
        · rename_i b hfd
          intro _ hv _
          refine ⟨asset, hasset, ?_⟩
          simp [committedBy, hsrc, hdst, srcRowOf, creditRows, debitRows, hfd, balanceOf, hv]
    · rename_i src hsrc
      intro _
      split
      · trivial
      · rename_i sb hfs
        split
        · rename_i hdst
          intro _ hv _
          refine ⟨asset, hasset, ?_⟩
          simp [committedBy, hsrc, hdst, srcRowOf, creditRows, debitRows, hfs, hv]
        · rename_i dst hdst
          intro _
          split
          · rename_i hfd
            intro _ hv _ hv2 _
            refine ⟨asset, hasset, ?_⟩
            simp [committedBy, hsrc, hdst, srcRowOf, creditRows, debitRows, hfs, hfd, balanceOf,
              hv, hv2]
          · rename_i b hfd
            intro _ hv _ hv2 _
            refine ⟨asset, hasset, ?_⟩
            simp [committedBy, hsrc, hdst, srcRowOf, creditRows, debitRows, hfs, hfd, balanceOf,
              hv, hv2]

theorem Post_Execute_refused (fail : StoreCall → Bool) (hnf : ∀ c, fail c = false)
    (e : CreateOperation) (db : DB) :
    Post (Execute fail e db) (fun _ _ => True) (fun _ err => Refused e db.committed err) := by
  rw [Post_Execute]
  simp only [Post_body, Execute.apply, Post_andThen, Post_LoadAsset, Post_loadSrc, Post_loadDst,
    Post_CreateCanonicalOperation, Post_creditDst, Post_debitSrc, Post_ok, Post_error]
  simp [hnf]
  split
  · rename_i hasset
    exact Or.inl ⟨hasset, rfl⟩
  · rename_i asset hasset
    split
    · rename_i hsrc
      split
      · trivial
      · rename_i dst hdst
        split
        · rename_i hfd
          intro hv
          refine Or.inr ⟨asset, hasset, Or.inr (Or.inl ⟨dst, hdst, ?_, ?_, rfl⟩)⟩
          · simp [hsrc]
          · simpa [balanceOf, hfd] using hv
        · rename_i b hfd
          intro hv
          refine Or.inr ⟨asset, hasset, Or.inr (Or.inl ⟨dst, hdst, ?_, ?_, rfl⟩)⟩
          · simp [hsrc]
          · simpa [balanceOf, hfd] using hv
    · rename_i src hsrc
      split
      · rename_i hfs
        exact Or.inr ⟨asset, hasset, Or.inl ⟨src, hsrc, hfs, rfl⟩⟩
      · rename_i sb hfs
        split
        · rename_i hdst
          intro hv
          exact Or.inr ⟨asset, hasset, Or.inr (Or.inr ⟨src, sb, hsrc, hfs, hv, rfl⟩)⟩
        · rename_i dst hdst
          split
          · rename_i hfd
            refine ⟨fun hv => ?_, fun _ hv => ?_⟩
            · refine Or.inr ⟨asset, hasset, Or.inr (Or.inl ⟨dst, hdst, ?_, ?_, rfl⟩)⟩
              · simp [hsrc, hfs]
              · simpa [balanceOf, hfd] using hv
            · exact Or.inr ⟨asset, hasset, Or.inr (Or.inr ⟨src, sb, hsrc, hfs, hv, rfl⟩)⟩
          · rename_i b hfd
            refine ⟨fun hv => ?_, fun _ hv => ?_⟩
            · refine Or.inr ⟨asset, hasset, Or.inr (Or.inl ⟨dst, hdst, ?_, ?_, rfl⟩)⟩
              · simp [hsrc, hfs]
              · simpa [balanceOf, hfd] using hv
            · exact Or.inr ⟨asset, hasset, Or.inr (Or.inr ⟨src, sb, hsrc, hfs, hv, rfl⟩)⟩

theorem Execute_error_inv {fail : StoreCall → Bool} {e : CreateOperation} {db : DB}
    {err : Error} (h : (Execute fail e db).2 = Except.error err) :
    (Execute fail e db).1.committed = db.committed ∧
      (Execute fail e db).1.working = db.committed :=
  ((Post_iff _ _ _).mp (Post_Execute_result fail e db)).2 err h

theorem Execute_ok_inv {fail : StoreCall → Bool} {e : CreateOperation} {db : DB}
    {res : Nat × Operation} (h : (Execute fail e db).2 = Except.ok res) :
    ∃ asset,
      findAsset e.Owner e.Asset.Code e.Asset.Scale db.committed.assets = some asset ∧
      res = (201, Operation.mk e.Owner (assetNameOf asset) e.Source e.Destination e.Amount
        OpStatus.settled) ∧
      (∀ src, party e.Asset.Owner e.Source = some src →
        ∃ b, findBalance (assetNameOf asset) src db.committed.balances = some b ∧
          invalidBalance (b.Value - e.Amount) = false) ∧
      (∀ dst, party e.Asset.Owner e.Destination = some dst →
        invalidBalance ((balanceOf db.committed (assetNameOf asset) dst).getD 0 + e.Amount)
          = false) ∧
      (Execute fail e db).1.committed = committedBy e asset db.committed ∧
      (Execute fail e db).1.working = (Execute fail e db).1.committed :=
  ((Post_iff _ _ _).mp (Post_Execute_result fail e db)).1 res h

theorem Execute_refused_inv {fail : StoreCall → Bool} (hnf : ∀ c, fail c = false)
    {e : CreateOperation} {db : DB} {err : Error}
    (h : (Execute fail e db).2 = Except.error err) : Refused e db.committed err :=
  ((Post_iff _ _ _).mp (Post_Execute_refused fail hnf e db)).2 err h

theorem Execute_result_cases (fail : StoreCall → Bool) (e : CreateOperation) (db : DB) :
    (∃ res, (Execute fail e db).2 = Except.ok res) ∨
      (∃ err, (Execute fail e db).2 = Except.error err) := by
  cases h : (Execute fail e db).2 with
  | ok res => exact Or.inl ⟨res, rfl⟩
  | error err => exact Or.inr ⟨err, rfl⟩

theorem Post_Execute_log (fail : StoreCall → Bool) (e : CreateOperation) (db : DB) :
    Post (Execute fail e db)
      (fun ctx _ => ∃ evs, ctx.log = db.log ++ evs ∧
        ∀ ev ∈ evs, ev.holder ≠ some e.Asset.Owner)
      (fun ctx _ => ∃ evs, ctx.log = db.log ++ evs ∧
        ∀ ev ∈ evs, ev.holder ≠ some e.Asset.Owner) := by
  rw [Post_Execute]
  simp only [Post_body, Execute.apply, Post_andThen, Post_LoadAsset, Post_loadSrc, Post_loadDst,
    Post_CreateCanonicalOperation, Post_creditDst, Post_debitSrc, Post_ok, Post_error]
  simp [Event.holder]
  intro _
  split
  · trivial
  · split
    · split
      · trivial
      · rename_i dst hdst
        have hd : ¬ dst = e.Asset.Owner :=
          fun h => ((party_eq_some_iff _ _ _).mp hdst).2 h.symm
        refine ⟨fun _ => hd, fun _ => ?_⟩
        split
        · simp [hd]
        · rename_i b hb
          have hk := (findBalance_some_key hb).2.1
          simp [hd, hk]
    · rename_i src hsrc
      have hs : ¬ src = e.Asset.Owner :=
        fun h => ((party_eq_some_iff _ _ _).mp hsrc).2 h.symm
      refine ⟨fun _ => hs, fun _ => ?_⟩
      split
      · exact hs
      · rename_i sb hsb
        have hks := (findBalance_some_key hsb).2.1
        split
        · simp [hs, hks]
        · rename_i dst hdst
          have hd : ¬ dst = e.Asset.Owner :=
            fun h => ((party_eq_some_iff _ _ _).mp hdst).2 h.symm
          refine ⟨fun _ => ⟨hs, hd⟩, fun _ => ?_⟩
          split
          · simp [hs, hd, hks]
          · rename_i b hb
            have hk := (findBalance_some_key hb).2.1
            simp [hs, hd, hks, hk]

/-! ## Facts on amounts and stored values -/

theorem invalidBalance_eq_false_iff (x : Int) :
    invalidBalance x = false ↔ 0 ≤ x ∧ x < MaxAssetAmount := by
  unfold invalidBalance
  generalize MaxAssetAmount = M
  rw [decide_eq_false_iff_not, not_or, not_le, not_lt]
  constructor
  · rintro ⟨h1, h2⟩
    rw [abs_of_nonneg h2] at h1
    exact ⟨h2, h1⟩
  · rintro ⟨h1, h2⟩
    rw [abs_of_nonneg h1]
    exact ⟨h2, h1⟩

theorem invalidBalance_eq_true_iff (x : Int) :
    invalidBalance x = true ↔ x < 0 ∨ MaxAssetAmount ≤ x := by
  rw [← Bool.not_eq_false, invalidBalance_eq_false_iff]
  generalize MaxAssetAmount = M
  constructor
  · intro h
    by_cases h0 : 0 ≤ x
    · exact Or.inr (not_lt.mp fun h1 => h ⟨h0, h1⟩)
    · exact Or.inl (not_le.mp h0)
  · rintro (h | h) ⟨h1, h2⟩
    · exact absurd h1 (not_le.mpr h)
    · exact absurd h2 (not_lt.mpr h)

theorem balanceOf_eq_none_iff (s : Store) (a h : String) :
    balanceOf s a h = none ↔ findBalance a h s.balances = none := by
  simp [balanceOf]

theorem balanceOf_eq_some_iff (s : Store) (a h : String) (v : Int) :
    balanceOf s a h = some v ↔ ∃ b, findBalance a h s.balances = some b ∧ b.Value = v := by
  simp [balanceOf]

theorem findBalance_creditRows_same (name d : String) (amt : Int) (bs : List Balance) :
    findBalance name d (creditRows name (some d) amt bs) =
      some { Asset := name, Holder := d,
             Value := ((findBalance name d bs).map Balance.Value).getD 0 + amt } := by
  unfold creditRows
  cases hb : findBalance name d bs with
  | none =>
    have h := findBalance_upsert_same { Asset := name, Holder := d, Value := 0 + amt }
      (bs ++ [{ Asset := name, Holder := d, Value := 0 }])
    simpa [hb] using h
  | some b =>
    obtain ⟨h1, h2, _⟩ := findBalance_some_key hb
    have h := findBalance_upsert_same { b with Value := b.Value + amt } bs
    simp only [h1, h2] at h
    simpa [hb, h1, h2] using h

theorem findBalance_creditRows_other (name : String) (dst : Option String) (amt : Int)
    (bs : List Balance) (a h : String) (hne : a = name → dst ≠ some h) :
    findBalance a h (creditRows name dst amt bs) = findBalance a h bs := by
  unfold creditRows
  cases dst with
  | none => rfl
  | some d =>
    have hkey : ¬ (name = a ∧ d = h) := by
      rintro ⟨h1, h2⟩
      exact hne h1.symm (by rw [h2])
    cases hb : findBalance name d bs with
    | none =>
      simp only [hb]
      rw [findBalance_upsert_other a h _ _ (by simpa using hkey), findBalance_append_single]
      cases findBalance a h bs with
      | none => simp [hkey]
      | some x => rfl
    | some b =>
      obtain ⟨h1, h2, _⟩ := findBalance_some_key hb
      simp only [hb]
      rw [findBalance_upsert_other]
      simpa [h1, h2] using hkey

theorem findBalance_debitRows_same (name s : String) (b : Balance) (amt : Int)
    (bs bs2 : List Balance) (hb : findBalance name s bs = some b) :
    findBalance name s (debitRows (some b) amt bs2) =
      some { Asset := name, Holder := s, Value := b.Value - amt } := by
  obtain ⟨h1, h2, _⟩ := findBalance_some_key hb
  have h := findBalance_upsert_same { b with Value := b.Value - amt } bs2
  simp only [h1, h2] at h
  simpa [debitRows, h1, h2] using h

theorem findBalance_debitRows_other (name s : String) (b : Balance) (amt : Int)
    (bs bs2 : List Balance) (hb : findBalance name s bs = some b) (a h : String)
    (hne : ¬ (name = a ∧ s = h)) :
    findBalance a h (debitRows (some b) amt bs2) = findBalance a h bs2 := by
  obtain ⟨h1, h2, _⟩ := findBalance_some_key hb
  unfold debitRows
  simp only
  rw [findBalance_upsert_other]
  simpa [h1, h2] using hne

theorem mem_creditRows {name : String} {dst : Option String} {amt : Int} {bs : List Balance}
    {x : Balance} (hx : x ∈ creditRows name dst amt bs) :
    x ∈ bs ∨ x.Value = 0 ∨
      ∃ d, dst = some d ∧
        x.Value = ((findBalance name d bs).map Balance.Value).getD 0 + amt := by
  unfold creditRows at hx
  cases dst with
  | none => exact Or.inl hx
  | some d =>
    cases hb : findBalance name d bs with
    | none =>
      simp only [hb] at hx
      rcases mem_upsert hx with h | h
      · exact Or.inr (Or.inr ⟨d, rfl, by simp [h, hb]⟩)
      · rcases List.mem_append.mp h with h | h
        · exact Or.inl h
        · exact Or.inr (Or.inl (by simp at h; simp [h]))
    | some b =>
      simp only [hb] at hx
      rcases mem_upsert hx with h | h
      · exact Or.inr (Or.inr ⟨d, rfl, by simp [h, hb]⟩)
      · exact Or.inl h

theorem mem_debitRows {srcRow : Option Balance} {amt : Int} {bs : List Balance}
    {x : Balance} (hx : x ∈ debitRows srcRow amt bs) :
    x ∈ bs ∨ ∃ b, srcRow = some b ∧ x.Value = b.Value - amt := by
  unfold debitRows at hx
  cases srcRow with
  | none => exact Or.inl hx
  | some b =>
    rcases mem_upsert hx with h | h
    · exact Or.inr ⟨b, rfl, by simp [h]⟩
    · exact Or.inl h

theorem findBalance_debit_srcRow_other (name : String) (src : Option String) (amt : Int)
    (bs bs2 : List Balance) (a h : String) (hne : a = name → src ≠ some h) :
    findBalance a h (debitRows (srcRowOf name src bs) amt bs2) = findBalance a h bs2 := by
  cases src with
  | none => rfl
  | some s =>
    cases hb : findBalance name s bs with
    | none => simp [srcRowOf, hb, debitRows]
    | some b =>
      simp only [srcRowOf, hb]
      refine findBalance_debitRows_other name s b amt bs bs2 hb a h ?_
      rintro ⟨h1, h2⟩
      exact hne h1.symm (by rw [h2])

theorem balanceOf_committedBy (e : CreateOperation) (asset : Asset) (s : Store) (a h : String) :
    balanceOf (committedBy e asset s) a h =
      (findBalance a h
        (debitRows (srcRowOf (assetNameOf asset) (party e.Asset.Owner e.Source) s.balances)
          e.Amount
          (creditRows (assetNameOf asset) (party e.Asset.Owner e.Destination) e.Amount
            s.balances))).map Balance.Value := rfl

theorem balanceOf_committedBy_other (e : CreateOperation) (asset : Asset) (s : Store)
    (a h : String)
    (hs : a = assetNameOf asset → party e.Asset.Owner e.Source ≠ some h)
    (hd : a = assetNameOf asset → party e.Asset.Owner e.Destination ≠ some h) :
    balanceOf (committedBy e asset s) a h = balanceOf s a h := by
  rw [balanceOf_committedBy, findBalance_debit_srcRow_other _ _ _ _ _ _ _ hs,
    findBalance_creditRows_other _ _ _ _ _ _ hd]
  rfl

theorem MaxAssetAmount_eq : MaxAssetAmount = 2 ^ 128 := rfl

theorem srcRowOf_eq_some {name : String} {src : Option String} {bs : List Balance}
    {b : Balance} (h : srcRowOf name src bs = some b) :
    ∃ s, src = some s ∧ findBalance name s bs = some b := by
  cases src with
  | none => simp [srcRowOf] at h
  | some s => exact ⟨s, rfl, h⟩

theorem party_owner_ne (owner : String) (p : Option String) : party owner p ≠ some owner := by
  intro h
  exact ((party_eq_some_iff _ _ _).mp h).2 rfl

theorem party_ne_of_ne {owner : String} {p : Option String} {h : String} (hp : p ≠ some h) :
    party owner p ≠ some h := by
  intro hh
  exact hp ((party_eq_some_iff _ _ _).mp hh).1

theorem Execute_frame (fail : StoreCall → Bool) (e : CreateOperation) (db : DB) (a h : String)
    (hs : party e.Asset.Owner e.Source ≠ some h)
    (hd : party e.Asset.Owner e.Destination ≠ some h) :
    balanceOf (Execute fail e db).1.committed a h = balanceOf db.committed a h := by
  rcases Execute_result_cases fail e db with ⟨res, hres⟩ | ⟨err, herr⟩
  · obtain ⟨asset, _, _, _, _, hcommit, _⟩ := Execute_ok_inv hres
    rw [hcommit]
    exact balanceOf_committedBy_other e asset db.committed a h (fun _ => hs) (fun _ => hd)
  · rw [(Execute_error_inv herr).1]

theorem Execute_ok_source_debited {fail : StoreCall → Bool} {e : CreateOperation} {db : DB}
    {res : Nat × Operation} (h : (Execute fail e db).2 = Except.ok res) (src : String)
    (hsrc : e.Source = some src) (hne : e.Asset.Owner ≠ src) :
    ∃ asset v,
      findAsset e.Owner e.Asset.Code e.Asset.Scale db.committed.assets = some asset ∧
      balanceOf db.committed (assetNameOf asset) src = some v ∧
      balanceOf (Execute fail e db).1.committed (assetNameOf asset) src =
        some (v - e.Amount) := by
  obtain ⟨asset, hasset, _, hs, _, hcommit, _⟩ := Execute_ok_inv h
  have hparty : party e.Asset.Owner e.Source = some src :=
    (party_eq_some_iff _ _ _).mpr ⟨hsrc, hne⟩
  obtain ⟨b, hb, _⟩ := hs src hparty
  refine ⟨asset, b.Value, hasset, (balanceOf_eq_some_iff _ _ _ _).mpr ⟨b, hb, rfl⟩, ?_⟩
  rw [hcommit, balanceOf_committedBy, hparty]
  simp only [srcRowOf, hb]
  rw [findBalance_debitRows_same _ _ _ _ _ _ hb]
  rfl

theorem Execute_insufficient (fail : StoreCall → Bool) (e : CreateOperation) (db : DB)
    (src : String) (hsrc : e.Source = some src) (hne : e.Asset.Owner ≠ src) (asset : Asset)
    (v : Int)
    (hasset : findAsset e.Owner e.Asset.Code e.Asset.Scale db.committed.assets = some asset)
    (hsome : balanceOf db.committed (assetNameOf asset) src = some v) (hlt : v < e.Amount) :
    (∃ err, (Execute fail e db).2 = Except.error err) ∧
      ((∀ c, fail c = false) →
        (Execute fail e db).2 = Except.error (Error.user 400 "amount_invalid")) ∧
      (Execute fail e db).1.committed = db.committed := by
  have hparty : party e.Asset.Owner e.Source = some src :=
    (party_eq_some_iff _ _ _).mpr ⟨hsrc, hne⟩
  obtain ⟨b, hb, hbv⟩ := (balanceOf_eq_some_iff _ _ _ _).mp hsome
  have herr : ∃ err, (Execute fail e db).2 = Except.error err := by
    rcases Execute_result_cases fail e db with ⟨res, hres⟩ | herr
    · obtain ⟨asset2, hasset2, _, hs, _, _, _⟩ := Execute_ok_inv hres
      rw [hasset] at hasset2
      cases hasset2
      obtain ⟨b2, hb2, hv⟩ := hs src hparty
      rw [hb] at hb2
      cases hb2
      have := ((invalidBalance_eq_false_iff _).mp hv).1
      omega
    · exact herr
  obtain ⟨err, herr⟩ := herr
  refine ⟨⟨err, herr⟩, ?_, (Execute_error_inv herr).1⟩
  intro hnf
  rcases Execute_refused_inv hnf herr with ⟨h1, _⟩ | ⟨asset2, hasset2, h2⟩
  · rw [hasset] at h1
    cases h1
  · rw [hasset] at hasset2
    cases hasset2
    rcases h2 with ⟨src2, h3, h4, _⟩ | ⟨_, _, _, _, h3⟩ | ⟨_, _, _, _, _, h3⟩
    · rw [hparty] at h3
      cases h3
      rw [hb] at h4
      cases h4
    · rw [herr, h3]
    · rw [herr, h3]

/-! ## Facts on sums of balances -/

theorem rowsTotal_append (A I : String) (xs ys : List Balance) :
    rowsTotal A I (xs ++ ys) = rowsTotal A I xs + rowsTotal A I ys := by
  induction xs with
  | nil => simp [rowsTotal]
  | cons x xs ih =>
    show rowsTotal A I (x :: (xs ++ ys)) = _
    rw [rowsTotal, rowsTotal, ih]
    omega

theorem rowsTotal_upsert (A I a h : String) (b b2 : Balance) (bs : List Balance)
    (hb : findBalance a h bs = some b) (h1 : b2.Asset = a) (h2 : b2.Holder = h) :
    rowsTotal A I (upsert b2 bs) =
      rowsTotal A I bs + (if a = A ∧ h ≠ I then b2.Value - b.Value else 0) := by
  induction bs with
  | nil => simp [findBalance_nil] at hb
  | cons x xs ih =>
    rw [findBalance_cons] at hb
    unfold upsert
    by_cases hx : x.Asset = a ∧ x.Holder = h
    · rw [if_pos hx] at hb
      cases hb
      rw [if_pos (by rw [h1, h2]; exact hx)]
      simp only [rowsTotal, h1, h2, hx.1, hx.2]
      split <;> omega
    · rw [if_neg hx] at hb
      rw [if_neg (by rw [h1, h2]; exact hx)]
      simp only [rowsTotal, ih hb]
      omega

theorem rowsTotal_upsert_ne (A I : String) (b2 : Balance) (bs : List Balance)
    (hne : b2.Asset ≠ A) : rowsTotal A I (upsert b2 bs) = rowsTotal A I bs := by
  induction bs with
  | nil => simp [upsert, rowsTotal, hne]
  | cons x xs ih =>
    unfold upsert
    split
    · rename_i hx
      have hxA : x.Asset ≠ A := by
        rw [hx.1]
        exact hne
      simp [rowsTotal, hne, hxA]
    · simp only [rowsTotal, ih]

theorem rowsTotal_creditRows (A I name : String) (dst : Option String) (amt : Int)
    (bs : List Balance) :
    rowsTotal A I (creditRows name dst amt bs) =
      rowsTotal A I bs +
        (match dst with
         | none => 0
         | some d => if name = A ∧ d ≠ I then amt else 0) := by
  unfold creditRows
  cases dst with
  | none => simp
  | some d =>
    cases hb : findBalance name d bs with
    | none =>
      have hz : findBalance name d (bs ++ [{ Asset := name, Holder := d, Value := 0 }]) =
          some { Asset := name, Holder := d, Value := 0 } := by
        rw [findBalance_append_single, hb]
        simp
      simp only [hb]
      rw [rowsTotal_upsert A I name d _ _ _ hz rfl rfl, rowsTotal_append]
      simp only [rowsTotal]
      split <;> simp
    | some b =>
      obtain ⟨h1, h2, _⟩ := findBalance_some_key hb
      simp only [hb]
      rw [rowsTotal_upsert A I name d b { b with Value := b.Value + amt } bs hb h1 h2]
      simp

theorem rowsTotal_debitRows (A I name s : String) (b : Balance) (amt : Int)
    (bs : List Balance) (hb : findBalance name s bs = some b) :
    rowsTotal A I (debitRows (some b) amt bs) =
      rowsTotal A I bs - (if name = A ∧ s ≠ I then amt else 0) := by
  obtain ⟨h1, h2, _⟩ := findBalance_some_key hb
  unfold debitRows
  simp only
  rw [rowsTotal_upsert A I name s b { b with Value := b.Value - amt } bs hb h1 h2]
  split
  · simp
    omega
  · simp

/-- The change of the sum of asset `A` brought by a successful run that is not a transfer
from a non-issuer holder to itself. -/
theorem supply_committedBy (e : CreateOperation) (asset : Asset) (s : Store) (A I : String)
    (hsrc : ∀ src, party e.Asset.Owner e.Source = some src →
      ∃ b, findBalance (assetNameOf asset) src s.balances = some b)
    (hdistinct : ∀ h, party e.Asset.Owner e.Source = some h →
      party e.Asset.Owner e.Destination ≠ some h) :
    supply (committedBy e asset s) A I =
      supply s A I +
        (match party e.Asset.Owner e.Destination with
         | none => 0
         | some d => if assetNameOf asset = A ∧ d ≠ I then e.Amount else 0) -
        (match party e.Asset.Owner e.Source with
         | none => 0
         | some src => if assetNameOf asset = A ∧ src ≠ I then e.Amount else 0) := by
  unfold supply committedBy
  simp only
  cases hp : party e.Asset.Owner e.Source with
  | none =>
    simp only [srcRowOf, debitRows]
    rw [rowsTotal_creditRows]
    omega
  | some src =>
    obtain ⟨b, hb⟩ := hsrc src hp
    have hb2 : findBalance (assetNameOf asset) src
        (creditRows (assetNameOf asset) (party e.Asset.Owner e.Destination) e.Amount
          s.balances) = some b := by
      rw [findBalance_creditRows_other _ _ _ _ _ _ (fun _ => hdistinct src hp)]
      exact hb
    simp only [srcRowOf, hb]
    rw [rowsTotal_debitRows A I _ src b _ _ hb2, rowsTotal_creditRows]

/-! ## Facts on validation -/

theorem ValidateAmount_error {a : String} {err : Error}
    (h : ValidateAmount a = Except.error err) : err = Error.user 400 "amount_invalid" := by
  unfold ValidateAmount at h
  split at h
  · cases h
    rfl
  · split at h
    · cases h
      rfl
    · cases h

theorem Validate_source_eq (c : Codec) (r : Request) :
    Validate.source c r =
      if r.source = "" then Outcome.ok none
      else
        match c.NormalizedAddress r.source with
        | none => Outcome.fault
        | some addr => Outcome.ok (some addr) := by
  unfold Validate.source deref
  by_cases h : r.source = ""
  · simp [h]
  · simp only [ne_eq, h, not_false_eq_true, if_true, if_false]

theorem Validate_destination_eq (c : Codec) (r : Request) :
    Validate.destination c r =
      if r.destination = "" then Outcome.ok none
      else
        match c.NormalizedAddress r.destination with
        | none => Outcome.fault
        | some addr => Outcome.ok (some addr) := by
  unfold Validate.destination deref
  by_cases h : r.destination = ""
  · simp [h]
  · simp only [ne_eq, h, not_false_eq_true, if_true, if_false]

theorem Validate_source_not_error (c : Codec) (r : Request) (err : Error) :
    Validate.source c r ≠ Outcome.error err := by
  rw [Validate_source_eq]
  split
  · simp
  · split <;> simp

theorem Validate_destination_not_error (c : Codec) (r : Request) (err : Error) :
    Validate.destination c r ≠ Outcome.error err := by
  rw [Validate_destination_eq]
  split
  · simp
  · split <;> simp

theorem Validate_error_code {c : Codec} {r : Request} {err : Error}
    (h : Validate c r = Outcome.error err) :
    err = Error.user 400 "asset_invalid" ∨
      (err = Error.user 400 "operation_not_authorized" ∧
        ∃ a, c.AssetResourceFromName r.asset = some a ∧
          r.Username ++ "@" ++ r.MintHost ≠ a.Owner) ∨
      err = Error.user 400 "amount_invalid" ∨
      err = Error.user 400 "operation_invalid" := by
  unfold Validate at h
  cases ha : c.AssetResourceFromName r.asset with
  | none =>
    simp only [ha] at h
    cases h
    exact Or.inl rfl
  | some a =>
    simp only [ha] at h
    by_cases hne : r.Username ++ "@" ++ r.MintHost = a.Owner
    · simp only [hne, ne_eq, not_true_eq_false, if_false] at h
      cases hamt : ValidateAmount r.amount with
      | error err2 =>
        simp only [hamt] at h
        cases h
        exact Or.inr (Or.inr (Or.inl (ValidateAmount_error hamt)))
      | ok amount =>
        simp only [hamt] at h
        cases hs : Validate.source c r with
        | fault => simp [hs] at h
        | error err2 => exact absurd hs (Validate_source_not_error c r err2)
        | ok srcAddress =>
          simp only [hs] at h
          cases hd : Validate.destination c r with
          | fault => simp [hd] at h
          | error err2 => exact absurd hd (Validate_destination_not_error c r err2)
          | ok dstAddress =>
            simp only [hd] at h
            split at h
            · cases h
              exact Or.inr (Or.inr (Or.inr rfl))
            · cases h
    · simp only [ne_eq, hne, not_false_eq_true, if_true] at h
      cases h
      exact Or.inr (Or.inl ⟨rfl, a, rfl, hne⟩)

theorem Validate_ok_inv {c : Codec} {r : Request} {e : CreateOperation}
    (h : Validate c r = Outcome.ok e) :
    ∃ a amount src dst,
      c.AssetResourceFromName r.asset = some a ∧
      r.Username ++ "@" ++ r.MintHost = a.Owner ∧
      ValidateAmount r.amount = Except.ok amount ∧
      Validate.source c r = Outcome.ok src ∧
      Validate.destination c r = Outcome.ok dst ∧
      ¬ (src = none ∧ dst = none) ∧
      e = { Owner := r.Username ++ "@" ++ r.MintHost, Asset := a, Amount := amount,
            Source := src, Destination := dst } := by
  unfold Validate at h
  cases ha : c.AssetResourceFromName r.asset with
  | none => simp [ha] at h
  | some a =>
    simp only [ha] at h
    by_cases hne : r.Username ++ "@" ++ r.MintHost = a.Owner
    · simp only [hne, ne_eq, not_true_eq_false, if_false] at h
      cases hamt : ValidateAmount r.amount with
      | error err2 => simp [hamt] at h
      | ok amount =>
        simp only [hamt] at h
        cases hs : Validate.source c r with
        | fault => simp [hs] at h
        | error err2 => exact absurd hs (Validate_source_not_error c r err2)
        | ok srcAddress =>
          simp only [hs] at h
          cases hd : Validate.destination c r with
          | fault => simp [hd] at h
          | error err2 => exact absurd hd (Validate_destination_not_error c r err2)
          | ok dstAddress =>
            simp only [hd] at h
            split at h
            · cases h
            · rename_i hnn
              cases h
              exact ⟨a, amount, srcAddress, dstAddress, rfl, hne, rfl, rfl, rfl, hnn, by rw [hne]⟩
    · simp [hne] at h

theorem Validate_source_ok_iff {c : Codec} {r : Request} {src : Option String}
    (h : Validate.source c r = Outcome.ok src) : src = none ↔ r.source = "" := by
  rw [Validate_source_eq] at h
  by_cases hs : r.source = ""
  · simp only [hs, if_true] at h
    cases h
    simp [hs]
  · simp only [hs, if_false] at h
    cases hn : c.NormalizedAddress r.source with
    | none => simp [hn] at h
    | some addr =>
      simp only [hn] at h
      cases h
      simp [hs]

theorem Validate_destination_ok_iff {c : Codec} {r : Request} {dst : Option String}
    (h : Validate.destination c r = Outcome.ok dst) : dst = none ↔ r.destination = "" := by
  rw [Validate_destination_eq] at h
  by_cases hs : r.destination = ""
  · simp only [hs, if_true] at h
    cases h
    simp [hs]
  · simp only [hs, if_false] at h
    cases hn : c.NormalizedAddress r.destination with
    | none => simp [hn] at h
    | some addr =>
      simp only [hn] at h
      cases h
      simp [hs]

theorem Validate_source_rejected (c : Codec) (r : Request) (a : AssetResource) (amount : Int)
    (ha : c.AssetResourceFromName r.asset = some a)
    (ho : r.Username ++ "@" ++ r.MintHost = a.Owner)
    (hamt : ValidateAmount r.amount = Except.ok amount)
    (hs : r.source ≠ "") (hn : c.NormalizedAddress r.source = none) :
    Validate c r = Outcome.fault := by
  have h1 : Validate.source c r = Outcome.fault := by
    rw [Validate_source_eq]
    simp [hs, hn]
  simp [Validate, ha, ho, hamt, h1]

theorem mem_upsert_iff_of_key_ne (b x : Balance) (bs : List Balance)
    (hne : ¬ (x.Asset = b.Asset ∧ x.Holder = b.Holder)) :
    x ∈ upsert b bs ↔ x ∈ bs := by
  have hxb : x ≠ b := by
    rintro rfl
    exact hne ⟨rfl, rfl⟩
  induction bs with
  | nil => simp [upsert, hxb]
  | cons y ys ih =>
    unfold upsert
    split
    · rename_i hy
      have hxy : x ≠ y := by
        rintro rfl
        exact hne hy
      simp [hxb, hxy]
    · simp [ih]

theorem mem_creditRows_iff_of_key_ne (name : String) (dst : Option String) (amt : Int)
    (bs : List Balance) (x : Balance)
    (hne : ¬ (x.Asset = name ∧ dst = some x.Holder)) :
    x ∈ creditRows name dst amt bs ↔ x ∈ bs := by
  unfold creditRows
  cases dst with
  | none => rfl
  | some d =>
    have hkey : ¬ (x.Asset = name ∧ x.Holder = d) := by
      rintro ⟨h1, h2⟩
      exact hne ⟨h1, by rw [h2]⟩
    cases hb : findBalance name d bs with
    | none =>
      simp only [hb]
      rw [mem_upsert_iff_of_key_ne _ _ _ (by simpa using hkey), List.mem_append]
      constructor
      · rintro (h | h)
        · exact h
        · simp only [List.mem_singleton] at h
          exact absurd ⟨by rw [h], by rw [h]⟩ hkey
      · exact Or.inl
    | some b =>
      obtain ⟨h1, h2, _⟩ := findBalance_some_key hb
      simp only [hb]
      exact mem_upsert_iff_of_key_ne _ _ _ (by simpa [h1, h2] using hkey)

theorem mem_debit_srcRow_iff_of_key_ne (name : String) (src : Option String) (amt : Int)
    (bs bs2 : List Balance) (x : Balance)
    (hne : ¬ (x.Asset = name ∧ src = some x.Holder)) :
    x ∈ debitRows (srcRowOf name src bs) amt bs2 ↔ x ∈ bs2 := by
  cases src with
  | none => rfl
  | some s =>
    cases hb : findBalance name s bs with
    | none => simp [srcRowOf, hb, debitRows]
    | some b =>
      obtain ⟨h1, h2, _⟩ := findBalance_some_key hb
      simp only [srcRowOf, hb, debitRows]
      refine mem_upsert_iff_of_key_ne _ _ _ ?_
      rintro ⟨h3, h4⟩
      exact hne ⟨by simpa [h1] using h3, by simp only at h4; rw [h4, h2]⟩

theorem ValidateAmount_negative {a : String} (h : isNegativeAmount a = true) :
    ValidateAmount a = Except.error (Error.user 400 "amount_invalid") := by
  unfold isNegativeAmount at h
  unfold ValidateAmount
  cases hp : parseBigInt a with
  | none => rfl
  | some n =>
    simp only [hp, decide_eq_true_eq] at h
    simp only
    rw [if_pos (Or.inl h)]

theorem Validate_negative_cases (c : Codec) (r : Request)
    (h : isNegativeAmount r.amount = true) :
    (c.AssetResourceFromName r.asset = none ∧
      Validate c r = Outcome.error (Error.user 400 "asset_invalid")) ∨
    (∃ a, c.AssetResourceFromName r.asset = some a ∧
      r.Username ++ "@" ++ r.MintHost ≠ a.Owner ∧
      Validate c r = Outcome.error (Error.user 400 "operation_not_authorized")) ∨
    (∃ a, c.AssetResourceFromName r.asset = some a ∧
      r.Username ++ "@" ++ r.MintHost = a.Owner ∧
      Validate c r = Outcome.error (Error.user 400 "amount_invalid")) := by
  have hamt := ValidateAmount_negative h
  cases ha : c.AssetResourceFromName r.asset with
  | none =>
    left
    exact ⟨rfl, by simp [Validate, ha]⟩
  | some a =>
    right
    by_cases ho : r.Username ++ "@" ++ r.MintHost = a.Owner
    · right
      exact ⟨a, rfl, ho, by simp [Validate, ha, ho, hamt]⟩
    · left
      exact ⟨a, rfl, ho, by simp [Validate, ha, ho]⟩

/-! ## Facts on path planning -/

theorem ceilMul_mul_ge (n q : Int) (hq : 0 < q) : n ≤ (n + q - 1) / q * q := by
  have h := Int.lt_ediv_add_one_mul_self (n + q - 1) hq
  rw [Int.add_mul, Int.one_mul] at h
  omega

theorem ceilMul_le_of_le_mul (n q r : Int) (hq : 0 < q) (h : n ≤ r * q) :
    (n + q - 1) / q ≤ r := by
  have h1 : n + q - 1 < (r + 1) * q := by
    rw [Int.add_mul, Int.one_mul]
    omega
  have := Int.ediv_lt_of_lt_mul hq h1
  omega

theorem operationHops_cons_cons (i j : Nat) (m m2 : String) (asset : AssetResource)
    (src dst offer : String) (a a2 : Int) (rest : List Hop) :
    operationHops (Hop.operation i m asset src dst a :: Hop.crossing j m2 offer a2 :: rest) =
      i :: operationHops rest := rfl

theorem crossingHops_cons_cons (i j : Nat) (m m2 : String) (asset : AssetResource)
    (src dst offer : String) (a a2 : Int) (rest : List Hop) :
    crossingHops (Hop.operation i m asset src dst a :: Hop.crossing j m2 offer a2 :: rest) =
      j :: crossingHops rest := rfl

theorem operationHops_planFrom (index : Nat) (asset : AssetResource)
    (source destination : String) (amount : Int) (path : List OfferResource) :
    operationHops (planFrom index asset source destination amount path) =
      (List.range (path.length + 1)).map fun i => index + 2 * i := by
  induction path generalizing index asset source with
  | nil => rfl
  | cons o os ih =>
    rw [planFrom, operationHops_cons_cons, ih, List.length_cons,
      List.range_succ_eq_map (os.length + 1)]
    simp only [List.map_cons, List.map_map, Nat.mul_zero, Nat.add_zero, List.cons.injEq,
      true_and]
    apply List.map_congr_left
    intro i _
    simp only [Function.comp]
    omega

theorem crossingHops_planFrom (index : Nat) (asset : AssetResource)
    (source destination : String) (amount : Int) (path : List OfferResource) :
    crossingHops (planFrom index asset source destination amount path) =
      (List.range path.length).map fun i => index + 2 * i + 1 := by
  induction path generalizing index asset source with
  | nil => rfl
  | cons o os ih =>
    rw [planFrom, crossingHops_cons_cons, ih, List.length_cons,
      List.range_succ_eq_map os.length]
    simp only [List.map_cons, List.map_map, Nat.mul_zero, Nat.add_zero, List.cons.injEq,
      true_and]
    apply List.map_congr_left
    intro i _
    simp only [Function.comp]
    omega

theorem length_planFrom (index : Nat) (asset : AssetResource)
    (source destination : String) (amount : Int) (path : List OfferResource) :
    (planFrom index asset source destination amount path).length = 2 * path.length + 1 := by
  induction path generalizing index asset source with
  | nil => simp [planFrom]
  | cons o os ih =>
    rw [planFrom]
    simp only [List.length_cons, ih]
    omega

theorem operationAmountAt_planFrom (index : Nat) (asset : AssetResource)
    (source destination : String) (amount : Int) (path : List OfferResource) :
    operationAmountAt (planFrom index asset source destination amount path) index =
      some (requiredAmount path amount) := by
  cases path with
  | nil => simp [planFrom, operationAmountAt, Hop.isOperation, Hop.index, Hop.amount,
      requiredAmount]
  | cons o os => simp [planFrom, operationAmountAt, Hop.isOperation, Hop.index, Hop.amount]

/-! ## Reservation and expiration: values, remainders and rows -/

theorem valueOf_addToBalance (a h a2 h2 : String) (d : Int) (bs : List Balance) :
    valueOf a h (addToBalance a2 h2 d bs) =
      valueOf a h bs + if a2 = a ∧ h2 = h then d else 0 := by
  unfold addToBalance
  cases hb : findBalance a2 h2 bs with
  | none =>
    simp only
    unfold valueOf
    rw [findBalance_append_single]
    by_cases hk : a2 = a ∧ h2 = h
    · obtain ⟨rfl, rfl⟩ := hk
      simp [hb]
    · cases hx : findBalance a h bs with
      | none => simp [hk]
      | some x => simp [hk]
  | some b =>
    obtain ⟨rfl, rfl, _⟩ := findBalance_some_key hb
    simp only
    unfold valueOf
    by_cases hk : b.Asset = a ∧ b.Holder = h
    · obtain ⟨rfl, rfl⟩ := hk
      have hs := findBalance_upsert_same { b with Value := b.Value + d } bs
      simp only at hs
      rw [hs, hb]
      simp
    · have hne : ¬ (({ b with Value := b.Value + d } : Balance).Asset = a ∧
          ({ b with Value := b.Value + d } : Balance).Holder = h) := hk
      rw [findBalance_upsert_other _ _ _ _ hne, if_neg hk]
      simp

theorem findOffer_cons (id : String) (x : OfferRow) (xs : List OfferRow) :
    findOffer id (x :: xs) = if x.ID = id then some x else findOffer id xs := by
  unfold findOffer
  by_cases hx : x.ID = id
  · simp [List.find?_cons, hx]
  · rw [if_neg hx, List.find?_cons]
    have : decide (x.ID = id) = false := by simpa using hx
    rw [this]

theorem findOffer_some_key {id : String} {os : List OfferRow} {o : OfferRow}
    (ho : findOffer id os = some o) : o.ID = id := by
  induction os with
  | nil => simp [findOffer] at ho
  | cons x xs ih =>
    rw [findOffer_cons] at ho
    split at ho
    · rename_i hx
      cases ho
      exact hx
    · exact ih ho

theorem findOffer_addToRemainder (id id2 : String) (d : Int) (os : List OfferRow) :
    findOffer id (addToRemainder id2 d os) =
      (findOffer id os).map fun o =>
        if o.ID = id2 then { o with Remainder := o.Remainder + d } else o := by
  induction os with
  | nil => rfl
  | cons x xs ih =>
    have hc : addToRemainder id2 d (x :: xs) =
        (if x.ID = id2 then { x with Remainder := x.Remainder + d } else x) ::
          addToRemainder id2 d xs := rfl
    have hid : (if x.ID = id2 then { x with Remainder := x.Remainder + d } else x).ID =
        x.ID := by
      split <;> rfl
    rw [hc, findOffer_cons, findOffer_cons, hid]
    by_cases hx : x.ID = id
    · rw [if_pos hx, if_pos hx]
      rfl
    · rw [if_neg hx, if_neg hx, ih]

theorem hasOffer_addToRemainder (id id2 : String) (d : Int) (os : List OfferRow) :
    hasOffer id (addToRemainder id2 d os) = hasOffer id os := by
  unfold hasOffer
  rw [findOffer_addToRemainder]
  cases findOffer id os <;> rfl

theorem remainderOf_addToRemainder (id id2 : String) (d : Int) (os : List OfferRow) :
    remainderOf id (addToRemainder id2 d os) =
      remainderOf id os + if id2 = id ∧ hasOffer id os = true then d else 0 := by
  unfold remainderOf hasOffer
  rw [findOffer_addToRemainder]
  cases ho : findOffer id os with
  | none => simp
  | some o =>
    have hk := findOffer_some_key ho
    by_cases h2 : id2 = id
    · have h3 : o.ID = id2 := by rw [hk, h2]
      simp [h2, h3, hk]
    · have h3 : ¬ o.ID = id2 := by
        rw [hk]
        exact fun e => h2 e.symm
      simp [h2, h3]

theorem debitStep_some {c : Prop} [Decidable c] {a h : String} {amt : Int}
    {bs bs1 : List Balance}
    (hd : (if c then debitBalance a h amt bs else some bs) = some bs1) (a2 h2 : String) :
    valueOf a2 h2 bs1 = valueOf a2 h2 bs + if c ∧ a = a2 ∧ h = h2 then -amt else 0 := by
  by_cases hc : c
  · rw [if_pos hc] at hd
    unfold debitBalance at hd
    cases hb : findBalance a h bs with
    | none => simp [hb] at hd
    | some b =>
      simp only [hb] at hd
      split at hd
      · cases hd
      · cases hd
        rw [valueOf_addToBalance]
        simp [hc]
  · rw [if_neg hc] at hd
    cases hd
    simp [hc]

theorem creditStep_some {c : Prop} [Decidable c] {a h : String} {amt : Int}
    {bs bs1 : List Balance}
    (hd : (if c then creditBalance a h amt bs else some bs) = some bs1) (a2 h2 : String) :
    valueOf a2 h2 bs1 = valueOf a2 h2 bs + if c ∧ a = a2 ∧ h = h2 then amt else 0 := by
  by_cases hc : c
  · rw [if_pos hc] at hd
    unfold creditBalance at hd
    split at hd
    · cases hd
    · cases hd
      rw [valueOf_addToBalance]
      simp [hc]
  · rw [if_neg hc] at hd
    cases hd
    simp [hc]

theorem reserve_remainder_some {id : String} {units : Int} {os os1 : List OfferRow}
    (hr : reserve_remainder id units os = some os1) :
    os1 = addToRemainder id (-units) os := by
  unfold reserve_remainder at hr
  cases ho : findOffer id os with
  | none => simp [ho] at hr
  | some o =>
    simp only [ho] at hr
    split at hr
    · cases hr
    · cases hr
      rfl

theorem reserveHop_inv (hp : Hop) (l l1 : Ledger) (hr : reserveHop hp l = some l1) :
    (∀ a h, valueOf a h l1.balances = valueOf a h l.balances + hp.balanceDelta a h) ∧
    (∀ id, remainderOf id l1.offers =
      remainderOf id l.offers - hp.remainderDelta (hasOffer id l.offers) id) ∧
    (∀ id, hasOffer id l1.offers = hasOffer id l.offers) ∧
    l1.transactions = l.transactions ∧
    l1.propagatedBalances = l.propagatedBalances ∧
    l1.propagatedOffers = l.propagatedOffers := by
  cases hp with
  | operation index mint asset source destination amount =>
    simp only [reserveHop] at hr
    cases h1 : (if source ≠ asset.Owner
        then debitBalance asset.Name source amount l.balances else some l.balances) with
    | none => simp [h1] at hr
    | some bs =>
      simp only [h1] at hr
      cases h2 : (if destination ≠ asset.Owner
          then creditBalance asset.Name destination amount bs else some bs) with
      | none => simp [h2] at hr
      | some bs2 =>
        simp only [h2] at hr
        cases hr
        refine ⟨fun a h => ?_, fun id => ?_, fun id => rfl, rfl, rfl, rfl⟩
        · show valueOf a h bs2 = _
          rw [creditStep_some h2 a h, debitStep_some h1 a h]
          simp only [Hop.balanceDelta]
          ring
        · simp [Hop.remainderDelta]
  | crossing index mint offer amount =>
    simp only [reserveHop] at hr
    cases h1 : reserve_remainder offer amount l.offers with
    | none => simp [h1] at hr
    | some os =>
      simp only [h1] at hr
      cases hr
      have hos := reserve_remainder_some h1
      subst hos
      refine ⟨fun a h => ?_, fun id => ?_, fun id => ?_, rfl, rfl, rfl⟩
      · simp [Hop.balanceDelta]
      · show remainderOf id (addToRemainder offer (-amount) l.offers) = _
        rw [remainderOf_addToRemainder]
        simp only [Hop.remainderDelta]
        split <;> ring
      · exact hasOffer_addToRemainder _ _ _ _

theorem restoreHop_inv (hp : Hop) (l : Ledger) :
    (∀ a h, valueOf a h (restoreHop hp l).balances =
      valueOf a h l.balances - hp.balanceDelta a h) ∧
    (∀ id, remainderOf id (restoreHop hp l).offers =
      remainderOf id l.offers + hp.remainderDelta (hasOffer id l.offers) id) ∧
    (∀ id, hasOffer id (restoreHop hp l).offers = hasOffer id l.offers) ∧
    (restoreHop hp l).transactions = l.transactions ∧
    (restoreHop hp l).propagatedBalances = l.propagatedBalances ∧
    (restoreHop hp l).propagatedOffers = l.propagatedOffers := by
  cases hp with
  | operation index mint asset source destination amount =>
    refine ⟨fun a h => ?_, fun id => ?_, fun id => rfl, rfl, rfl, rfl⟩
    · simp only [restoreHop, Hop.balanceDelta]
      split_ifs <;> (try simp only [valueOf_addToBalance]) <;> (try split_ifs) <;>
        first | (exfalso; tauto) | ring
    · simp [restoreHop, Hop.remainderDelta]
  | crossing index mint offer amount =>
    refine ⟨fun a h => ?_, fun id => ?_, fun id => ?_, rfl, rfl, rfl⟩
    · simp [restoreHop, Hop.balanceDelta]
    · show remainderOf id (addToRemainder offer amount l.offers) = _
      rw [remainderOf_addToRemainder]
      rfl
    · exact hasOffer_addToRemainder _ _ _ _

theorem owedSum_congr (P Q : String → Bool) (f g : Hop → Int) (hs : List Hop)
    (hP : ∀ x ∈ hs, P x.mint = Q x.mint) (hf : ∀ x ∈ hs, f x = g x) :
    owedSum P f hs = owedSum Q g hs := by
  induction hs with
  | nil => rfl
  | cons x xs ih =>
    simp only [owedSum]
    rw [hP x (List.mem_cons_self _ _), hf x (List.mem_cons_self _ _),
      ih (fun y hy => hP y (List.mem_cons_of_mem _ hy))
        (fun y hy => hf y (List.mem_cons_of_mem _ hy))]

theorem owedSum_false (P : String → Bool) (f : Hop → Int) (hs : List Hop)
    (hP : ∀ x ∈ hs, P x.mint = false) : owedSum P f hs = 0 := by
  induction hs with
  | nil => rfl
  | cons x xs ih =>
    simp only [owedSum]
    rw [hP x (List.mem_cons_self _ _), ih (fun y hy => hP y (List.mem_cons_of_mem _ hy))]
    simp

theorem owedSum_filter (m : String) (f : Hop → Int) (hs : List Hop) :
    owedSum (fun _ => true) f (hs.filter fun x => decide (x.mint = m)) =
      owedSum (fun m2 => decide (m2 = m)) f hs := by
  induction hs with
  | nil => rfl
  | cons x xs ih =>
    by_cases hx : x.mint = m
    · rw [List.filter_cons_of_pos (by simpa using hx)]
      simp only [owedSum]
      rw [ih]
      simp [hx]
    · rw [List.filter_cons_of_neg (by simpa using hx)]
      simp only [owedSum]
      rw [ih]
      simp [hx]

theorem owedSum_cancel (P : String → Bool) (f : Hop → Int) (m : String) (hs : List Hop)
    (hm : P m = true) :
    owedSum (fun m2 => P m2 && !decide (m2 = m)) f hs =
      owedSum P f hs - owedSum (fun m2 => decide (m2 = m)) f hs := by
  induction hs with
  | nil => rfl
  | cons x xs ih =>
    simp only [owedSum]
    rw [ih]
    by_cases hx : x.mint = m
    · simp [hx, hm]
    · by_cases hp : P x.mint = true
      · simp [hx, hp]
        ring
      · simp [hx, hp]

theorem reserveHops_inv : ∀ (hs : List Hop) (l l1 : Ledger), reserveHops hs l = some l1 →
    (∀ a h, valueOf a h l1.balances = valueOf a h l.balances +
      owedSum (fun _ => true) (fun x => x.balanceDelta a h) hs) ∧
    (∀ id, remainderOf id l1.offers = remainderOf id l.offers -
      owedSum (fun _ => true) (fun x => x.remainderDelta (hasOffer id l.offers) id) hs) ∧
    (∀ id, hasOffer id l1.offers = hasOffer id l.offers) ∧
    l1.transactions = l.transactions ∧
    l1.propagatedBalances = l.propagatedBalances ∧
    l1.propagatedOffers = l.propagatedOffers
  | [], l, l1, hr => by
    cases hr
    simp [owedSum]
  | x :: xs, l, l1, hr => by
    simp only [reserveHops] at hr
    cases h1 : reserveHop x l with
    | none => simp [h1] at hr
    | some l2 =>
      simp only [h1] at hr
      obtain ⟨a1, a2, a3, a4, a5, a6⟩ := reserveHop_inv x l l2 h1
      obtain ⟨b1, b2, b3, b4, b5, b6⟩ := reserveHops_inv xs l2 l1 hr
      refine ⟨fun a h => ?_, fun id => ?_, fun id => ?_, ?_, ?_, ?_⟩
      · rw [b1, a1]
        simp only [owedSum, if_true]
        ring
      · rw [b2, a2, a3]
        simp only [owedSum, if_true]
        ring
      · rw [b3, a3]
      · rw [b4, a4]
      · rw [b5, a5]
      · rw [b6, a6]

theorem restoreHops_inv : ∀ (hs : List Hop) (l : Ledger),
    (∀ a h, valueOf a h (restoreHops hs l).balances = valueOf a h l.balances -
      owedSum (fun _ => true) (fun x => x.balanceDelta a h) hs) ∧
    (∀ id, remainderOf id (restoreHops hs l).offers = remainderOf id l.offers +
      owedSum (fun _ => true) (fun x => x.remainderDelta (hasOffer id l.offers) id) hs) ∧
    (∀ id, hasOffer id (restoreHops hs l).offers = hasOffer id l.offers) ∧
    (restoreHops hs l).transactions = l.transactions ∧
    (restoreHops hs l).propagatedBalances = l.propagatedBalances ∧
    (restoreHops hs l).propagatedOffers = l.propagatedOffers
  | [], l => by
    simp [owedSum, restoreHops]
  | x :: xs, l => by
    obtain ⟨a1, a2, a3, a4, a5, a6⟩ := restoreHop_inv x l
    obtain ⟨b1, b2, b3, b4, b5, b6⟩ := restoreHops_inv xs (restoreHop x l)
    simp only [restoreHops]
    refine ⟨fun a h => ?_, fun id => ?_, fun id => ?_, ?_, ?_, ?_⟩
    · rw [b1, a1]
      simp only [owedSum, if_true]
      ring
    · rw [b2, a2, a3]
      simp only [owedSum, if_true]
      ring
    · rw [b3, a3]
    · rw [b4, a4]
    · rw [b5, a5]
    · rw [b6, a6]

theorem pendingOn_cons (id m : String) (r : TransactionRow) (rows : List TransactionRow) :
    pendingOn id m (r :: rows) =
      (decide (r.ID = id ∧ r.Mint = m ∧ r.Status = TxStatus.reserved) ||
        pendingOn id m rows) := rfl

theorem cancelOn_cons (id m : String) (r : TransactionRow) (rows : List TransactionRow) :
    cancelOn id m (r :: rows) =
      (if r.ID = id ∧ r.Mint = m ∧ r.Status = TxStatus.reserved
        then { r with Status := TxStatus.canceled } else r) :: cancelOn id m rows := rfl

theorem pendingOn_cancelOn (id m m2 : String) (rows : List TransactionRow) :
    pendingOn id m2 (cancelOn id m rows) =
      (pendingOn id m2 rows && !decide (m2 = m)) := by
  induction rows with
  | nil => rfl
  | cons r rows ih =>
    rw [cancelOn_cons, pendingOn_cons, pendingOn_cons, ih]
    by_cases hc : r.ID = id ∧ r.Mint = m ∧ r.Status = TxStatus.reserved
    · rw [if_pos hc]
      obtain ⟨h1, h2, h3⟩ := hc
      by_cases hm : m2 = m
      · simp [hm]
      · have hm2 : ¬ r.Mint = m2 := fun e => hm (e ▸ h2)
        simp [hm, hm2]
    · rw [if_neg hc]
      by_cases hm : m2 = m
      · subst hm
        have : decide (r.ID = id ∧ r.Mint = m2 ∧ r.Status = TxStatus.reserved) = false := by
          simpa using hc
        rw [this]
        simp
      · simp [hm]

theorem pendingOn_of_mem {id m : String} {rows : List TransactionRow} {r : TransactionRow}
    (hr : r ∈ rows) (h1 : r.ID = id) (h2 : r.Mint = m) (h3 : r.Status = TxStatus.reserved) :
    pendingOn id m rows = true := by
  unfold pendingOn
  rw [List.any_eq_true]
  exact ⟨r, hr, by simp [h1, h2, h3]⟩

theorem Expire_transactions (now : Int) (tx : TransactionResource) (m : String)
    (l : Ledger) :
    (Expire now tx m l).transactions =
      if tx.Expiry ≤ now ∧ pendingOn tx.ID m l.transactions = true
      then cancelOn tx.ID m l.transactions else l.transactions := by
  unfold Expire
  split <;> rfl

theorem Expire_propagated (now : Int) (tx : TransactionResource) (m : String)
    (l : Ledger) :
    (Expire now tx m l).propagatedBalances = l.propagatedBalances ∧
    (Expire now tx m l).propagatedOffers = l.propagatedOffers := by
  unfold Expire
  split
  · obtain ⟨_, _, _, _, b5, b6⟩ :=
      restoreHops_inv ((planPath tx).filter fun h => decide (h.mint = m)) l
    exact ⟨b5, b6⟩
  · exact ⟨rfl, rfl⟩

theorem pendingOn_Expire_self (now : Int) (tx : TransactionResource) (m : String)
    (l : Ledger) (hexp : tx.Expiry ≤ now) :
    pendingOn tx.ID m (Expire now tx m l).transactions = false := by
  rw [Expire_transactions]
  split
  · rw [pendingOn_cancelOn]
    simp
  · rename_i hc
    cases hp : pendingOn tx.ID m l.transactions with
    | false => rfl
    | true => exact absurd ⟨hexp, hp⟩ hc

theorem pendingOn_Expire_mono (now : Int) (tx : TransactionResource) (m m2 : String)
    (l : Ledger) (hp : pendingOn tx.ID m2 l.transactions = false) :
    pendingOn tx.ID m2 (Expire now tx m l).transactions = false := by
  rw [Expire_transactions]
  split
  · rw [pendingOn_cancelOn, hp]
    rfl
  · exact hp

theorem ExpireAll_cons (now : Int) (tx : TransactionResource) (m : String)
    (ms : List String) (l : Ledger) :
    ExpireAll now tx (m :: ms) l = ExpireAll now tx ms (Expire now tx m l) := rfl

theorem pendingOn_ExpireAll (now : Int) (tx : TransactionResource) (hexp : tx.Expiry ≤ now)
    (m : String) : ∀ (ms : List String) (l : Ledger),
    m ∈ ms ∨ pendingOn tx.ID m l.transactions = false →
    pendingOn tx.ID m (ExpireAll now tx ms l).transactions = false
  | [], l, h => by
    rcases h with h | h
    · simp at h
    · exact h
  | m0 :: ms, l, h => by
    rw [ExpireAll_cons]
    apply pendingOn_ExpireAll now tx hexp m ms
    rcases h with h | h
    · rcases List.mem_cons.1 h with h | h
      · right
        rw [h]
        exact pendingOn_Expire_self now tx m0 l hexp
      · exact Or.inl h
    · exact Or.inr (pendingOn_Expire_mono now tx m0 m l h)

theorem ExpireAll_propagated (now : Int) (tx : TransactionResource) :
    ∀ (ms : List String) (l : Ledger),
    (ExpireAll now tx ms l).propagatedBalances = l.propagatedBalances ∧
    (ExpireAll now tx ms l).propagatedOffers = l.propagatedOffers
  | [], _ => ⟨rfl, rfl⟩
  | m :: ms, l => by
    rw [ExpireAll_cons]
    obtain ⟨a1, a2⟩ := ExpireAll_propagated now tx ms (Expire now tx m l)
    obtain ⟨b1, b2⟩ := Expire_propagated now tx m l
    exact ⟨a1.trans b1, a2.trans b2⟩

theorem Owing_Expire (now : Int) (tx : TransactionResource) (m : String) (l l2 : Ledger)
    (ho : Owing tx l l2) : Owing tx l (Expire now tx m l2) := by
  by_cases hc : tx.Expiry ≤ now ∧ pendingOn tx.ID m l2.transactions = true
  · obtain ⟨o1, o2, o3⟩ := ho
    obtain ⟨b1, b2, b3, _, _, _⟩ :=
      restoreHops_inv ((planPath tx).filter fun h => decide (h.mint = m)) l2
    have ht := Expire_transactions now tx m l2
    rw [if_pos hc] at ht
    have hb : (Expire now tx m l2).balances =
        (restoreHops ((planPath tx).filter fun h => decide (h.mint = m)) l2).balances := by
      unfold Expire
      rw [if_pos hc]
    have hf : (Expire now tx m l2).offers =
        (restoreHops ((planPath tx).filter fun h => decide (h.mint = m)) l2).offers := by
      unfold Expire
      rw [if_pos hc]
    have hp : (fun m2 => pendingOn tx.ID m2 (Expire now tx m l2).transactions) =
        fun m2 => pendingOn tx.ID m2 l2.transactions && !decide (m2 = m) := by
      funext m2
      rw [ht, pendingOn_cancelOn]
    refine ⟨fun a h => ?_, fun id => ?_, fun id => ?_⟩
    · rw [hb, b1, o1, hp, owedSum_cancel _ _ m _ hc.2, owedSum_filter]
      ring
    · rw [hf, b2, o2, o3, hp, owedSum_cancel _ _ m _ hc.2, owedSum_filter]
      ring
    · rw [hf, b3, o3]
  · have he : Expire now tx m l2 = l2 := by
      unfold Expire
      rw [if_neg hc]
    rw [he]
    exact ho

theorem Owing_ExpireAll (now : Int) (tx : TransactionResource) (l : Ledger) :
    ∀ (ms : List String) (l2 : Ledger), Owing tx l l2 → Owing tx l (ExpireAll now tx ms l2)
  | [], _, ho => ho
  | m :: ms, l2, ho => by
    rw [ExpireAll_cons]
    exact Owing_ExpireAll now tx l ms _ (Owing_Expire now tx m l l2 ho)

theorem Owing_settled (tx : TransactionResource) (l l2 : Ledger) (ho : Owing tx l l2)
    (hp : ∀ m ∈ mintsOf tx, pendingOn tx.ID m l2.transactions = false) :
    (∀ a h, valueOf a h l2.balances = valueOf a h l.balances) ∧
    (∀ id, remainderOf id l2.offers = remainderOf id l.offers) := by
  obtain ⟨o1, o2, _⟩ := ho
  have hz : ∀ f : Hop → Int,
      owedSum (fun m => pendingOn tx.ID m l2.transactions) f (planPath tx) = 0 := by
    intro f
    apply owedSum_false
    intro x hx
    exact hp x.mint (List.mem_cons_of_mem _ (List.mem_map_of_mem _ hx))
  refine ⟨fun a h => ?_, fun id => ?_⟩
  · rw [o1, hz]
    ring
  · rw [o2, hz]
    ring

theorem stored_addToBalance (a h a2 h2 : String) (d : Int) (bs : List Balance)
    (hs : (findBalance a h bs).isSome = true) :
    (findBalance a h (addToBalance a2 h2 d bs)).isSome = true := by
  unfold addToBalance
  cases hb : findBalance a2 h2 bs with
  | none =>
    simp only
    rw [findBalance_append_single]
    cases hx : findBalance a h bs with
    | none => simp [hx] at hs
    | some x => rfl
  | some b =>
    obtain ⟨rfl, rfl, _⟩ := findBalance_some_key hb
    simp only
    by_cases hk : b.Asset = a ∧ b.Holder = h
    · obtain ⟨rfl, rfl⟩ := hk
      have hu := findBalance_upsert_same { b with Value := b.Value + d } bs
      simp only at hu
      rw [hu]
      rfl
    · have hne : ¬ (({ b with Value := b.Value + d } : Balance).Asset = a ∧
          ({ b with Value := b.Value + d } : Balance).Holder = h) := hk
      rw [findBalance_upsert_other _ _ _ _ hne]
      exact hs

theorem stored_reserveHop (a h : String) (hp : Hop) (l l1 : Ledger)
    (hr : reserveHop hp l = some l1) (hs : (findBalance a h l.balances).isSome = true) :
    (findBalance a h l1.balances).isSome = true := by
  cases hp with
  | operation index mint asset source destination amount =>
    simp only [reserveHop] at hr
    cases h1 : (if source ≠ asset.Owner
        then debitBalance asset.Name source amount l.balances else some l.balances) with
    | none => simp [h1] at hr
    | some bs =>
      simp only [h1] at hr
      cases h2 : (if destination ≠ asset.Owner
          then creditBalance asset.Name destination amount bs else some bs) with
      | none => simp [h2] at hr
      | some bs2 =>
        simp only [h2] at hr
        cases hr
        show (findBalance a h bs2).isSome = true
        have k1 : (findBalance a h bs).isSome = true := by
          split at h1
          · unfold debitBalance at h1
            cases hb : findBalance asset.Name source l.balances with
            | none => simp [hb] at h1
            | some b =>
              simp only [hb] at h1
              split at h1
              · cases h1
              · cases h1
                exact stored_addToBalance _ _ _ _ _ _ hs
          · cases h1
            exact hs
        split at h2
        · unfold creditBalance at h2
          split at h2
          · cases h2
          · cases h2
            exact stored_addToBalance _ _ _ _ _ _ k1
        · cases h2
          exact k1
  | crossing index mint offer amount =>
    simp only [reserveHop] at hr
    cases h1 : reserve_remainder offer amount l.offers with
    | none => simp [h1] at hr
    | some os =>
      simp only [h1] at hr
      cases hr
      exact hs

theorem stored_reserveHops (a h : String) : ∀ (hs : List Hop) (l l1 : Ledger),
    reserveHops hs l = some l1 → (findBalance a h l.balances).isSome = true →
    (findBalance a h l1.balances).isSome = true
  | [], l, l1, hr, hs => by
    cases hr
    exact hs
  | x :: xs, l, l1, hr, hs => by
    simp only [reserveHops] at hr
    cases h1 : reserveHop x l with
    | none => simp [h1] at hr
    | some l2 =>
      simp only [h1] at hr
      exact stored_reserveHops a h xs l2 l1 hr (stored_reserveHop a h x l l2 h1 hs)

theorem stored_restoreHop (a h : String) (hp : Hop) (l : Ledger)
    (hs : (findBalance a h l.balances).isSome = true) :
    (findBalance a h (restoreHop hp l).balances).isSome = true := by
  cases hp with
  | operation index mint asset source destination amount =>
    simp only [restoreHop]
    have k1 : (findBalance a h (if source ≠ asset.Owner
        then addToBalance asset.Name source amount l.balances
        else l.balances)).isSome = true := by
      split
      · exact stored_addToBalance _ _ _ _ _ _ hs
      · exact hs
    split
    · exact stored_addToBalance _ _ _ _ _ _ k1
    · exact k1
  | crossing index mint offer amount => exact hs

theorem stored_restoreHops (a h : String) : ∀ (hs : List Hop) (l : Ledger),
    (findBalance a h l.balances).isSome = true →
    (findBalance a h (restoreHops hs l).balances).isSome = true
  | [], _, hs => hs
  | x :: xs, l, hs => by
    simp only [restoreHops]
    exact stored_restoreHops a h xs _ (stored_restoreHop a h x l hs)

theorem stored_ExpireAll (a h : String) (now : Int) (tx : TransactionResource) :
    ∀ (ms : List String) (l : Ledger), (findBalance a h l.balances).isSome = true →
    (findBalance a h (ExpireAll now tx ms l).balances).isSome = true
  | [], _, hs => hs
  | m :: ms, l, hs => by
    rw [ExpireAll_cons]
    apply stored_ExpireAll a h now tx ms
    unfold Expire
    split
    · exact stored_restoreHops a h _ l hs
    · exact hs

theorem row_of_valueOf {a h : String} {bs bs2 : List Balance} {b : Balance}
    (hb : findBalance a h bs = some b) (hs : (findBalance a h bs2).isSome = true)
    (hv : valueOf a h bs2 = valueOf a h bs) : findBalance a h bs2 = some b := by
  cases h2 : findBalance a h bs2 with
  | none => simp [h2] at hs
  | some b2 =>
    obtain ⟨k1, k2, _⟩ := findBalance_some_key hb
    obtain ⟨j1, j2, _⟩ := findBalance_some_key h2
    unfold valueOf at hv
    rw [hb, h2] at hv
    simp only [Option.map_some', Option.getD_some] at hv
    cases b
    cases b2
    simp only at k1 k2 j1 j2 hv
    subst k1 k2 j1 j2 hv
    rfl

theorem mem_cancelOn {id m : String} {rows : List TransactionRow} {r : TransactionRow}
    (hr : r ∈ cancelOn id m rows) :
    ∃ r0 ∈ rows, r.ID = r0.ID ∧ r.Mint = r0.Mint ∧
      (r.Status = r0.Status ∨ (r0.Status = TxStatus.reserved ∧ r.Status = TxStatus.canceled)) := by
  unfold cancelOn at hr
  obtain ⟨r0, h0, rfl⟩ := List.mem_map.1 hr
  refine ⟨r0, h0, ?_⟩
  split
  · rename_i hc
    exact ⟨rfl, rfl, Or.inr ⟨hc.2.2, rfl⟩⟩
  · exact ⟨rfl, rfl, Or.inl rfl⟩

theorem cancelOn_mem (id m : String) {rows : List TransactionRow} {r0 : TransactionRow}
    (h0 : r0 ∈ rows) : ∃ r ∈ cancelOn id m rows, r.ID = r0.ID ∧ r.Mint = r0.Mint := by
  refine ⟨_, List.mem_map_of_mem _ h0, ?_⟩
  split <;> exact ⟨rfl, rfl⟩

theorem RowsOf_cancelOn (tx : TransactionResource) (m : String) (rows : List TransactionRow)
    (h : RowsOf tx rows) : RowsOf tx (cancelOn tx.ID m rows) := by
  obtain ⟨h1, h2⟩ := h
  refine ⟨fun r hr hid => ?_, fun m2 hm2 => ?_⟩
  · obtain ⟨r0, h0, e1, e2, e3⟩ := mem_cancelOn hr
    obtain ⟨k1, k2⟩ := h1 r0 h0 (e1 ▸ hid)
    refine ⟨e2 ▸ k1, ?_⟩
    rcases e3 with e3 | ⟨_, e3⟩
    · rw [e3]
      exact k2
    · exact Or.inr e3
  · obtain ⟨r0, h0, k1, k2⟩ := h2 m2 hm2
    obtain ⟨r, hr, e1, e2⟩ := cancelOn_mem tx.ID m h0
    exact ⟨r, hr, e1.trans k1, e2.trans k2⟩

theorem RowsOf_ExpireAll (now : Int) (tx : TransactionResource) :
    ∀ (ms : List String) (l : Ledger), RowsOf tx l.transactions →
    RowsOf tx (ExpireAll now tx ms l).transactions
  | [], _, h => h
  | m :: ms, l, h => by
    rw [ExpireAll_cons]
    apply RowsOf_ExpireAll now tx ms
    rw [Expire_transactions]
    split
    · exact RowsOf_cancelOn tx m _ h
    · exact h

theorem Reserve_some {tx : TransactionResource} {l l1 : Ledger}
    (hr : Reserve tx l = some l1) :
    (∀ r ∈ l.transactions, r.ID ≠ tx.ID) ∧
    ∃ l0, reserveHops (planPath tx) l = some l0 ∧
      l1 = { l0 with
        transactions := l0.transactions ++
          (mintsOf tx).map fun m =>
            { ID := tx.ID, Mint := m, Status := TxStatus.reserved } } := by
  unfold Reserve at hr
  split at hr
  · cases hr
  · rename_i hany
    refine ⟨fun r hmem hid => hany ?_, ?_⟩
    · rw [List.any_eq_true]
      exact ⟨r, hmem, by simpa using hid⟩
    · cases h0 : reserveHops (planPath tx) l with
      | none => simp [h0] at hr
      | some l0 =>
        simp only [h0] at hr
        cases hr
        exact ⟨l0, rfl, rfl⟩

theorem Reserve_rows {tx : TransactionResource} {l l1 : Ledger}
    (hr : Reserve tx l = some l1) :
    (∀ r ∈ l.transactions, r.ID ≠ tx.ID) ∧
    l1.transactions = l.transactions ++
      (mintsOf tx).map fun m => { ID := tx.ID, Mint := m, Status := TxStatus.reserved } := by
  obtain ⟨h1, l0, h0, rfl⟩ := Reserve_some hr
  obtain ⟨_, _, _, b4, _, _⟩ := reserveHops_inv _ _ _ h0
  refine ⟨h1, ?_⟩
  show l0.transactions ++ _ = _
  rw [b4]

theorem Reserve_reserved {tx : TransactionResource} {l l1 : Ledger}
    (hr : Reserve tx l = some l1) :
    ∀ r ∈ l1.transactions, r.ID = tx.ID →
      r.Mint ∈ mintsOf tx ∧ r.Status = TxStatus.reserved := by
  obtain ⟨h1, h2⟩ := Reserve_rows hr
  intro r hmem hid
  rw [h2] at hmem
  rcases List.mem_append.1 hmem with h | h
  · exact absurd hid (h1 r h)
  · obtain ⟨m, hm, rfl⟩ := List.mem_map.1 h
    exact ⟨hm, rfl⟩

theorem Reserve_RowsOf {tx : TransactionResource} {l l1 : Ledger}
    (hr : Reserve tx l = some l1) : RowsOf tx l1.transactions := by
  refine ⟨fun r hmem hid => ?_, fun m hm => ?_⟩
  · obtain ⟨k1, k2⟩ := Reserve_reserved hr r hmem hid
    exact ⟨k1, Or.inl k2⟩
  · obtain ⟨_, h2⟩ := Reserve_rows hr
    rw [h2]
    exact ⟨_, List.mem_append_right _ (List.mem_map_of_mem _ hm), rfl, rfl⟩

theorem Reserve_Owing {tx : TransactionResource} {l l1 : Ledger}
    (hr : Reserve tx l = some l1) : Owing tx l l1 := by
  obtain ⟨_, h2⟩ := Reserve_rows hr
  obtain ⟨_, l0, h0, hl⟩ := Reserve_some hr
  obtain ⟨b1, b2, b3, _, _, _⟩ := reserveHops_inv _ _ _ h0
  have hb : l1.balances = l0.balances := by rw [hl]
  have hf : l1.offers = l0.offers := by rw [hl]
  have hp : ∀ x ∈ planPath tx, pendingOn tx.ID x.mint l1.transactions = true := by
    intro x hx
    apply pendingOn_of_mem (r := { ID := tx.ID, Mint := x.mint, Status := TxStatus.reserved })
    · rw [h2]
      apply List.mem_append_right
      exact List.mem_map_of_mem _ (List.mem_cons_of_mem _ (List.mem_map_of_mem _ hx))
    · rfl
    · rfl
    · rfl
  refine ⟨fun a h => ?_, fun id => ?_, fun id => ?_⟩
  · rw [hb, b1, owedSum_congr (fun m => pendingOn tx.ID m l1.transactions)
      (fun _ => true) _ _ _ hp (fun _ _ => rfl)]
  · rw [hf, b2, owedSum_congr (fun m => pendingOn tx.ID m l1.transactions)
      (fun _ => true) _ _ _ hp (fun _ _ => rfl)]
  · rw [hf, b3]

theorem Reserve_propagated {tx : TransactionResource} {l l1 : Ledger}
    (hr : Reserve tx l = some l1) :
    l1.propagatedBalances = l.propagatedBalances ∧
    l1.propagatedOffers = l.propagatedOffers := by
  obtain ⟨_, l0, h0, rfl⟩ := Reserve_some hr
  obtain ⟨_, _, _, _, b5, b6⟩ := reserveHops_inv _ _ _ h0
  exact ⟨b5, b6⟩

theorem Reserve_stored {tx : TransactionResource} {l l1 : Ledger}
    (hr : Reserve tx l = some l1) (a h : String)
    (hs : (findBalance a h l.balances).isSome = true) :
    (findBalance a h l1.balances).isSome = true := by
  obtain ⟨_, l0, h0, rfl⟩ := Reserve_some hr
  exact stored_reserveHops a h _ l l0 h0 hs

theorem propagate_twice (l l1 l2 : Ledger)
    (hv : ∀ a h, valueOf a h l2.balances = valueOf a h l.balances)
    (hr : ∀ id, remainderOf id l2.offers = remainderOf id l.offers)
    (hb : l2.propagatedBalances = (propagate l1).propagatedBalances)
    (hf : l2.propagatedOffers = (propagate l1).propagatedOffers)
    (hb1 : l1.propagatedBalances = l.propagatedBalances)
    (hf1 : l1.propagatedOffers = l.propagatedOffers) :
    (propagate l2).propagatedBalances = (propagate l).propagatedBalances ∧
    (propagate l2).propagatedOffers = (propagate l).propagatedOffers := by
  constructor
  · show l2.propagatedBalances.map _ = l.propagatedBalances.map _
    rw [hb]
    show (l1.propagatedBalances.map _).map _ = _
    rw [hb1, List.map_map]
    apply List.map_congr_left
    intro c _
    simp only [Function.comp_apply, hv]
  · show l2.propagatedOffers.map _ = l.propagatedOffers.map _
    rw [hf]
    show (l1.propagatedOffers.map _).map _ = _
    rw [hf1, List.map_map]
    apply List.map_congr_left
    intro c _
    simp only [Function.comp_apply, hr]

/-! ## The claims -/

set_option maxRecDepth 100000

/-- C1: `CreateOperation.Execute` is atomic.  For every store, request and choice of failing
store calls, if `Execute` returns an error (a user error or the error of any store call)
then the committed store is the store before the call and the working copy of the session
is discarded: no operation row, no zero balance created for the destination and no saved
balance survives. -/
theorem Execute_atomic (fail : StoreCall → Bool) (e : CreateOperation) (db : DB) (err : Error)
    (h : (Execute fail e db).2 = Except.error err) :
    (Execute fail e db).1.committed = db.committed ∧
      (Execute fail e db).1.working = db.committed :=
  Execute_error_inv h

/-- Witness of C1: a transfer of 11 from a balance of 10.  The session creates the zero row
of the destination, writes the operation row and saves the destination balance at 11 before
the source check refuses the debit; the committed store is the one before the call. -/
theorem Execute_atomic_witness :
    (Execute noFault (demoOperation "USD" (some "h@m") (some "k@m") 11)
        (DB.ofStore demoStore)).2 = Except.error (Error.user 400 "amount_invalid") ∧
    (Execute noFault (demoOperation "USD" (some "h@m") (some "k@m") 11)
        (DB.ofStore demoStore)).1.log =
      [Event.loadAsset "u@m" "USD" 2, Event.loadBalance "u@m[USD.2]" "h@m",
        Event.loadBalance "u@m[USD.2]" "k@m", Event.createBalance "u@m[USD.2]" "k@m",
        Event.createOperation "u@m[USD.2]" (some "h@m") (some "k@m") 11,
        Event.saveBalance "u@m[USD.2]" "k@m" 11] ∧
    ((Execute noFault (demoOperation "USD" (some "h@m") (some "k@m") 11)
        (DB.ofStore demoStore)).1.committed = demoStore ∧
      (Execute noFault (demoOperation "USD" (some "h@m") (some "k@m") 11)
        (DB.ofStore demoStore)).1.working = demoStore) :=
  ⟨by decide, by decide,
    Execute_atomic noFault (demoOperation "USD" (some "h@m") (some "k@m") 11)
      (DB.ofStore demoStore) (Error.user 400 "amount_invalid") (by decide)⟩

/-- C2, as amended: no overdraft in a direct operation.  For an operation whose source `src`
is not the issuer: `Execute` succeeds only if the asset is stored and `src` has a stored
balance of it with value at least the amount; for a stored asset, when `src` has no balance
row the call fails, with `source_invalid` when no store call fails, and no row is created;
when the stored value is below the amount the call fails, with `amount_invalid` when no
store call fails; in both cases the committed store and the balance of `src` are
unchanged. -/
theorem Execute_no_overdraft (fail : StoreCall → Bool) (e : CreateOperation) (db : DB)
    (src : String) (hsrc : e.Source = some src) (hne : e.Asset.Owner ≠ src) :
    (∀ res, (Execute fail e db).2 = Except.ok res →
      ∃ asset v,
        findAsset e.Owner e.Asset.Code e.Asset.Scale db.committed.assets = some asset ∧
        balanceOf db.committed (assetNameOf asset) src = some v ∧ e.Amount ≤ v) ∧
    (∀ asset, findAsset e.Owner e.Asset.Code e.Asset.Scale db.committed.assets = some asset →
      balanceOf db.committed (assetNameOf asset) src = none →
        (∃ err, (Execute fail e db).2 = Except.error err) ∧
        ((∀ c, fail c = false) →
          (Execute fail e db).2 = Except.error (Error.user 400 "source_invalid")) ∧
        (Execute fail e db).1.committed = db.committed ∧
        balanceOf (Execute fail e db).1.committed (assetNameOf asset) src = none) ∧
    (∀ asset v, findAsset e.Owner e.Asset.Code e.Asset.Scale db.committed.assets = some asset →
      balanceOf db.committed (assetNameOf asset) src = some v → v < e.Amount →
        (∃ err, (Execute fail e db).2 = Except.error err) ∧
        ((∀ c, fail c = false) →
          (Execute fail e db).2 = Except.error (Error.user 400 "amount_invalid")) ∧
        (Execute fail e db).1.committed = db.committed ∧
        balanceOf (Execute fail e db).1.committed (assetNameOf asset) src = some v) := by
  have hparty : party e.Asset.Owner e.Source = some src :=
    (party_eq_some_iff _ _ _).mpr ⟨hsrc, hne⟩
  refine ⟨?_, ?_, ?_⟩
  · intro res hres
    obtain ⟨asset, hasset, _, hs, _, _, _⟩ := Execute_ok_inv hres
    obtain ⟨b, hb, hv⟩ := hs src hparty
    refine ⟨asset, b.Value, hasset, (balanceOf_eq_some_iff _ _ _ _).mpr ⟨b, hb, rfl⟩, ?_⟩
    have := ((invalidBalance_eq_false_iff _).mp hv).1
    omega
  · intro asset hasset hnone
    rw [balanceOf_eq_none_iff] at hnone
    have herr : ∃ err, (Execute fail e db).2 = Except.error err := by
      rcases Execute_result_cases fail e db with ⟨res, hres⟩ | herr
      · obtain ⟨asset2, hasset2, _, hs, _, _, _⟩ := Execute_ok_inv hres
        rw [hasset] at hasset2
        cases hasset2
        obtain ⟨b, hb, _⟩ := hs src hparty
        rw [hnone] at hb
        cases hb
      · exact herr
    obtain ⟨err, herr⟩ := herr
    have hkeep := (Execute_error_inv herr).1
    refine ⟨⟨err, herr⟩, ?_, hkeep, ?_⟩
    · intro hnf
      rcases Execute_refused_inv hnf herr with ⟨h1, _⟩ | ⟨asset2, hasset2, h2⟩
      · rw [hasset] at h1
        cases h1
      · rw [hasset] at hasset2
        cases hasset2
        rcases h2 with ⟨_, _, _, h3⟩ | ⟨_, _, h3, _, _⟩ | ⟨src2, b, h3, h4, _, _⟩
        · rw [herr, h3]
        · exact absurd hnone (h3 src hparty)
        · rw [hparty] at h3
          cases h3
          rw [hnone] at h4
          cases h4
    · rw [hkeep, balanceOf_eq_none_iff]
      exact hnone
  · intro asset v hasset hsome hlt
    obtain ⟨h1, h2, h3⟩ := Execute_insufficient fail e db src hsrc hne asset v hasset hsome hlt
    refine ⟨h1, h2, h3, ?_⟩
    rw [h3]
    exact hsome

/-- Witness of C2: `h@m` holds 10; moving 10 to `k@m` succeeds, moving 11 is refused with
`amount_invalid`, and `j@m`, who has no row, is refused with `source_invalid`. -/
theorem Execute_no_overdraft_witness :
    (∃ asset v,
        findAsset "u@m" "USD" 2 demoStore.assets = some asset ∧
        balanceOf demoStore (assetNameOf asset) "h@m" = some v ∧ (10 : Int) ≤ v) ∧
      (Execute noFault (demoOperation "USD" (some "h@m") (some "k@m") 11)
        (DB.ofStore demoStore)).2 = Except.error (Error.user 400 "amount_invalid") ∧
      (Execute noFault (demoOperation "USD" (some "j@m") (some "k@m") 1)
        (DB.ofStore demoStore)).2 = Except.error (Error.user 400 "source_invalid") :=
  ⟨(Execute_no_overdraft noFault (demoOperation "USD" (some "h@m") (some "k@m") 10)
      (DB.ofStore demoStore) "h@m" rfl (by decide)).1
      (201, Operation.mk "u@m" "u@m[USD.2]" (some "h@m") (some "k@m") 10 OpStatus.settled)
      (by decide),
    ((Execute_no_overdraft noFault (demoOperation "USD" (some "h@m") (some "k@m") 11)
      (DB.ofStore demoStore) "h@m" rfl (by decide)).2.2
      { Owner := "u@m", Code := "USD", Scale := 2 } 10 (by decide) (by decide)
      (by decide)).2.1 (fun _ => rfl),
    ((Execute_no_overdraft noFault (demoOperation "USD" (some "j@m") (some "k@m") 1)
      (DB.ofStore demoStore) "j@m" rfl (by decide)).2.1
      { Owner := "u@m", Code := "USD", Scale := 2 } (by decide) (by decide)).2.1
      (fun _ => rfl)⟩

/-- Counterexample to C2 as stated.  `j@m` has no balance row of `u@m[EUR.2]`, an asset that
is not stored: the operation fails with `asset_not_found`, the asset being loaded before the
source, not with `source_invalid`.  And `j@m` has no balance row of the stored `u@m[USD.2]`
either: when the load of the source balance returns an error, that error is returned, not
`source_invalid`. -/
theorem unstored_asset_precedes_source_check :
    findAsset "u@m" "EUR" 2 demoStore.assets = none ∧
    balanceOf demoStore "u@m[EUR.2]" "j@m" = none ∧
    (Execute noFault (demoOperation "EUR" (some "j@m") (some "k@m") 1)
        (DB.ofStore demoStore)).2 = Except.error (Error.user 400 "asset_not_found") ∧
    (Execute noFault (demoOperation "EUR" (some "j@m") (some "k@m") 1)
        (DB.ofStore demoStore)).2 ≠ Except.error (Error.user 400 "source_invalid") ∧
    balanceOf demoStore "u@m[USD.2]" "j@m" = none ∧
    (Execute sourceLoadFails (demoOperation "USD" (some "j@m") (some "k@m") 1)
        (DB.ofStore demoStore)).2 = Except.error (Error.store StoreCall.loadSrcBalance) :=
  ⟨by decide, by decide, by decide, by decide, by decide, by decide⟩

/-- C3: postcondition of a successful direct operation of amount `a`.  A destination
that is not the issuer and is not also the source holds afterwards its previous value plus
`a`, the previous value being 0 when it had no row (the row is created holding exactly `a`);
a source that is not the issuer and is not also the destination holds afterwards its
previous value minus `a`.  The arithmetic is exact integer arithmetic. -/
theorem Execute_postcondition (fail : StoreCall → Bool) (e : CreateOperation) (db : DB)
    (res : Nat × Operation) (h : (Execute fail e db).2 = Except.ok res) :
    ∃ asset,
      findAsset e.Owner e.Asset.Code e.Asset.Scale db.committed.assets = some asset ∧
      (∀ dst, e.Destination = some dst → e.Asset.Owner ≠ dst → e.Source ≠ some dst →
        balanceOf (Execute fail e db).1.committed (assetNameOf asset) dst =
          some ((balanceOf db.committed (assetNameOf asset) dst).getD 0 + e.Amount)) ∧
      (∀ src, e.Source = some src → e.Asset.Owner ≠ src → e.Destination ≠ some src →
        ∃ v, balanceOf db.committed (assetNameOf asset) src = some v ∧
          balanceOf (Execute fail e db).1.committed (assetNameOf asset) src =
            some (v - e.Amount)) := by
  obtain ⟨asset, hasset, _, hs, _, hcommit, _⟩ := Execute_ok_inv h
  refine ⟨asset, hasset, ?_, ?_⟩
  · intro dst hdst hne hsd
    have hparty : party e.Asset.Owner e.Destination = some dst :=
      (party_eq_some_iff _ _ _).mpr ⟨hdst, hne⟩
    have hsrc : party e.Asset.Owner e.Source ≠ some dst := by
      intro hp
      exact hsd ((party_eq_some_iff _ _ _).mp hp).1
    rw [hcommit, balanceOf_committedBy,
      findBalance_debit_srcRow_other _ _ _ _ _ _ _ (fun _ => hsrc), hparty,
      findBalance_creditRows_same]
    rfl
  · intro src hsrc hne hds
    have hparty : party e.Asset.Owner e.Source = some src :=
      (party_eq_some_iff _ _ _).mpr ⟨hsrc, hne⟩
    obtain ⟨b, hb, _⟩ := hs src hparty
    refine ⟨b.Value, (balanceOf_eq_some_iff _ _ _ _).mpr ⟨b, hb, rfl⟩, ?_⟩
    rw [hcommit, balanceOf_committedBy, hparty]
    simp only [srcRowOf, hb]
    rw [findBalance_debitRows_same _ _ _ _ _ _ hb]
    rfl

/-- Witness of C3: moving 4 from `h@m`, who holds 10, to `k@m`, who has no row, leaves 6 to
`h@m` and creates the row of `k@m` holding 4. -/
theorem Execute_postcondition_witness :
    (Execute noFault (demoOperation "USD" (some "h@m") (some "k@m") 4)
        (DB.ofStore demoStore)).2 =
      Except.ok (201, Operation.mk "u@m" "u@m[USD.2]" (some "h@m") (some "k@m") 4
        OpStatus.settled) ∧
    balanceOf (Execute noFault (demoOperation "USD" (some "h@m") (some "k@m") 4)
        (DB.ofStore demoStore)).1.committed "u@m[USD.2]" "k@m" = some 4 ∧
    balanceOf (Execute noFault (demoOperation "USD" (some "h@m") (some "k@m") 4)
        (DB.ofStore demoStore)).1.committed "u@m[USD.2]" "h@m" = some 6 ∧
    (∃ asset,
      findAsset "u@m" "USD" 2 demoStore.assets = some asset ∧
      (∀ dst, some "k@m" = some dst → "u@m" ≠ dst → some "h@m" ≠ some dst →
        balanceOf (Execute noFault (demoOperation "USD" (some "h@m") (some "k@m") 4)
            (DB.ofStore demoStore)).1.committed (assetNameOf asset) dst =
          some ((balanceOf demoStore (assetNameOf asset) dst).getD 0 + 4)) ∧
      (∀ src, some "h@m" = some src → "u@m" ≠ src → some "k@m" ≠ some src →
        ∃ v, balanceOf demoStore (assetNameOf asset) src = some v ∧
          balanceOf (Execute noFault (demoOperation "USD" (some "h@m") (some "k@m") 4)
              (DB.ofStore demoStore)).1.committed (assetNameOf asset) src =
            some (v - 4))) :=
  ⟨by decide, by decide, by decide,
    Execute_postcondition noFault (demoOperation "USD" (some "h@m") (some "k@m") 4)
      (DB.ofStore demoStore)
      (201, Operation.mk "u@m" "u@m[USD.2]" (some "h@m") (some "k@m") 4 OpStatus.settled)
      (by decide)⟩

/-- C4, as amended: the balance bounds are an invariant of `Execute`.  If every stored
balance value is in `[0, 2^128)` and the amount is in `[0, 2^128)`, then every stored balance
value is in `[0, 2^128)` after the call, whether it succeeds or fails.  For a stored asset
and when no store call fails: a credit that would bring a destination other than the issuer
to `2^128` or more is refused with `amount_invalid` when the source, if it is not the
issuer, has a balance row; a debit that would bring a source other than the issuer below 0
is refused with `amount_invalid`; and a credit that brings the destination to exactly
`2^128 - 1` is accepted when the source, if it is not the issuer, holds at least the
amount. -/
theorem Execute_balance_bounds (fail : StoreCall → Bool) (e : CreateOperation) (db : DB)
    (hinv : InBounds db.committed) (hamt : 0 ≤ e.Amount ∧ e.Amount < 2 ^ 128) :
    InBounds (Execute fail e db).1.committed ∧
    (∀ asset dst, (∀ c, fail c = false) →
      findAsset e.Owner e.Asset.Code e.Asset.Scale db.committed.assets = some asset →
      e.Destination = some dst → e.Asset.Owner ≠ dst →
      (∀ src, e.Source = some src → e.Asset.Owner ≠ src →
        balanceOf db.committed (assetNameOf asset) src ≠ none) →
      2 ^ 128 ≤ (balanceOf db.committed (assetNameOf asset) dst).getD 0 + e.Amount →
      (Execute fail e db).2 = Except.error (Error.user 400 "amount_invalid")) ∧
    (∀ asset src v, (∀ c, fail c = false) →
      findAsset e.Owner e.Asset.Code e.Asset.Scale db.committed.assets = some asset →
      e.Source = some src → e.Asset.Owner ≠ src →
      balanceOf db.committed (assetNameOf asset) src = some v → v - e.Amount < 0 →
      (Execute fail e db).2 = Except.error (Error.user 400 "amount_invalid")) ∧
    (∀ asset dst, (∀ c, fail c = false) →
      findAsset e.Owner e.Asset.Code e.Asset.Scale db.committed.assets = some asset →
      e.Destination = some dst → e.Asset.Owner ≠ dst →
      (∀ src, e.Source = some src → e.Asset.Owner ≠ src →
        ∃ v, balanceOf db.committed (assetNameOf asset) src = some v ∧ e.Amount ≤ v) →
      (balanceOf db.committed (assetNameOf asset) dst).getD 0 + e.Amount = 2 ^ 128 - 1 →
      ∃ res, (Execute fail e db).2 = Except.ok res) := by
  refine ⟨?_, ?_, ?_, ?_⟩
  · rcases Execute_result_cases fail e db with ⟨res, hres⟩ | ⟨err, herr⟩
    · obtain ⟨asset, _, _, hs, hd, hcommit, _⟩ := Execute_ok_inv hres
      rw [hcommit]
      intro x hx
      rcases mem_debitRows hx with hx | ⟨b, hb, hv⟩
      · rcases mem_creditRows hx with hx | hx | ⟨d, hdd, hv⟩
        · exact hinv x hx
        · rw [hx]
          exact ⟨le_refl _, by norm_num⟩
        · have h1 := (invalidBalance_eq_false_iff _).mp (hd d hdd)
          rw [MaxAssetAmount_eq] at h1
          rw [hv]
          exact h1
      · obtain ⟨s, hsrc, hfind⟩ := srcRowOf_eq_some hb
        obtain ⟨b2, hb2, hvalid⟩ := hs s hsrc
        rw [hfind] at hb2
        cases hb2
        have h1 := (invalidBalance_eq_false_iff _).mp hvalid
        rw [MaxAssetAmount_eq] at h1
        rw [hv]
        exact h1
    · rw [(Execute_error_inv herr).1]
      exact hinv
  · intro asset dst hnf hasset hdst hne hsrc hover
    have hparty : party e.Asset.Owner e.Destination = some dst :=
      (party_eq_some_iff _ _ _).mpr ⟨hdst, hne⟩
    rcases Execute_result_cases fail e db with ⟨res, hres⟩ | ⟨err, herr⟩
    · obtain ⟨asset2, hasset2, _, _, hd, _, _⟩ := Execute_ok_inv hres
      rw [hasset] at hasset2
      cases hasset2
      have h1 := ((invalidBalance_eq_false_iff _).mp (hd dst hparty)).2
      rw [MaxAssetAmount_eq] at h1
      exact absurd hover (not_le.mpr h1)
    · rcases Execute_refused_inv hnf herr with ⟨h1, _⟩ | ⟨asset2, hasset2, h2⟩
      · rw [hasset] at h1
        cases h1
      · rw [hasset] at hasset2
        cases hasset2
        rcases h2 with ⟨src, h3, h4, _⟩ | ⟨_, _, _, _, h3⟩ | ⟨_, _, _, _, _, h3⟩
        · obtain ⟨h5, h6⟩ := (party_eq_some_iff _ _ _).mp h3
          exact absurd ((balanceOf_eq_none_iff _ _ _).mpr h4) (hsrc src h5 h6)
        · rw [herr, h3]
        · rw [herr, h3]
  · intro asset src v hnf hasset hsrc hne hv hlt
    exact (Execute_insufficient fail e db src hsrc hne asset v hasset hv (by omega)).2.1 hnf
  · intro asset dst hnf hasset hdst hne hsrc hexact
    rcases Execute_result_cases fail e db with hres | ⟨err, herr⟩
    · exact hres
    · exfalso
      rcases Execute_refused_inv hnf herr with ⟨h1, _⟩ | ⟨asset2, hasset2, h2⟩
      · rw [hasset] at h1
        cases h1
      · rw [hasset] at hasset2
        cases hasset2
        rcases h2 with ⟨src, h3, h4, _⟩ | ⟨dst2, h3, _, h4, _⟩ | ⟨src, b, h3, h4, h5, _⟩
        · obtain ⟨h5, h6⟩ := (party_eq_some_iff _ _ _).mp h3
          obtain ⟨v, hv, _⟩ := hsrc src h5 h6
          rw [(balanceOf_eq_none_iff _ _ _).mpr h4] at hv
          cases hv
        · obtain ⟨h5, _⟩ := (party_eq_some_iff _ _ _).mp h3
          rw [hdst] at h5
          cases h5
          rw [invalidBalance_eq_true_iff, MaxAssetAmount_eq, hexact] at h4
          norm_num at h4
        · obtain ⟨h6, h7⟩ := (party_eq_some_iff _ _ _).mp h3
          obtain ⟨v, hv, hle⟩ := hsrc src h6 h7
          obtain ⟨b2, hb2, hbv⟩ := (balanceOf_eq_some_iff _ _ _ _).mp hv
          rw [h4] at hb2
          cases hb2
          have hb := (hinv b (findBalance_some_key h4).2.2).2
          rw [invalidBalance_eq_true_iff, MaxAssetAmount_eq] at h5
          rcases h5 with h5 | h5
          · omega
          · have := hamt.1
            omega

/-- Witness of C4: `k@m` holds `2^128 - 6`; issuing 5 more is accepted and brings the
balance to `2^128 - 1`, issuing 6 more is refused with `amount_invalid`, and the bounds hold
after the call. -/
theorem Execute_balance_bounds_witness :
    InBounds (DB.ofStore fullStore).committed ∧
    InBounds (Execute noFault (demoOperation "USD" none (some "k@m") 5)
      (DB.ofStore fullStore)).1.committed ∧
    (∃ res, (Execute noFault (demoOperation "USD" none (some "k@m") 5)
      (DB.ofStore fullStore)).2 = Except.ok res) ∧
    balanceOf (Execute noFault (demoOperation "USD" none (some "k@m") 5)
      (DB.ofStore fullStore)).1.committed "u@m[USD.2]" "k@m" = some (2 ^ 128 - 1) ∧
    (Execute noFault (demoOperation "USD" none (some "k@m") 6)
      (DB.ofStore fullStore)).2 = Except.error (Error.user 400 "amount_invalid") :=
  ⟨by decide,
    (Execute_balance_bounds noFault (demoOperation "USD" none (some "k@m") 5)
      (DB.ofStore fullStore) (by decide) (by decide)).1,
    (Execute_balance_bounds noFault (demoOperation "USD" none (some "k@m") 5)
      (DB.ofStore fullStore) (by decide) (by decide)).2.2.2
      { Owner := "u@m", Code := "USD", Scale := 2 } "k@m" (fun _ => rfl) (by decide) rfl
      (by decide) (fun _ h => Option.noConfusion h) (by decide),
    by decide,
    (Execute_balance_bounds noFault (demoOperation "USD" none (some "k@m") 6)
      (DB.ofStore fullStore) (by decide) (by decide)).2.1
      { Owner := "u@m", Code := "USD", Scale := 2 } "k@m" (fun _ => rfl) (by decide) rfl
      (by decide) (fun _ h => Option.noConfusion h) (by decide)⟩

/-- Counterexample to C4 as stated, where `k@m` holds `2^128 - 6`.  A credit of 6, which
would bring `k@m` to `2^128`, paid by `j@m` who has no balance row, is refused with
`source_invalid`, not with `amount_invalid`.  A credit of 5, which brings `k@m` to exactly
`2^128 - 1`, paid by `h@m` who holds 3, is not accepted. -/
theorem credit_outcome_depends_on_source :
    balanceOf fullStore "u@m[USD.2]" "k@m" = some (2 ^ 128 - 6) ∧
    balanceOf fullStore "u@m[USD.2]" "j@m" = none ∧
    InBounds fullStore ∧
    (Execute noFault (demoOperation "USD" (some "j@m") (some "k@m") 6)
        (DB.ofStore fullStore)).2 = Except.error (Error.user 400 "source_invalid") ∧
    balanceOf tightStore "u@m[USD.2]" "k@m" = some (2 ^ 128 - 6) ∧
    balanceOf tightStore "u@m[USD.2]" "h@m" = some 3 ∧
    InBounds tightStore ∧
    (Execute noFault (demoOperation "USD" (some "h@m") (some "k@m") 5)
        (DB.ofStore tightStore)).2 = Except.error (Error.user 400 "amount_invalid") ∧
    (Execute noFault (demoOperation "USD" (some "h@m") (some "k@m") 5)
        (DB.ofStore tightStore)).1.committed = tightStore :=
  ⟨by decide, by decide, by decide, by decide, by decide, by decide, by decide, by decide,
    by decide⟩

/-- C5, as amended: conservation under direct operations.  For every successful `Execute`
with amount `a`, the sum over all non-issuer holders of the stored balance of the asset
changes by exactly `+a` for an issuance (no source) to a destination that is not the issuer,
by exactly `-a` for an annihilation (no destination) from a source that is not the issuer,
and by exactly 0 for a transfer between two distinct holders that are not the issuer; the
sum of every other asset is unchanged. -/
theorem Execute_conservation (fail : StoreCall → Bool) (e : CreateOperation) (db : DB)
    (res : Nat × Operation) (h : (Execute fail e db).2 = Except.ok res) :
    ∃ asset,
      findAsset e.Owner e.Asset.Code e.Asset.Scale db.committed.assets = some asset ∧
      (∀ A issuer, A ≠ assetNameOf asset →
        supply (Execute fail e db).1.committed A issuer = supply db.committed A issuer) ∧
      (e.Source = none → ∀ dst, e.Destination = some dst → e.Asset.Owner ≠ dst →
        supply (Execute fail e db).1.committed (assetNameOf asset) e.Asset.Owner =
          supply db.committed (assetNameOf asset) e.Asset.Owner + e.Amount) ∧
      (e.Destination = none → ∀ src, e.Source = some src → e.Asset.Owner ≠ src →
        supply (Execute fail e db).1.committed (assetNameOf asset) e.Asset.Owner =
          supply db.committed (assetNameOf asset) e.Asset.Owner - e.Amount) ∧
      (∀ src dst, e.Source = some src → e.Destination = some dst →
        e.Asset.Owner ≠ src → e.Asset.Owner ≠ dst → src ≠ dst →
        supply (Execute fail e db).1.committed (assetNameOf asset) e.Asset.Owner =
          supply db.committed (assetNameOf asset) e.Asset.Owner) := by
  obtain ⟨asset, hasset, _, hs, _, hcommit, _⟩ := Execute_ok_inv h
  have hrow : ∀ src, party e.Asset.Owner e.Source = some src →
      ∃ b, findBalance (assetNameOf asset) src db.committed.balances = some b := by
    intro src hsrc
    obtain ⟨b, hb, _⟩ := hs src hsrc
    exact ⟨b, hb⟩
  refine ⟨asset, hasset, ?_, ?_, ?_, ?_⟩
  · intro A issuer hA
    rw [hcommit]
    unfold supply committedBy
    simp only
    have hne : ¬ (assetNameOf asset = A) := fun h1 => hA h1.symm
    cases hp : party e.Asset.Owner e.Source with
    | none =>
      simp only [srcRowOf, debitRows]
      rw [rowsTotal_creditRows]
      cases party e.Asset.Owner e.Destination <;> simp [hne]
    | some src =>
      obtain ⟨b, hb⟩ := hrow src hp
      obtain ⟨h1, _, _⟩ := findBalance_some_key hb
      simp only [srcRowOf, hb, debitRows]
      rw [rowsTotal_upsert_ne A issuer _ _ (by simpa [h1] using hne), rowsTotal_creditRows]
      cases party e.Asset.Owner e.Destination <;> simp [hne]
  · intro hsrc dst hdst hne
    have hps : party e.Asset.Owner e.Source = none := (party_eq_none_iff _ _).mpr (Or.inl hsrc)
    have hpd : party e.Asset.Owner e.Destination = some dst :=
      (party_eq_some_iff _ _ _).mpr ⟨hdst, hne⟩
    rw [hcommit, supply_committedBy e asset db.committed _ _ hrow (by simp [hps]), hps, hpd]
    simp [Ne.symm hne]
  · intro hdst src hsrc hne
    have hps : party e.Asset.Owner e.Source = some src :=
      (party_eq_some_iff _ _ _).mpr ⟨hsrc, hne⟩
    have hpd : party e.Asset.Owner e.Destination = none :=
      (party_eq_none_iff _ _).mpr (Or.inl hdst)
    rw [hcommit, supply_committedBy e asset db.committed _ _ hrow (by simp [hpd]), hps, hpd]
    simp [Ne.symm hne]
  · intro src dst hsrc hdst hns hnd hsd
    have hps : party e.Asset.Owner e.Source = some src :=
      (party_eq_some_iff _ _ _).mpr ⟨hsrc, hns⟩
    have hpd : party e.Asset.Owner e.Destination = some dst :=
      (party_eq_some_iff _ _ _).mpr ⟨hdst, hnd⟩
    rw [hcommit, supply_committedBy e asset db.committed _ _ hrow
      (by
        intro x hx
        rw [hps] at hx
        cases hx
        rw [hpd]
        simpa using Ne.symm hsd), hps, hpd]
    simp [Ne.symm hns, Ne.symm hnd]

/-- Witness of C5: moving 4 from `h@m` to `k@m` leaves the sum of `u@m[USD.2]` over the
holders other than `u@m` at 10. -/
theorem Execute_conservation_witness :
    (Execute noFault (demoOperation "USD" (some "h@m") (some "k@m") 4)
        (DB.ofStore demoStore)).2 =
      Except.ok (201, Operation.mk "u@m" "u@m[USD.2]" (some "h@m") (some "k@m") 4
        OpStatus.settled) ∧
    supply (DB.ofStore demoStore).committed "u@m[USD.2]" "u@m" = 10 ∧
    supply (Execute noFault (demoOperation "USD" (some "h@m") (some "k@m") 4)
        (DB.ofStore demoStore)).1.committed "u@m[USD.2]" "u@m" = 10 ∧
    (∃ asset,
      findAsset "u@m" "USD" 2 demoStore.assets = some asset ∧
      (∀ src dst, some "h@m" = some src → some "k@m" = some dst →
        "u@m" ≠ src → "u@m" ≠ dst → src ≠ dst →
        supply (Execute noFault (demoOperation "USD" (some "h@m") (some "k@m") 4)
            (DB.ofStore demoStore)).1.committed (assetNameOf asset) "u@m" =
          supply demoStore (assetNameOf asset) "u@m")) :=
  ⟨by decide, by decide, by decide,
    (Execute_conservation noFault (demoOperation "USD" (some "h@m") (some "k@m") 4)
      (DB.ofStore demoStore)
      (201, Operation.mk "u@m" "u@m[USD.2]" (some "h@m") (some "k@m") 4 OpStatus.settled)
      (by decide)).imp fun _ hc => ⟨hc.1, hc.2.2.2.2⟩⟩

/-- Counterexample to C5 as stated, on the store where `h@m` holds the whole supply of 10.
The issuance of 5 (no source) whose destination is the issuer `u@m` succeeds and leaves the
sum at 10, not 15.  The transfer of 3 from `h@m` to `h@m` succeeds and leaves the sum at 7,
not 10. -/
theorem supply_not_conserved :
    supply demoStore "u@m[USD.2]" "u@m" = 10 ∧
    (Execute noFault (demoOperation "USD" none (some "u@m") 5) (DB.ofStore demoStore)).2 =
      Except.ok (201, Operation.mk "u@m" "u@m[USD.2]" none (some "u@m") 5
        OpStatus.settled) ∧
    supply (Execute noFault (demoOperation "USD" none (some "u@m") 5)
      (DB.ofStore demoStore)).1.committed "u@m[USD.2]" "u@m" = 10 ∧
    (Execute noFault (demoOperation "USD" (some "h@m") (some "h@m") 3)
        (DB.ofStore demoStore)).2 =
      Except.ok (201, Operation.mk "u@m" "u@m[USD.2]" (some "h@m") (some "h@m") 3
        OpStatus.settled) ∧
    supply (Execute noFault (demoOperation "USD" (some "h@m") (some "h@m") 3)
      (DB.ofStore demoStore)).1.committed "u@m[USD.2]" "u@m" = 7 :=
  ⟨by decide, by decide, by decide, by decide, by decide⟩

/-- C6: only the creator of the asset passes validation.  When the asset name parses, a
caller `<username>@<MintHost>` other than the owner parsed from the asset name is refused
with `operation_not_authorized` and status 400 whatever the amount, source and destination
are; a caller equal to the owner never gets `operation_not_authorized`. -/
theorem Validate_authorization (c : Codec) (r : Request) (a : AssetResource)
    (ha : c.AssetResourceFromName r.asset = some a) :
    (r.Username ++ "@" ++ r.MintHost ≠ a.Owner →
      Validate c r = Outcome.error (Error.user 400 "operation_not_authorized")) ∧
    (r.Username ++ "@" ++ r.MintHost = a.Owner →
      ∀ status, Validate c r ≠ Outcome.error (Error.user status "operation_not_authorized")) := by
  constructor
  · intro hne
    simp [Validate, ha, hne]
  · intro heq status h
    rcases Validate_error_code h with h1 | ⟨_, b, hb, hne⟩ | h1 | h1
    · exact absurd h1 (by simp)
    · rw [ha] at hb
      cases hb
      exact hne heq
    · exact absurd h1 (by simp)
    · exact absurd h1 (by simp)

/-- Witness of C6: on the asset `u@m[USD.2]` the caller `v@m` is refused with
`operation_not_authorized`. -/
theorem Validate_authorization_witness :
    demoCodec.AssetResourceFromName (demoRequest "v" "10" "" "k@m").asset =
        some { Name := "u@m[USD.2]", Owner := "u@m", Code := "USD", Scale := 2 } ∧
      Validate demoCodec (demoRequest "v" "10" "" "k@m") =
        Outcome.error (Error.user 400 "operation_not_authorized") :=
  ⟨by decide,
    (Validate_authorization demoCodec (demoRequest "v" "10" "" "k@m")
      { Name := "u@m[USD.2]", Owner := "u@m", Code := "USD", Scale := 2 } (by decide)).1
      (by decide)⟩

/-- C7: an operation needs a source or a destination.  A request that is valid otherwise
(the asset parses, the caller owns it, the amount is valid) and whose `source` and
`destination` form values are both empty is refused with `operation_invalid` and status 400.
Whenever `Validate` succeeds, `e.Source` or `e.Destination` is set, and each is unset exactly
when its form value is empty (no source: issuance; no destination: annihilation; both:
transfer). -/
theorem Validate_requires_party (c : Codec) (r : Request) :
    (∀ a amount, c.AssetResourceFromName r.asset = some a →
        r.Username ++ "@" ++ r.MintHost = a.Owner →
        ValidateAmount r.amount = Except.ok amount →
        r.source = "" → r.destination = "" →
        Validate c r = Outcome.error (Error.user 400 "operation_invalid")) ∧
    (∀ e, Validate c r = Outcome.ok e →
        (e.Source ≠ none ∨ e.Destination ≠ none) ∧
        (e.Source = none ↔ r.source = "") ∧
        (e.Destination = none ↔ r.destination = "")) := by
  constructor
  · intro a amount ha ho hamt hs hd
    have h1 : Validate.source c r = Outcome.ok none := by
      rw [Validate_source_eq]
      simp [hs]
    have h2 : Validate.destination c r = Outcome.ok none := by
      rw [Validate_destination_eq]
      simp [hd]
    simp [Validate, ha, ho, hamt, h1, h2]
  · intro e he
    obtain ⟨a, amount, src, dst, _, _, _, hs, hd, hnn, rfl⟩ := Validate_ok_inv he
    refine ⟨?_, Validate_source_ok_iff hs, Validate_destination_ok_iff hd⟩
    by_cases h : src = none
    · exact Or.inr (fun h2 => hnn ⟨h, h2⟩)
    · exact Or.inl h

/-- Witness of C7: the owner's request without source and destination is refused, and his
issuance to `k@m` is accepted with the destination set and no source. -/
theorem Validate_requires_party_witness :
    Validate demoCodec (demoRequest "u" "10" "" "") =
        Outcome.error (Error.user 400 "operation_invalid") ∧
      Validate demoCodec (demoRequest "u" "10" "" "k@m") =
        Outcome.ok (demoOperation "USD" none (some "k@m") 10) ∧
      ((demoOperation "USD" none (some "k@m") 10).Source ≠ none ∨
        (demoOperation "USD" none (some "k@m") 10).Destination ≠ none) :=
  ⟨(Validate_requires_party demoCodec (demoRequest "u" "10" "" "")).1
      { Name := "u@m[USD.2]", Owner := "u@m", Code := "USD", Scale := 2 } 10
      (by decide) (by decide) (by decide) (by decide) (by decide),
    by decide,
    ((Validate_requires_party demoCodec (demoRequest "u" "10" "" "k@m")).2
      (demoOperation "USD" none (some "k@m") 10) (by decide)).1⟩

/-- C8, at the failing input: the owner's request with the source `nobody`, which is not an
address, does not return the user error `source_invalid`: building the error dereferences
the nil `srcAddress` and `Validate` faults. -/
theorem Validate_rejected_source_faults :
    demoCodec.NormalizedAddress (demoRequest "u" "10" "nobody" "k@m").source = none ∧
      Validate demoCodec (demoRequest "u" "10" "nobody" "k@m") = Outcome.fault ∧
      Validate demoCodec (demoRequest "u" "10" "nobody" "k@m") ≠
        Outcome.error (Error.user 400 "source_invalid") :=
  ⟨by decide,
    Validate_source_rejected demoCodec (demoRequest "u" "10" "nobody" "k@m")
      { Name := "u@m[USD.2]", Owner := "u@m", Code := "USD", Scale := 2 } 10
      (by decide) (by decide) (by decide) (by decide) (by decide),
    by decide⟩

/-- C9, as amended: when the store call succeeds and no stored asset has the key (owner,
code, scale), `Execute` fails with `asset_not_found` and status 400; the store received
the one read of the asset and nothing else, and the committed store and the working copy
are the store before the call. -/
theorem Execute_asset_not_found (fail : StoreCall → Bool) (e : CreateOperation) (db : DB)
    (hf : fail StoreCall.loadAsset = false)
    (hnone : findAsset e.Owner e.Asset.Code e.Asset.Scale db.committed.assets = none) :
    Execute fail e db =
      ({ committed := db.committed, working := db.committed,
         log := db.log ++ [Event.loadAsset e.Owner e.Asset.Code e.Asset.Scale] },
        Except.error (Error.user 400 "asset_not_found")) := by
  simp [Execute, Execute.body, LoadAssetByOwnerCodeScale, hf, hnone, record, Begin,
    LoggedRollback, andThen]

/-- Witness of C9: `u@m` issued no `EUR.2`. -/
theorem Execute_asset_not_found_witness :
    findAsset "u@m" "EUR" 2 (DB.ofStore demoStore).committed.assets = none ∧
      Execute noFault (demoOperation "EUR" none (some "k@m") 5) (DB.ofStore demoStore) =
        ({ committed := demoStore, working := demoStore,
           log := [Event.loadAsset "u@m" "EUR" 2] },
          Except.error (Error.user 400 "asset_not_found")) :=
  ⟨by decide,
    Execute_asset_not_found noFault (demoOperation "EUR" none (some "k@m") 5)
      (DB.ofStore demoStore) rfl (by decide)⟩

/-- Counterexample to C9 as stated: for an asset that is not stored the status of the
error is 400, not 404. -/
theorem missing_asset_status_is_400 :
    findAsset "u@m" "EUR" 2 demoStore.assets = none ∧
      (Execute noFault (demoOperation "EUR" none (some "k@m") 5) (DB.ofStore demoStore)).2 =
        Except.error (Error.user 400 "asset_not_found") ∧
      (Execute noFault (demoOperation "EUR" none (some "k@m") 5) (DB.ofStore demoStore)).2 ≠
        Except.error (Error.user 404 "asset_not_found") :=
  ⟨by decide, by decide, by decide⟩

/-- C10: the balance of the issuer is implicit and unbounded.  Whatever the outcome,
no store call of `Execute` loads, creates or saves a balance row held by the owner of the
asset.  An operation whose source is the issuer needs no stored source balance: when no
store call fails and the asset exists it succeeds as soon as the credit of the destination
stays in `[0, 2^128)`.  An operation whose destination is the issuer leaves every balance
but the one of the source as it was, and on success the source is debited of the amount.
No balance held by the issuer is created or changed: the stored balance of any asset on
the issuer is the same after the call as before. -/
theorem Execute_issuer_implicit (fail : StoreCall → Bool) (e : CreateOperation) (db : DB) :
    (∃ evs, (Execute fail e db).1.log = db.log ++ evs ∧
      ∀ ev ∈ evs, ev.holder ≠ some e.Asset.Owner) ∧
    (e.Source = some e.Asset.Owner → (∀ c, fail c = false) →
      ∀ asset, findAsset e.Owner e.Asset.Code e.Asset.Scale db.committed.assets = some asset →
      (∀ dst, e.Destination = some dst → e.Asset.Owner ≠ dst →
        0 ≤ (balanceOf db.committed (assetNameOf asset) dst).getD 0 + e.Amount ∧
        (balanceOf db.committed (assetNameOf asset) dst).getD 0 + e.Amount < 2 ^ 128) →
      ∃ res, (Execute fail e db).2 = Except.ok res) ∧
    (e.Destination = some e.Asset.Owner →
      (∀ a h, e.Source ≠ some h →
        balanceOf (Execute fail e db).1.committed a h = balanceOf db.committed a h) ∧
      (∀ res, (Execute fail e db).2 = Except.ok res →
        ∀ src, e.Source = some src → e.Asset.Owner ≠ src →
          ∃ asset v,
            findAsset e.Owner e.Asset.Code e.Asset.Scale db.committed.assets = some asset ∧
            balanceOf db.committed (assetNameOf asset) src = some v ∧
            balanceOf (Execute fail e db).1.committed (assetNameOf asset) src =
              some (v - e.Amount))) ∧
    (∀ a, balanceOf (Execute fail e db).1.committed a e.Asset.Owner =
      balanceOf db.committed a e.Asset.Owner) := by
  refine ⟨?_, ?_, ?_, ?_⟩
  · have h := (Post_iff _ _ _).mp (Post_Execute_log fail e db)
    rcases Execute_result_cases fail e db with ⟨res, hres⟩ | ⟨err, herr⟩
    · exact h.1 res hres
    · exact h.2 err herr
  · intro hsrc hnf asset hasset hdst
    have hparty : party e.Asset.Owner e.Source = none :=
      (party_eq_none_iff _ _).mpr (Or.inr hsrc)
    rcases Execute_result_cases fail e db with hres | ⟨err, herr⟩
    · exact hres
    · exfalso
      rcases Execute_refused_inv hnf herr with ⟨h1, _⟩ | ⟨asset2, hasset2, h2⟩
      · rw [hasset] at h1
        cases h1
      · rw [hasset] at hasset2
        cases hasset2
        rcases h2 with ⟨src, h3, _⟩ | ⟨dst, h3, _, h4, _⟩ | ⟨src, _, h3, _⟩
        · rw [hparty] at h3
          cases h3
        · obtain ⟨h5, h6⟩ := (party_eq_some_iff _ _ _).mp h3
          have h7 := hdst dst h5 h6
          rw [invalidBalance_eq_true_iff, MaxAssetAmount_eq] at h4
          rcases h4 with h4 | h4
          · exact absurd h7.1 (not_le.mpr h4)
          · exact absurd h7.2 (not_lt.mpr h4)
        · rw [hparty] at h3
          cases h3
  · intro hdst
    have hparty : party e.Asset.Owner e.Destination = none :=
      (party_eq_none_iff _ _).mpr (Or.inr hdst)
    refine ⟨?_, ?_⟩
    · intro a h hne
      exact Execute_frame fail e db a h (party_ne_of_ne hne) (by rw [hparty]; simp)
    · intro res hres src hsrc hne
      exact Execute_ok_source_debited hres src hsrc hne
  · intro a
    exact Execute_frame fail e db a e.Asset.Owner (party_owner_ne _ _) (party_owner_ne _ _)

/-- Witness of C10: `u@m` issues 5 to `k@m` with itself as explicit source, on a store
where it holds nothing: the call succeeds, `k@m` holds 5 and no row of `u@m` appears. -/
theorem Execute_issuer_implicit_witness :
    (∃ res, (Execute noFault (demoOperation "USD" (some "u@m") (some "k@m") 5)
      (DB.ofStore demoStore)).2 = Except.ok res) ∧
    balanceOf (Execute noFault (demoOperation "USD" (some "u@m") (some "k@m") 5)
      (DB.ofStore demoStore)).1.committed "u@m[USD.2]" "u@m" = none ∧
    balanceOf (Execute noFault (demoOperation "USD" (some "u@m") (some "k@m") 5)
      (DB.ofStore demoStore)).1.committed "u@m[USD.2]" "k@m" = some 5 :=
  ⟨(Execute_issuer_implicit noFault (demoOperation "USD" (some "u@m") (some "k@m") 5)
      (DB.ofStore demoStore)).2.1 rfl (fun _ => rfl)
      { Owner := "u@m", Code := "USD", Scale := 2 } (by decide)
      (fun dst h _ => by
        cases h
        decide),
    by decide, by decide⟩

/-- C15: frame of a direct operation.  Whatever the outcome, `Execute` creates, changes or
deletes no asset row; a balance row whose key is neither (the asset of the operation,
source) nor (the asset of the operation, destination) is a row of the store after the call
exactly when it was one before; every balance of another asset, and every balance of the
asset of the operation held by an address that is neither the source nor the destination,
has the same stored value after the call as before. -/
theorem Execute_frame_effect (fail : StoreCall → Bool) (e : CreateOperation) (db : DB) :
    (Execute fail e db).1.committed.assets = db.committed.assets ∧
    (∀ x : Balance,
      (∀ asset, findAsset e.Owner e.Asset.Code e.Asset.Scale db.committed.assets = some asset →
        ¬ (x.Asset = assetNameOf asset ∧
          (e.Source = some x.Holder ∨ e.Destination = some x.Holder))) →
      (x ∈ (Execute fail e db).1.committed.balances ↔ x ∈ db.committed.balances)) ∧
    (∀ a h,
      (∀ asset, findAsset e.Owner e.Asset.Code e.Asset.Scale db.committed.assets = some asset →
        a ≠ assetNameOf asset) →
      balanceOf (Execute fail e db).1.committed a h = balanceOf db.committed a h) ∧
    (∀ a h, e.Source ≠ some h → e.Destination ≠ some h →
      balanceOf (Execute fail e db).1.committed a h = balanceOf db.committed a h) := by
  refine ⟨?_, ?_, ?_, ?_⟩
  · rcases Execute_result_cases fail e db with ⟨res, hres⟩ | ⟨err, herr⟩
    · obtain ⟨asset, _, _, _, _, hcommit, _⟩ := Execute_ok_inv hres
      rw [hcommit]
      rfl
    · rw [(Execute_error_inv herr).1]
  · intro x hx
    rcases Execute_result_cases fail e db with ⟨res, hres⟩ | ⟨err, herr⟩
    · obtain ⟨asset, hasset, _, _, _, hcommit, _⟩ := Execute_ok_inv hres
      have hk := hx asset hasset
      rw [hcommit]
      unfold committedBy
      simp only
      rw [mem_debit_srcRow_iff_of_key_ne, mem_creditRows_iff_of_key_ne]
      · rintro ⟨h1, h2⟩
        exact hk ⟨h1, Or.inr ((party_eq_some_iff _ _ _).mp h2).1⟩
      · rintro ⟨h1, h2⟩
        exact hk ⟨h1, Or.inl ((party_eq_some_iff _ _ _).mp h2).1⟩
    · rw [(Execute_error_inv herr).1]
  · intro a h ha
    rcases Execute_result_cases fail e db with ⟨res, hres⟩ | ⟨err, herr⟩
    · obtain ⟨asset, hasset, _, _, _, hcommit, _⟩ := Execute_ok_inv hres
      rw [hcommit]
      exact balanceOf_committedBy_other e asset db.committed a h
        (fun h1 => absurd h1 (ha asset hasset)) (fun h1 => absurd h1 (ha asset hasset))
    · rw [(Execute_error_inv herr).1]
  · intro a h hs hd
    exact Execute_frame fail e db a h (party_ne_of_ne hs) (party_ne_of_ne hd)

/-- Witness of C15: on a store where `h@m` holds 10 of `u@m[USD.2]` and 7 of `u@m[EUR.2]`
and `j@m` holds 3 of `u@m[USD.2]`, moving 4 of `u@m[USD.2]` from `h@m` to `k@m` leaves the
asset rows, the row of `j@m` and the `EUR.2` row of `h@m` as they were. -/
theorem Execute_frame_effect_witness :
    (Execute noFault (demoOperation "USD" (some "h@m") (some "k@m") 4)
        (DB.ofStore frameStore)).2 =
      Except.ok (201, Operation.mk "u@m" "u@m[USD.2]" (some "h@m") (some "k@m") 4
        OpStatus.settled) ∧
    (Execute noFault (demoOperation "USD" (some "h@m") (some "k@m") 4)
        (DB.ofStore frameStore)).1.committed.balances =
      [{ Asset := "u@m[USD.2]", Holder := "h@m", Value := 6 },
       { Asset := "u@m[EUR.2]", Holder := "h@m", Value := 7 },
       { Asset := "u@m[USD.2]", Holder := "j@m", Value := 3 },
       { Asset := "u@m[USD.2]", Holder := "k@m", Value := 4 }] ∧
    (Execute noFault (demoOperation "USD" (some "h@m") (some "k@m") 4)
        (DB.ofStore frameStore)).1.committed.assets = frameStore.assets ∧
    balanceOf (Execute noFault (demoOperation "USD" (some "h@m") (some "k@m") 4)
        (DB.ofStore frameStore)).1.committed "u@m[EUR.2]" "h@m" = some 7 ∧
    balanceOf (Execute noFault (demoOperation "USD" (some "h@m") (some "k@m") 4)
        (DB.ofStore frameStore)).1.committed "u@m[USD.2]" "j@m" = some 3 :=
  ⟨by decide, by decide,
    (Execute_frame_effect noFault (demoOperation "USD" (some "h@m") (some "k@m") 4)
      (DB.ofStore frameStore)).1,
    ((Execute_frame_effect noFault (demoOperation "USD" (some "h@m") (some "k@m") 4)
      (DB.ofStore frameStore)).2.2.1 "u@m[EUR.2]" "h@m"
      (fun asset h => by
        have h2 : asset = { Owner := "u@m", Code := "USD", Scale := 2 } := by
          have h3 : findAsset "u@m" "USD" 2 frameStore.assets =
              some { Owner := "u@m", Code := "USD", Scale := 2 } := by decide
          exact Option.some.inj (h.symm.trans h3)
        rw [h2]
        decide)).trans (by decide),
    ((Execute_frame_effect noFault (demoOperation "USD" (some "h@m") (some "k@m") 4)
      (DB.ofStore frameStore)).2.2.2 "u@m[USD.2]" "j@m" (by decide) (by decide)).trans
      (by decide)⟩

/-- C14, as amended: a negative amount is rejected before any store access.  For every
`amount` form value that denotes a negative integer, `ValidateAmount` fails with
`amount_invalid` and status 400; `Validate` returns that error as it is for every request
whose asset name parses and whose caller is the owner of the asset, the two checks that come
before the amount.  For every request with such an amount `Validate` returns a user error of
status 400, so `Execute` is not reached: the handler returns that error and the store,
committed store, session and log of calls, is the one before the request. -/
theorem Validate_negative_amount (c : Codec) (r : Request)
    (hneg : isNegativeAmount r.amount = true) :
    ValidateAmount r.amount = Except.error (Error.user 400 "amount_invalid") ∧
    (∀ a, c.AssetResourceFromName r.asset = some a →
      r.Username ++ "@" ++ r.MintHost = a.Owner →
      Validate c r = Outcome.error (Error.user 400 "amount_invalid")) ∧
    (∃ code, Validate c r = Outcome.error (Error.user 400 code)) ∧
    (∀ fail db, ∃ code,
      handle c fail r db = (db, Outcome.error (Error.user 400 code))) := by
  have hcases := Validate_negative_cases c r hneg
  have hcode : ∃ code, Validate c r = Outcome.error (Error.user 400 code) := by
    rcases hcases with ⟨_, h⟩ | ⟨_, _, _, h⟩ | ⟨_, _, _, h⟩
    · exact ⟨_, h⟩
    · exact ⟨_, h⟩
    · exact ⟨_, h⟩
  refine ⟨ValidateAmount_negative hneg, ?_, hcode, ?_⟩
  · intro a ha ho
    rcases hcases with ⟨h1, _⟩ | ⟨b, h1, h2, _⟩ | ⟨_, _, _, h⟩
    · rw [ha] at h1
      cases h1
    · rw [ha] at h1
      cases h1
      exact absurd ho h2
    · exact h
  · intro fail db
    obtain ⟨code, h⟩ := hcode
    exact ⟨code, by simp [handle, h]⟩

/-- Witness of C14: the owner `u@m` posts the amount `-10`. -/
theorem Validate_negative_amount_witness :
    isNegativeAmount (demoRequest "u" "-10" "" "k@m").amount = true ∧
    Validate demoCodec (demoRequest "u" "-10" "" "k@m") =
      Outcome.error (Error.user 400 "amount_invalid") ∧
    (∃ code, handle demoCodec noFault (demoRequest "u" "-10" "" "k@m") (DB.ofStore demoStore) =
      (DB.ofStore demoStore, Outcome.error (Error.user 400 code))) :=
  ⟨by decide,
    (Validate_negative_amount demoCodec (demoRequest "u" "-10" "" "k@m") (by decide)).2.1
      { Name := "u@m[USD.2]", Owner := "u@m", Code := "USD", Scale := 2 } (by decide)
      (by decide),
    (Validate_negative_amount demoCodec (demoRequest "u" "-10" "" "k@m") (by decide)).2.2.2
      noFault (DB.ofStore demoStore)⟩

/-- Counterexample to C14 as stated: `v@m`, who does not own `u@m[USD.2]`, posts the amount
`-10`; validation fails with `operation_not_authorized`, not with `amount_invalid`. -/
theorem negative_amount_of_stranger :
    isNegativeAmount (demoRequest "v" "-10" "" "k@m").amount = true ∧
    Validate demoCodec (demoRequest "v" "-10" "" "k@m") =
      Outcome.error (Error.user 400 "operation_not_authorized") ∧
    Validate demoCodec (demoRequest "v" "-10" "" "k@m") ≠
      Outcome.error (Error.user 400 "amount_invalid") :=
  ⟨by decide, by decide, by decide⟩

/-- C11: path amounts use ceiling rounding.  The amount required at an offer of price `p/q`
(`p`, `q` positive) to yield `a ≥ 0` units is `ceilMul a p q = (a * p + q - 1) / q` with
integer division: it is the least integer `r` with `r * q ≥ a * p`, so the downstream hop
receives at least its target, and it is not negative.  Walking the path back from the
destination, the amount required in front of an offer is `ceilMul` of the amount required
behind it, and the first operation of the plan carries the amount required in front of the
whole path.  For amount 10 over the path `o1` at 100/100, `o2` at 100/98 the operations at
hops 0 and 2 are of 11 and the one at hop 4 of 10; for amount 10 over the prices 100/100,
100/120, 100/100, 100/98 the operation at hop 0 is of 10. -/
theorem ceilMul_is_ceiling (a p q : Int) (ha : 0 ≤ a) (hp : 0 < p) (hq : 0 < q) :
    ceilMul a p q = (a * p + q - 1) / q ∧
    0 ≤ ceilMul a p q ∧
    a * p ≤ ceilMul a p q * q ∧
    (∀ r : Int, a * p ≤ r * q → ceilMul a p q ≤ r) ∧
    (∀ (o : OfferResource) (os : List OfferResource) (amount : Int),
      requiredAmount (o :: os) amount =
        ceilMul (requiredAmount os amount) o.PriceP o.PriceQ) ∧
    (∀ tx : TransactionResource,
      operationAmountAt (planPath tx) 0 =
        some (requiredAmount tx.Path tx.Amount)) ∧
    operationAmountAt (planPath twoOffers) 0 = some 11 ∧
    operationAmountAt (planPath twoOffers) 2 = some 11 ∧
    operationAmountAt (planPath twoOffers) 4 = some 10 ∧
    operationAmountAt (planPath userUsedTwice) 0 = some 10 := by
  refine ⟨rfl, ?_, ceilMul_mul_ge (a * p) q hq,
    fun r hr => ceilMul_le_of_le_mul (a * p) q r hq hr, fun _ _ _ => rfl,
    fun tx => operationAmountAt_planFrom _ _ _ _ _ _, by decide, by decide, by decide,
    by decide⟩
  have h1 : 0 ≤ a * p := Int.mul_nonneg ha (Int.le_of_lt hp)
  exact Int.ediv_nonneg (by omega) (Int.le_of_lt hq)

/-- Witness of C11: 10 units through an offer at 100/98 require 11, and `11 * 98 ≥ 10 * 100`
while `10 * 98 < 10 * 100`. -/
theorem ceilMul_is_ceiling_witness :
    ceilMul 10 100 98 = 11 ∧ (10 : Int) * 100 ≤ ceilMul 10 100 98 * 98 ∧
      ¬ ((10 : Int) * 100 ≤ 10 * 98) :=
  ⟨by decide,
    (ceilMul_is_ceiling 10 100 98 (by decide) (by decide) (by decide)).2.2.1,
    by decide⟩

/-- C12, as amended: hop parity when the mint of the initiator issues the base asset.  For
every such transaction over a path of `n` offers the plan has `n + 1` operations, `n`
crossings and `2n + 1` hops; hop 0 is an operation on the base asset, owned by the mint of
the initiator and paid by the initiator; the operations, collected over all mints, are
exactly at the even hops `0, 2, ..., 2n` and the crossings exactly at the odd hops
`1, 3, ..., 2n - 1`; the hops the two-offer test asserts are the planned ones (hops 0 to 4).
In the remote-base-asset test (one offer, base asset issued by another mint) the asserted
hops are likewise 2 operations, 1 crossing and 3 hops, but numbered from 1: the operations
are at hops 1 and 3 and the crossing at hop 2. -/
theorem planPath_hops (tx : TransactionResource)
    (hbase : hostOf tx.Owner = hostOf tx.Base.Owner) :
    operationHops (planPath tx) = (List.range (tx.Path.length + 1)).map (fun i => 2 * i) ∧
    crossingHops (planPath tx) = (List.range tx.Path.length).map (fun i => 2 * i + 1) ∧
    (∀ h ∈ planPath tx, h.isOperation = true → h.index % 2 = 0) ∧
    (∀ h ∈ planPath tx, h.isOperation = false → h.index % 2 = 1) ∧
    (operationHops (planPath tx)).length = tx.Path.length + 1 ∧
    (crossingHops (planPath tx)).length = tx.Path.length ∧
    (planPath tx).length = 2 * tx.Path.length + 1 ∧
    (∃ destination amount, (planPath tx).head? =
      some (Hop.operation 0 (hostOf tx.Owner) tx.Base tx.Owner destination amount)) ∧
    (planPath twoOffers).map Hop.summary = twoOffersAsserted ∧
    (remoteBaseAssetAsserted.filter fun s => s.IsOperation).map HopSummary.TransactionHop =
      [1, 3] ∧
    (remoteBaseAssetAsserted.filter fun s => !s.IsOperation).map HopSummary.TransactionHop =
      [2] ∧
    remoteBaseAssetAsserted.length = 2 * remoteBaseAsset.Path.length + 1 := by
  have hop : operationHops (planPath tx) =
      (List.range (tx.Path.length + 1)).map (fun i => 2 * i) := by
    have h := operationHops_planFrom 0 tx.Base tx.Owner tx.Destination tx.Amount tx.Path
    simpa [planPath] using h
  have hcr : crossingHops (planPath tx) =
      (List.range tx.Path.length).map (fun i => 2 * i + 1) := by
    have h := crossingHops_planFrom 0 tx.Base tx.Owner tx.Destination tx.Amount tx.Path
    simpa [planPath] using h
  refine ⟨hop, hcr, ?_, ?_, ?_, ?_, length_planFrom _ _ _ _ _ _, ?_, by decide, by decide,
    by decide, by decide⟩
  · intro h hmem hk
    have hin : h.index ∈ operationHops (planPath tx) :=
      List.mem_map_of_mem _ (List.mem_filter.2 ⟨hmem, hk⟩)
    rw [hop] at hin
    obtain ⟨i, _, hi⟩ := List.mem_map.1 hin
    omega
  · intro h hmem hk
    have hin : h.index ∈ crossingHops (planPath tx) :=
      List.mem_map_of_mem _ (List.mem_filter.2 ⟨hmem, by simp [hk]⟩)
    rw [hcr] at hin
    obtain ⟨i, _, hi⟩ := List.mem_map.1 hin
    omega
  · rw [hop, List.length_map, List.length_range]
  · rw [hcr, List.length_map, List.length_range]
  · unfold planPath
    rw [hbase]
    cases tx.Path with
    | nil => exact ⟨_, _, rfl⟩
    | cons o os => exact ⟨_, _, rfl⟩

/-- Witness of C12, the two-offer test: the initiator `u0@m0` issues the base asset, the
operations are at hops 0, 2, 4 and the crossings at hops 1, 3. -/
theorem planPath_hops_witness :
    hostOf twoOffers.Owner = hostOf twoOffers.Base.Owner ∧
    operationHops (planPath twoOffers) = [0, 2, 4] ∧
    crossingHops (planPath twoOffers) = [1, 3] ∧
    (planPath twoOffers).length = 2 * twoOffers.Path.length + 1 :=
  ⟨by decide, (planPath_hops twoOffers (by decide)).1.trans (by decide),
    (planPath_hops twoOffers (by decide)).2.1.trans (by decide),
    (planPath_hops twoOffers (by decide)).2.2.2.2.2.2.1⟩

/-- Counterexample to C12 as stated, the remote-base-asset test: `u0@m0` pays with the
asset of `u1@m1` over one offer.  The hops the test asserts put the operations at the odd
hops 1 and 3 and the crossing at the even hop 2: they are the hops of the plan, mints and
amounts included, numbered from 1 and not from 0. -/
theorem remote_base_asset_hops_are_shifted :
    hostOf remoteBaseAsset.Owner ≠ hostOf remoteBaseAsset.Base.Owner ∧
    remoteBaseAsset.Path.length = 1 ∧
    (remoteBaseAssetAsserted.filter fun s => s.IsOperation).map HopSummary.TransactionHop =
      [1, 3] ∧
    (remoteBaseAssetAsserted.filter fun s => !s.IsOperation).map HopSummary.TransactionHop =
      [2] ∧
    ¬ (∀ s ∈ remoteBaseAssetAsserted,
        (s.IsOperation = true → s.TransactionHop % 2 = 0) ∧
        (s.IsOperation = false → s.TransactionHop % 2 = 1)) ∧
    (planPath remoteBaseAsset).map Hop.summary ≠ remoteBaseAssetAsserted ∧
    (planFrom 1 remoteBaseAsset.Base remoteBaseAsset.Owner remoteBaseAsset.Destination
      remoteBaseAsset.Amount remoteBaseAsset.Path).map Hop.summary =
      remoteBaseAssetAsserted :=
  ⟨by decide, by decide, by decide, by decide, by decide, by decide, by decide⟩

/-- C13: expiration undoes reservation.  For every transaction `tx` (over a path of one
offer, and of any other length) whose reserve phase succeeds on the ledger `l`, every row of
the transaction is `reserved` afterwards; and when the expiration task then runs, at a time
`now` not before the expiry, on every mint of a list `ms` that covers the mints the
transaction touches, in whatever order, with the propagated copies refreshed before and
after: every balance has the value it had before the reservation, every balance row stored
before is stored unchanged, every offer has the remainder it had before and the same offers
are stored, the propagated copies of balances and offers are the ones a refresh of the
initial ledger gives, and every row of the transaction, one at least on each mint it
touches, is `canceled`.  (A destination balance the reservation created stays, with the
value 0.) -/
theorem Expire_undoes_Reserve (tx : TransactionResource) (l l1 : Ledger) (now : Int)
    (ms : List String) (hres : Reserve tx l = some l1) (hexp : tx.Expiry ≤ now)
    (hms : ∀ m ∈ mintsOf tx, m ∈ ms) :
    (∀ r ∈ l1.transactions, r.ID = tx.ID → r.Status = TxStatus.reserved) ∧
    (∀ a h, valueOf a h (propagate (ExpireAll now tx ms (propagate l1))).balances =
      valueOf a h l.balances) ∧
    (∀ a h b, findBalance a h l.balances = some b →
      findBalance a h (propagate (ExpireAll now tx ms (propagate l1))).balances = some b) ∧
    (∀ id, remainderOf id (propagate (ExpireAll now tx ms (propagate l1))).offers =
      remainderOf id l.offers) ∧
    (∀ id, hasOffer id (propagate (ExpireAll now tx ms (propagate l1))).offers =
      hasOffer id l.offers) ∧
    (propagate (ExpireAll now tx ms (propagate l1))).propagatedBalances =
      (propagate l).propagatedBalances ∧
    (propagate (ExpireAll now tx ms (propagate l1))).propagatedOffers =
      (propagate l).propagatedOffers ∧
    (∀ r ∈ (propagate (ExpireAll now tx ms (propagate l1))).transactions,
      r.ID = tx.ID → r.Status = TxStatus.canceled) ∧
    (∀ m ∈ mintsOf tx, ∃ r ∈ (propagate (ExpireAll now tx ms (propagate l1))).transactions,
      r.ID = tx.ID ∧ r.Mint = m) := by
  have ho0 : Owing tx l l1 := Reserve_Owing hres
  have ho1 : Owing tx l (propagate l1) := ho0
  have ho : Owing tx l (ExpireAll now tx ms (propagate l1)) :=
    Owing_ExpireAll now tx l ms _ ho1
  have hp : ∀ m ∈ mintsOf tx,
      pendingOn tx.ID m (ExpireAll now tx ms (propagate l1)).transactions = false :=
    fun m hm => pendingOn_ExpireAll now tx hexp m ms _ (Or.inl (hms m hm))
  obtain ⟨hv, hr⟩ := Owing_settled tx l _ ho hp
  have hrows : RowsOf tx (ExpireAll now tx ms (propagate l1)).transactions :=
    RowsOf_ExpireAll now tx ms (propagate l1)
      (show RowsOf tx l1.transactions from Reserve_RowsOf hres)
  obtain ⟨e1, e2⟩ := ExpireAll_propagated now tx ms (propagate l1)
  obtain ⟨p1, p2⟩ := Reserve_propagated hres
  obtain ⟨q1, q2⟩ := propagate_twice l l1 _ hv hr e1 e2 p1 p2
  refine ⟨fun r hr1 hid => (Reserve_reserved hres r hr1 hid).2, hv, ?_, hr, ho.2.2, q1, q2,
    ?_, hrows.2⟩
  · intro a h b hb
    apply row_of_valueOf hb _ (hv a h)
    apply stored_ExpireAll a h now tx ms (propagate l1)
    apply Reserve_stored hres a h
    rw [hb]
    rfl
  · intro r hr1 hid
    obtain ⟨k1, k2⟩ := hrows.1 r hr1 hid
    rcases k2 with k2 | k2
    · have ht : pendingOn tx.ID r.Mint
          (ExpireAll now tx ms (propagate l1)).transactions = true :=
        pendingOn_of_mem hr1 hid rfl k2
      rw [hp r.Mint k1] at ht
      cases ht
    · exact k2

/-- Witness of C13, `TestCreateTransactionWith1OfferExpired`: `u2` holds 20 of `u0[USD.2]`
and the offer `o1` has 100 left.  Reserving the transaction of `u2` over the path `o1`,
amount 10, leaves 10 and 90, on the canonical rows and on the refreshed copies of `m2` and
`m0`; the expiration on `m0`, `m1` and `m2` at time 1001, after the expiry 1000, gives 20
and 100 again, on the canonical rows and on the copies, and every row of the transaction is
`canceled`. -/
theorem Expire_undoes_Reserve_witness :
    Reserve oneOfferExpired expiredLedger = some reservedLedger ∧
    valueOf "u0@m0[USD.2]" "u2@m2" expiredLedger.balances = 20 ∧
    remainderOf "o1" expiredLedger.offers = 100 ∧
    valueOf "u0@m0[USD.2]" "u2@m2" reservedLedger.balances = 10 ∧
    remainderOf "o1" reservedLedger.offers = 90 ∧
    (propagate reservedLedger).propagatedBalances =
      [("m2", { Asset := "u0@m0[USD.2]", Holder := "u2@m2", Value := 10 })] ∧
    (propagate reservedLedger).propagatedOffers =
      [("m0", { ID := "o1", Amount := 100, Remainder := 90 })] ∧
    valueOf "u0@m0[USD.2]" "u2@m2"
      (propagate (ExpireAll 1001 oneOfferExpired ["m0", "m1", "m2"]
        (propagate reservedLedger))).balances = 20 ∧
    remainderOf "o1"
      (propagate (ExpireAll 1001 oneOfferExpired ["m0", "m1", "m2"]
        (propagate reservedLedger))).offers = 100 ∧
    (propagate (ExpireAll 1001 oneOfferExpired ["m0", "m1", "m2"]
        (propagate reservedLedger))).propagatedBalances =
      [("m2", { Asset := "u0@m0[USD.2]", Holder := "u2@m2", Value := 20 })] ∧
    (propagate (ExpireAll 1001 oneOfferExpired ["m0", "m1", "m2"]
        (propagate reservedLedger))).propagatedOffers =
      [("m0", { ID := "o1", Amount := 100, Remainder := 100 })] ∧
    (∀ r ∈ (propagate (ExpireAll 1001 oneOfferExpired ["m0", "m1", "m2"]
        (propagate reservedLedger))).transactions,
      r.ID = oneOfferExpired.ID → r.Status = TxStatus.canceled) :=
  ⟨by decide, by decide, by decide, by decide, by decide, by decide, by decide,
    ((Expire_undoes_Reserve oneOfferExpired expiredLedger reservedLedger 1001
      ["m0", "m1", "m2"] (by decide) (by decide) (by decide)).2.1 _ _).trans (by decide),
    ((Expire_undoes_Reserve oneOfferExpired expiredLedger reservedLedger 1001
      ["m0", "m1", "m2"] (by decide) (by decide) (by decide)).2.2.2.1 _).trans (by decide),
    ((Expire_undoes_Reserve oneOfferExpired expiredLedger reservedLedger 1001
      ["m0", "m1", "m2"] (by decide) (by decide) (by decide)).2.2.2.2.2.1).trans
      (by decide),
    ((Expire_undoes_Reserve oneOfferExpired expiredLedger reservedLedger 1001
      ["m0", "m1", "m2"] (by decide) (by decide) (by decide)).2.2.2.2.2.2.1).trans
      (by decide),
    (Expire_undoes_Reserve oneOfferExpired expiredLedger reservedLedger 1001
      ["m0", "m1", "m2"] (by decide) (by decide) (by decide)).2.2.2.2.2.2.2.1⟩

end Settle
